import Mathlib

/-!
# pcx2bmp: a verification development

A shallow embedding of `converter.go` (the PCX run-length decoder `LoadPCX`, the
BMP reader `LoadBMP` and the 8-bit BMP writer `SaveBMP`) and of `quant.go` (the
frequency quantizer `FreqQuantizer.Quantize` with `findNearestIndex` and
`distSq`), followed by the theorems about them.

Modelling conventions
* a Go `byte` is `Fin 256`; a Go `int` that can be negative (a width, a height,
  a row size) is `Int`, and lengths, indices and counts are `Nat` (the programs
  never leave the 64-bit range on buffers that fit in memory); conversions to
  narrower machine types (`uint16`, `uint32`, `int32`, `byte`) are written out
  with `%`;
* a Go slice or array is a `List`; a `[256]ColorRGB` is a list that the code
  always builds with 256 entries;
* a file is the list of its bytes together with a read position; one `Read`
  call on it transfers at most `maxRW` (1 GiB) bytes, as in the Go runtime;
* a run-time panic and an I/O error are values of `Err`.
-/

namespace Pcx2Bmp

/-! ## Data model (`converter.go`, lines 10-49) -/

/-- A Go `byte`. -/
abbrev Byte := Fin 256

/-- The Go struct `ColorRGB`. -/
structure ColorRGB where
  R : Byte
  G : Byte
  B : Byte
deriving DecidableEq, Repr

instance : Inhabited ColorRGB := ⟨⟨0, 0, 0⟩⟩

/-- The zero value of `ColorRGB`. -/
def black : ColorRGB := ⟨0, 0, 0⟩

/-- The Go struct `ImageData`. -/
structure ImageData where
  Width : Int
  Height : Int
  Pix : List ColorRGB
  Palette : List ColorRGB
  HasPal : Bool
deriving DecidableEq, Repr

/-- The zero value of a `[256]ColorRGB`. -/
def zeroPalette : List ColorRGB := List.replicate 256 black

/-! ## `quant.go`: nearest palette entry -/

/-- The constant `math.MaxFloat64`, which is the integer `(2^53 - 1) * 2^971`. -/
def maxFloat64 : Int := (2 ^ 53 - 1) * 2 ^ 971

/-- The function `distSq`.  Its `float64` operands are integers of magnitude at
most `255`, and every intermediate value is an integer below `2^53`, so the
floating-point arithmetic of the source is exact and is carried out in `Int`. -/
def distSq (a b : ColorRGB) : Int :=
  let dr : Int := (a.R.val : Int) - (b.R.val : Int)
  let dg : Int := (a.G.val : Int) - (b.G.val : Int)
  let db : Int := (a.B.val : Int) - (b.B.val : Int)
  dr * dr + dg * dg + db * db

/-- The loop of `findNearestIndex`, started at index `i` with `n` iterations
left (`n = 256 - i`), carrying `best` and `bestDist`. -/
def nearestLoop (c : ColorRGB) (palette : List ColorRGB) : Nat → Nat → Nat → Int → Nat
  | 0, _, best, _ => best
  | n + 1, i, best, bestDist =>
    let d := distSq c (palette.getD i black)
    if d < bestDist then
      if d = 0 then i
      else nearestLoop c palette n (i + 1) i d
    else nearestLoop c palette n (i + 1) best bestDist

/-- The function `findNearestIndex`. -/
def findNearestIndex (c : ColorRGB) (palette : List ColorRGB) : Nat :=
  nearestLoop c palette 256 0 0 maxFloat64


/-! ## `quant.go`: the frequency quantizer

`Quantize` starts `runtime.NumCPU()` goroutines twice, ranges over Go maps (whose
iteration order is unspecified) and calls `sort.Slice` (which is not stable).
These choices of the Go runtime are the fields of `Runtime`: the result of
`Quantize` is a function of the input buffer and of them.  The goroutines share
only `freqMap`, which they update inside the mutex, and `outPix`, which they
write at disjoint indices, so running them one after another in the order in
which they take the mutex is every behaviour the program has. -/

/-- Errors: a failed read or seek, a format rejected by the code, a run-time panic. -/
inductive Err where
  | io
  | format
  | panic
deriving DecidableEq, Repr

/-- A Go `map[ColorRGB]int`: the list of its entries, keys pairwise distinct. -/
abbrev FreqMap := List (ColorRGB × Nat)

/-- The statement `m[k] += v` (and `m[k]++` for `v = 1`). -/
def mapAdd : FreqMap → ColorRGB → Nat → FreqMap
  | [], k, v => [(k, v)]
  | (k0, n) :: t, k, v => if k0 = k then (k0, n + v) :: t else (k0, n) :: mapAdd t k v

/-- The expression `m[k]`, zero for an absent key. -/
def mapGet : FreqMap → ColorRGB → Nat
  | [], _ => 0
  | (k0, n) :: t, k => if k0 = k then n else mapGet t k

/-- The local type `kv` of `Quantize` is a pair `(c, n)`; the closure given to
`sort.Slice` is `arr[i].n > arr[j].n`. -/
def kvLess (a b : ColorRGB × Nat) : Bool := decide (a.2 > b.2)

/-- The choices the Go runtime makes during one call of `Quantize`. -/
structure Runtime where
  /-- The value of `runtime.NumCPU()`. -/
  numCPU : Nat
  /-- The order in which the counting goroutines take the mutex. -/
  mergeOrder : List Nat
  /-- The iteration order of a `range` over a map: `rangeOrder i` for the local
  map of goroutine `i`, `rangeOrder numCPU` for `freqMap`. -/
  rangeOrder : Nat → FreqMap → FreqMap
  /-- The function `sort.Slice` at the element type `kv`. -/
  sortSlice : ((ColorRGB × Nat) → (ColorRGB × Nat) → Bool) → FreqMap → FreqMap
  /-- The order in which the remapping goroutines run. -/
  remapOrder : List Nat

/-- What the Go runtime and library guarantee: at least one CPU, every goroutine
runs once, a `range` visits every entry once, and `sort.Slice` permutes its slice
so that no later element is `less` than an earlier one. -/
structure Runtime.Valid (rt : Runtime) : Prop where
  cpu_pos : 1 ≤ rt.numCPU
  merge_perm : rt.mergeOrder.Perm (List.range rt.numCPU)
  range_perm : ∀ i m, (rt.rangeOrder i m).Perm m
  sort_perm : ∀ l, (rt.sortSlice kvLess l).Perm l
  sort_sorted : ∀ l, (rt.sortSlice kvLess l).Pairwise (fun a b => kvLess b a = false)
  remap_perm : rt.remapOrder.Perm (List.range rt.numCPU)

/-- The bound `start := i * step` of goroutine `i`, with `step := len(img.Pix) / numCPU`. -/
def chunkStart (len numCPU i : Nat) : Nat := i * (len / numCPU)

/-- The bound `end` of goroutine `i`: `start + step`, or `len(img.Pix)` for the last one. -/
def chunkEnd (len numCPU i : Nat) : Nat :=
  if i = numCPU - 1 then len else chunkStart len numCPU i + len / numCPU

/-- The counting loop `for j := s; j < e; j++ { localMap[img.Pix[j]]++ }`. -/
def countChunk (pix : List ColorRGB) (s e : Nat) : FreqMap :=
  (List.range' s (e - s)).foldl (fun m j => mapAdd m (pix.getD j black) 1) []

/-- The merge `for k, v := range localMap { freqMap[k] += v }`, the entries of
`localMap` taken in the order `entries`. -/
def mergeInto (freqMap : FreqMap) (entries : FreqMap) : FreqMap :=
  entries.foldl (fun m kv => mapAdd m kv.1 kv.2) freqMap

/-- The first phase of `Quantize` (lines 13-41): the value of `freqMap` after `wg.Wait()`. -/
def histogram (rt : Runtime) (pix : List ColorRGB) : FreqMap :=
  rt.mergeOrder.foldl
    (fun m i => mergeInto m (rt.rangeOrder i
      (countChunk pix (chunkStart pix.length rt.numCPU i) (chunkEnd pix.length rt.numCPU i))))
    []

/-- The slice `arr` after `sort.Slice` (lines 43-53). -/
def sortedColors (rt : Runtime) (pix : List ColorRGB) : FreqMap :=
  rt.sortSlice kvLess (rt.rangeOrder rt.numCPU (histogram rt pix))

/-- The palette loop (lines 55-62). -/
def buildPalette (arr : FreqMap) : List ColorRGB :=
  (List.range 256).map (fun i => if i < arr.length then (arr.getD i (black, 0)).1 else black)

/-- The conversion `byte(idx)` of an `int`. -/
def byteOfNat (n : Nat) : Byte := ⟨n % 256, Nat.mod_lt n (by decide)⟩

/-- The remapping loop of one goroutine (lines 76-80). -/
def remapChunk (pix palette : List ColorRGB) (s e : Nat) (outPix : List ColorRGB) : List ColorRGB :=
  (List.range' s (e - s)).foldl
    (fun out j => out.set j ⟨byteOfNat (findNearestIndex (pix.getD j black) palette), 0, 0⟩)
    outPix

/-- The second phase of `Quantize` (lines 64-83): the value of `outPix` after `wg2.Wait()`. -/
def remap (rt : Runtime) (pix palette : List ColorRGB) : List ColorRGB :=
  rt.remapOrder.foldl
    (fun out i =>
      remapChunk pix palette (chunkStart pix.length rt.numCPU i) (chunkEnd pix.length rt.numCPU i) out)
    (List.replicate pix.length black)

/-- The method `FreqQuantizer.Quantize`.  Dividing by `numCPU = 0` would panic. -/
def Quantize (rt : Runtime) (img : ImageData) : Except Err ImageData :=
  if rt.numCPU = 0 then .error .panic
  else
    let palette := buildPalette (sortedColors rt img.Pix)
    .ok { Width := img.Width, Height := img.Height, Pix := remap rt img.Pix palette,
          Palette := palette, HasPal := true }

/-- A runtime with `n` CPUs whose goroutines run in index order, whose maps are
ranged over in insertion order and whose sort is an insertion sort. -/
def simpleRuntime (n : Nat) : Runtime where
  numCPU := n
  mergeOrder := List.range n
  rangeOrder := fun _ m => m
  sortSlice := fun less l => List.insertionSort (fun a b => less b a = false) l
  remapOrder := List.range n

/-- The sum of the counts of the entries of `m` with key `c`. -/
def entrySum : FreqMap → ColorRGB → Nat
  | [], _ => 0
  | (k, n) :: t, c => (if k = c then n else 0) + entrySum t c

/-- The keys of a map are pairwise distinct and its counts are positive. -/
def MapWF (m : FreqMap) : Prop := (m.map Prod.fst).Nodup ∧ ∀ kv ∈ m, 0 < kv.2

/-- The pixels `img.Pix[start:end]` of goroutine `i`. -/
def chunkSlice (pix : List ColorRGB) (numCPU i : Nat) : List ColorRGB :=
  (pix.drop (chunkStart pix.length numCPU i)).take
    (chunkEnd pix.length numCPU i - chunkStart pix.length numCPU i)

/-- The 2x2 true-colour buffer with pixels `(0,0,0), (0,0,0), (255,255,255), (1,1,1)`. -/
def sampleBuffer : ImageData :=
  { Width := 2, Height := 2,
    Pix := [⟨0, 0, 0⟩, ⟨0, 0, 0⟩, ⟨255, 255, 255⟩, ⟨1, 1, 1⟩],
    Palette := zeroPalette, HasPal := false }

/-! ## `converter.go`: files -/

/-- An open `*os.File` on a regular file: its bytes and the read position. -/
structure File where
  data : List Byte
  pos : Nat
deriving DecidableEq, Repr

/-- The constant `maxRW` of the Go runtime (`internal/poll`): the largest number
of bytes one `Read` call on an `*os.File` transfers, 1 GiB. -/
def maxRW : Nat := 1073741824

/-- The call `f.Read(buf)` on a zeroed buffer of `n` bytes; the result is the
buffer after the call.  A read of no bytes succeeds, a read at the end of the
file fails with `io.EOF`, and any other read returns the bytes that are left, up
to `n` of them and at most `maxRW` in one call, without an error; the rest of
the buffer stays zero. -/
def File.read (f : File) (n : Nat) : Except Err (List Byte × File) :=
  if n = 0 then .ok ([], f)
  else if f.data.length ≤ f.pos then .error .io
  else
    let got := (f.data.drop f.pos).take (min n maxRW)
    .ok (got ++ List.replicate (n - got.length) 0, { f with pos := f.pos + got.length })

/-- The call `binary.Read(f, binary.LittleEndian, &v)` for a value of `n` bytes:
it fails unless `n` bytes are left. -/
def File.readFull (f : File) (n : Nat) : Except Err (List Byte × File) :=
  if f.pos + n ≤ f.data.length then
    .ok ((f.data.drop f.pos).take n, { f with pos := f.pos + n })
  else .error .io

/-- The call `f.Seek(off, io.SeekStart)`: it fails for a negative offset. -/
def File.seek (f : File) (off : Int) : Except Err File :=
  if off < 0 then .error .io else .ok { f with pos := off.toNat }

/-- The value of `binary.LittleEndian.Uint16(b[off:])`. -/
def le16 (b : List Byte) (off : Nat) : Nat :=
  (b.getD off 0).val + 256 * (b.getD (off + 1) 0).val

/-- The value of `binary.LittleEndian.Uint32(b[off:])`. -/
def le32 (b : List Byte) (off : Nat) : Nat :=
  (b.getD off 0).val + 256 * (b.getD (off + 1) 0).val + 65536 * (b.getD (off + 2) 0).val
    + 16777216 * (b.getD (off + 3) 0).val

/-- The conversion of an integer to `uint16`. -/
def toUint16 (v : Int) : Nat := (v % 65536).toNat

/-- The conversion of an integer to `uint32`. -/
def toUint32 (v : Int) : Nat := (v % 4294967296).toNat

/-- The conversion `int32(v)` of a `uint32`. -/
def toInt32 (v : Nat) : Int :=
  if v % 4294967296 < 2147483648 then ((v % 4294967296 : Nat) : Int)
  else ((v % 4294967296 : Nat) : Int) - 4294967296

/-- The operator `x &^ y` (bit clear) on two's-complement integers. -/
def bitClear (x y : Int) : Int := Int.land x (Int.lnot y)

/-! ## `converter.go`: `LoadPCX` -/

/-- The Go struct `PCXHeader` (128 bytes, little-endian, no padding). -/
structure PCXHeader where
  Manufacturer : Byte
  Version : Byte
  Encoding : Byte
  BitsPerPixel : Byte
  XMin : Nat
  YMin : Nat
  XMax : Nat
  YMax : Nat
  HDpi : Nat
  VDpi : Nat
  Colormap : List Byte
  Reserved : Byte
  NumPlanes : Byte
  BytesPerLine : Nat
  PaletteInfo : Nat
  HScreenSize : Nat
  VScreenSize : Nat
  Filler : List Byte
deriving DecidableEq, Repr

/-- What `binary.Read(f, binary.LittleEndian, &hdr)` stores in `hdr` from the 128 bytes read. -/
def decodePCXHeader (b : List Byte) : PCXHeader :=
  { Manufacturer := b.getD 0 0, Version := b.getD 1 0, Encoding := b.getD 2 0,
    BitsPerPixel := b.getD 3 0,
    XMin := le16 b 4, YMin := le16 b 6, XMax := le16 b 8, YMax := le16 b 10,
    HDpi := le16 b 12, VDpi := le16 b 14,
    Colormap := (b.drop 16).take 48,
    Reserved := b.getD 64 0, NumPlanes := b.getD 65 0,
    BytesPerLine := le16 b 66, PaletteInfo := le16 b 68,
    HScreenSize := le16 b 70, VScreenSize := le16 b 72,
    Filler := (b.drop 74).take 54 }

/-- The width `int(hdr.XMax - hdr.XMin + 1)`: the arithmetic is done in `uint16`. -/
def pcxWidth (hdr : PCXHeader) : Nat := toUint16 ((hdr.XMax : Int) - (hdr.XMin : Int) + 1)

/-- The height `int(hdr.YMax - hdr.YMin + 1)`: the arithmetic is done in `uint16`. -/
def pcxHeight (hdr : PCXHeader) : Nat := toUint16 ((hdr.YMax : Int) - (hdr.YMin : Int) + 1)

/-- The palette loop over the 768 bytes after the marker (lines 84-90). -/
def paletteOfTrailer (palData : List Byte) : List ColorRGB :=
  (List.range 256).map
    (fun i => ⟨palData.getD (i * 3 + 0) 0, palData.getD (i * 3 + 1) 0, palData.getD (i * 3 + 2) 0⟩)

/-- The palette loop over the header colormap (lines 92-98): entries 16..255 keep
the zero value. -/
def paletteOfColormap (colormap : List Byte) : List ColorRGB :=
  (List.range 256).map
    (fun i =>
      if i < 16 then
        ⟨colormap.getD (i * 3 + 0) 0, colormap.getD (i * 3 + 1) 0, colormap.getD (i * 3 + 2) 0⟩
      else black)

/-- The assignment `if x < w { imgData[y*w+x] = c }`. -/
def putPixel (w x y : Nat) (c : ColorRGB) (pix : List ColorRGB) : List ColorRGB :=
  if x < w then pix.set (y * w + x) c else pix

/-- The inner loop `for j := 0; j < int(count) && x < bytesPerLine; j++` of a
run (lines 118-123), with `count` repeats left; it returns `x` and `imgData`. -/
def runLoop (w bpl y : Nat) (c : ColorRGB) : Nat → Nat → List ColorRGB → Nat × List ColorRGB
  | 0, x, pix => (x, pix)
  | count + 1, x, pix =>
    if x < bpl then runLoop w bpl y c count (x + 1) (putPixel w x y c pix) else (x, pix)

/-- The column after `if x >= bytesPerLine { x = 0; y++ }`. -/
def wrapX (bpl x : Nat) : Nat := if bpl ≤ x then 0 else x

/-- The row after `if x >= bytesPerLine { x = 0; y++ }`. -/
def wrapY (bpl x y : Nat) : Nat := if bpl ≤ x then y + 1 else y

/-- The decoding loop `for y < h` (lines 107-134) on the bytes still unread,
from the cursor `(x, y)`; it returns `imgData`.  A failed read (no byte left)
leaves the loop. -/
def decodeLoop (w h bpl : Nat) (palette : List ColorRGB) :
    List Byte → Nat → Nat → List ColorRGB → List ColorRGB
  | [], _, _, pix => pix
  | [b], x, y, pix =>
    if y < h then
      if 192 ≤ b.val then pix
      else putPixel w x y (palette.getD b.val black) pix
    else pix
  | b :: c :: rest, x, y, pix =>
    if y < h then
      if 192 ≤ b.val then
        let r := runLoop w bpl y (palette.getD c.val black) (b.val &&& 0x3F) x pix
        decodeLoop w h bpl palette rest (wrapX bpl r.1) (wrapY bpl r.1 y) r.2
      else
        decodeLoop w h bpl palette (c :: rest) (wrapX bpl (x + 1)) (wrapY bpl (x + 1) y)
          (putPixel w x y (palette.getD b.val black) pix)
    else pix

/-- The function `LoadPCX` on a file with the given bytes. -/
def LoadPCX (file : List Byte) : Except Err ImageData := do
  let f : File := { data := file, pos := 0 }
  let (hb, f) ← f.readFull 128
  let hdr := decodePCXHeader hb
  let w := pcxWidth hdr
  let h := pcxHeight hdr
  let f ← f.seek ((file.length : Int) - 769)
  let (mark, f) ← f.read 1
  let (palette, f) ←
    if (mark.getD 0 0).val = 0x0C then do
      let (palData, f) ← f.read 768
      pure (paletteOfTrailer palData, f)
    else pure (paletteOfColormap hdr.Colormap, f)
  let f ← f.seek 128
  let imgData := List.replicate (w * h) black
  let pix := decodeLoop w h hdr.BytesPerLine palette (f.data.drop f.pos) 0 0 imgData
  pure { Width := w, Height := h, Pix := pix, Palette := zeroPalette, HasPal := false }

/-! ## `converter.go`: `LoadBMP` and `SaveBMP` -/

/-- The four bytes `binary.LittleEndian.PutUint32` stores for the `uint32` value `v`. -/
def putUint32 (v : Nat) : List Byte :=
  [byteOfNat v, byteOfNat (v >>> 8), byteOfNat (v >>> 16), byteOfNat (v >>> 24)]

/-- The two bytes `binary.LittleEndian.PutUint16` stores for the `uint16` value `v`. -/
def putUint16 (v : Nat) : List Byte := [byteOfNat v, byteOfNat (v >>> 8)]

/-- The row size `(w + 3) &^ 3` of `SaveBMP`. -/
def saveRowSize (w : Int) : Int := bitClear (w + 3) 3

/-- The array `fileHeader` of `SaveBMP` (lines 222-226); bytes 6..9 stay zero. -/
def bmpFileHeader (fileSize : Int) : List Byte :=
  [0x42, 0x4D] ++ putUint32 (toUint32 fileSize) ++ [0, 0, 0, 0] ++ putUint32 (54 + 256 * 4)

/-- The array `dibHeader` of `SaveBMP` (lines 229-236); bytes 24..39 stay zero. -/
def bmpDibHeader (w h dataSize : Int) : List Byte :=
  putUint32 40 ++ putUint32 (toUint32 w) ++ putUint32 (toUint32 h) ++ putUint16 1 ++ putUint16 8
    ++ putUint32 0 ++ putUint32 (toUint32 dataSize) ++ List.replicate 16 0

/-- The palette loop of `SaveBMP` (lines 245-251): `B, G, R, 0` for each of the 256 entries. -/
def bmpPaletteBytes (palette : List ColorRGB) : List Byte :=
  (List.range 256).flatMap
    (fun i => [(palette.getD i black).B, (palette.getD i black).G, (palette.getD i black).R, 0])

/-- The loop `for x := 0; x < w; x++ { line[x] = img.Pix[y*w+x].R }` over the
columns `xs`; an index outside `img.Pix` panics. -/
def fillLine (pix : List ColorRGB) (w y : Nat) : List Nat → List Byte → Except Err (List Byte)
  | [], line => .ok line
  | x :: xs, line =>
    match pix[y * w + x]? with
    | none => .error .panic
    | some c => fillLine pix w y xs (line.set x c.R)

/-- The loop `for y := h - 1; y >= 0; y--` of `SaveBMP` over the rows `ys`; it
returns the bytes written.  The buffer `line` is reused from row to row. -/
def writeRows (pix : List ColorRGB) (w : Nat) : List Nat → List Byte → Except Err (List Byte)
  | [], _ => .ok []
  | y :: ys, line =>
    match fillLine pix w y (List.range w) line with
    | .error e => .error e
    | .ok line2 =>
      match writeRows pix w ys line2 with
      | .error e => .error e
      | .ok rest => .ok (line2 ++ rest)

/-- The function `SaveBMP`: the bytes of the file it writes (every write
succeeding).  `make([]byte, rowSize)` panics for a negative `rowSize`.  The
loops run only over non-negative `y` and `x`, and the `x` loop runs only for
`w > 0`. -/
def SaveBMP (img : ImageData) : Except Err (List Byte) :=
  let w := img.Width
  let h := img.Height
  let rowSize := saveRowSize w
  let dataSize := rowSize * h
  let fileSize := 54 + 256 * 4 + dataSize
  if rowSize < 0 then .error .panic
  else
    match writeRows img.Pix w.toNat (List.range h.toNat).reverse
        (List.replicate rowSize.toNat 0) with
    | .error e => .error e
    | .ok rows =>
      .ok (bmpFileHeader fileSize ++ bmpDibHeader w h dataSize ++ bmpPaletteBytes img.Palette ++ rows)

/-- The palette loop of `LoadBMP` (lines 172-178) with `n` entries left, the
next one being entry `i`. -/
def readPalette : Nat → Nat → File → List ColorRGB → Except Err (List ColorRGB × File)
  | 0, _, f, palette => .ok (palette, f)
  | n + 1, i, f, palette =>
    match f.readFull 4 with
    | .error e => .error e
    | .ok (rgba, f2) =>
      readPalette n (i + 1) f2 (palette.set i ⟨rgba.getD 2 0, rgba.getD 1 0, rgba.getD 0 0⟩)

/-- The row size `(w*int(bitCount)/8 + 3) &^ 3` of `LoadBMP`. -/
def loadRowSize (w : Int) (bitCount : Nat) : Int :=
  bitClear (Int.tdiv (w * (bitCount : Int)) 8 + 3) 3

/-- The pixel `LoadBMP` stores at `(x, y)` (lines 188-200).  The indices into
`data` are below `rowSize * h`. -/
def bmpPixel (bitCount : Nat) (data : List Byte) (palette : List ColorRGB) (h rowSize : Nat)
    (y x : Nat) : ColorRGB :=
  let srcY := h - 1 - y
  let off := srcY * rowSize
  if bitCount = 8 then
    palette.getD (data.getD (off + x) 0).val black
  else
    let i := off + x * 3
    ⟨data.getD (i + 2) 0, data.getD (i + 1) 0, data.getD (i + 0) 0⟩

/-- The pixel loops of `LoadBMP` (lines 186-202) on the buffer `pix`, for
`h, w ≥ 0` iterations. -/
def fillPixFrom (bitCount : Nat) (data : List Byte) (palette : List ColorRGB) (w h rowSize : Nat)
    (pix : List ColorRGB) : List ColorRGB :=
  (List.range h).foldl
    (fun pix y =>
      (List.range w).foldl
        (fun pix x => pix.set (y * w + x) (bmpPixel bitCount data palette h rowSize y x)) pix)
    pix

/-- The pixel loops of `LoadBMP` on a fresh buffer of `w * h` pixels. -/
def fillPix (bitCount : Nat) (data : List Byte) (palette : List ColorRGB) (w h rowSize : Nat) :
    List ColorRGB :=
  fillPixFrom bitCount data palette w h rowSize (List.replicate (w * h) black)

/-- The function `LoadBMP` on a file with the given bytes.  `make` panics for a
negative length; `make([]ColorRGB, w*h)` has `w*h` entries, also when `w` and `h`
are both negative.  The pixel loops run only for `h > 0` and `w > 0`, when
`rowSize ≥ 0`. -/
def LoadBMP (file : List Byte) : Except Err ImageData :=
  match File.read { data := file, pos := 0 } 14 with
  | .error e => .error e
  | .ok (fileHeader, f1) =>
    if fileHeader.getD 0 0 ≠ 0x42 ∨ fileHeader.getD 1 0 ≠ 0x4D then .error .format
    else
      match f1.read 40 with
      | .error e => .error e
      | .ok (dibHeader, f2) =>
        let w := toInt32 (le32 dibHeader 4)
        let h := toInt32 (le32 dibHeader 8)
        let bitCount := le16 dibHeader 14
        if bitCount ≠ 8 ∧ bitCount ≠ 24 then .error .format
        else
          let palCount := if bitCount = 8 then 256 else 0
          match readPalette palCount 0 f2 zeroPalette with
          | .error e => .error e
          | .ok (palette, f3) =>
            let rowSize := loadRowSize w bitCount
            if rowSize * h < 0 then .error .panic
            else
              match f3.read (rowSize * h).toNat with
              | .error e => .error e
              | .ok (data, _) =>
                if w * h < 0 then .error .panic
                else
                  .ok { Width := w, Height := h,
                        Pix := fillPixFrom bitCount data palette w.toNat h.toNat rowSize.toNat
                          (List.replicate (w * h).toNat black),
                        Palette := zeroPalette, HasPal := false }

/-- Row `y` of the image as `SaveBMP` writes it: the indices of the `w` pixels of
the row, then zero bytes up to `rowSize`. -/
def bmpRow (pix : List ColorRGB) (w rowSize y : Nat) : List Byte :=
  (List.range w).map (fun x => (pix.getD (y * w + x) black).R) ++ List.replicate (rowSize - w) 0

/-- The composition of `SaveBMP` and `LoadBMP`: the file `SaveBMP` writes is read back. -/
def saveThenLoad (img : ImageData) : Except Err ImageData :=
  match SaveBMP img with
  | .error e => .error e
  | .ok bytes => LoadBMP bytes

/-- The least multiple of 4 that is at least `w`; it is the value of `(w + 3) &^ 3`
for `w ≥ 0` (theorem `saveRowSize_nat`). -/
def stride (w : Nat) : Nat := (w + 3) / 4 * 4

/-- The four bytes `B, G, R, 0` of a palette entry in the file. -/
def bgr0 (c : ColorRGB) : List Byte := [c.B, c.G, c.R, 0]

/-- The 1x1 indexed buffer whose pixel is the index 0 and whose palette is 256
times `(1,2,3)`. -/
def indexedPixel : ImageData :=
  { Width := 1, Height := 1, Pix := [⟨0, 0, 0⟩], Palette := List.replicate 256 ⟨1, 2, 3⟩,
    HasPal := true }

/-- A 769-byte PCX file whose header declares the bounding box `xmin = 0`,
`ymin = 0`, `xmax = 65535`, `ymax = 0` (one bit per pixel, one plane, 8192 bytes
per line), followed by 641 zero bytes. -/
def fullWidthPCX : List Byte :=
  [10, 5, 1, 1, 0, 0, 0, 0, 255, 255, 0, 0, 0, 0, 0, 0] ++ List.replicate 48 0
    ++ [0, 1, 0, 32] ++ List.replicate 60 0 ++ List.replicate 641 0

/-- The active palette of `LoadPCX` (lines 70-99) for a file of at least 769
bytes: the marker is the byte at offset `len - 769`, the trailer is the 768 bytes
after it, the colormap is in the header. -/
def pcxActivePalette (file : List Byte) : List ColorRGB :=
  if (file.getD (file.length - 769) 0).val = 0x0C then
    paletteOfTrailer ((file.drop (file.length - 768)).take 768)
  else paletteOfColormap (decodePCXHeader (file.take 128)).Colormap

/-- The decoding loop of `LoadPCX` as in `decodeLoop`, returning also the cursor
`(x, y)` with which the loop is left. -/
def decodeFinal (w h bpl : Nat) (palette : List ColorRGB) :
    List Byte → Nat → Nat → List ColorRGB → Nat × Nat × List ColorRGB
  | [], x, y, pix => (x, y, pix)
  | [b], x, y, pix =>
    if y < h then
      if 192 ≤ b.val then (x, y, pix)
      else (wrapX bpl (x + 1), wrapY bpl (x + 1) y, putPixel w x y (palette.getD b.val black) pix)
    else (x, y, pix)
  | b :: c :: rest, x, y, pix =>
    if y < h then
      if 192 ≤ b.val then
        let r := runLoop w bpl y (palette.getD c.val black) (b.val &&& 0x3F) x pix
        decodeFinal w h bpl palette rest (wrapX bpl r.1) (wrapY bpl r.1 y) r.2
      else
        decodeFinal w h bpl palette (c :: rest) (wrapX bpl (x + 1)) (wrapY bpl (x + 1) y)
          (putPixel w x y (palette.getD b.val black) pix)
    else (x, y, pix)

/-- The pixel `(px, py)` is at or after the cursor `(x, y)` in row-major order. -/
def AtOrAfter (x y px py : Nat) : Prop := y < py ∨ (py = y ∧ x ≤ px)

/-- The cursor and the buffer with which `LoadPCX` leaves its decoding loop on a
file of at least 769 bytes. -/
def pcxExit (file : List Byte) : Nat × Nat × List ColorRGB :=
  decodeFinal (pcxWidth (decodePCXHeader (file.take 128)))
    (pcxHeight (decodePCXHeader (file.take 128)))
    (decodePCXHeader (file.take 128)).BytesPerLine (pcxActivePalette file) (file.drop 128) 0 0
    (List.replicate (pcxWidth (decodePCXHeader (file.take 128))
      * pcxHeight (decodePCXHeader (file.take 128))) black)

/-- A 769-byte PCX file for a 4x2 image (stride 4) whose pixel stream is 641 bytes
`0xC0`: runs of count 0, and a last run marker without a value byte. -/
def truncatedPCX : List Byte :=
  [10, 5, 1, 8, 0, 0, 0, 0, 3, 0, 1, 0, 0, 0, 0, 0] ++ List.replicate 48 0
    ++ [0, 1, 4, 0] ++ List.replicate 60 0 ++ List.replicate 641 0xC0

/-- A 769-byte PCX file for a 4x2 image with stride 6 whose pixel stream is 641
literal bytes `0x07`. -/
def paddedPCX : List Byte :=
  [10, 5, 1, 8, 0, 0, 0, 0, 3, 0, 1, 0, 0, 0, 0, 0] ++ List.replicate 48 0
    ++ [0, 1, 6, 0] ++ List.replicate 60 0 ++ List.replicate 641 0x07

/-- A 58-byte BMP file: a 24-bit image of width 1 and height 1 with one padded
row of pixel data. -/
def tinyBMP : List Byte :=
  [0x42, 0x4D] ++ List.replicate 16 0 ++ [1, 0, 0, 0, 1, 0, 0, 0, 1, 0, 24, 0]
    ++ List.replicate 24 0 ++ [7, 8, 9, 0]

/-- A runtime like `simpleRuntime n`, except that the `range` over `freqMap`
visits the entries in the reverse of insertion order. -/
def reversingRuntime (n : Nat) : Runtime where
  numCPU := n
  mergeOrder := List.range n
  rangeOrder := fun i m => if i = n then m.reverse else m
  sortSlice := fun less l => List.insertionSort (fun a b => less b a = false) l
  remapOrder := List.range n

/-- A 2x1 true-colour buffer with the pixels `(1,1,1), (2,2,2)`, each occurring once. -/
def tieBuffer : ImageData :=
  { Width := 2, Height := 1, Pix := [⟨1, 1, 1⟩, ⟨2, 2, 2⟩], Palette := zeroPalette,
    HasPal := false }

/-- An indexed buffer of width `2^31` and height 1, all of whose pixels are the
index 0, with the all-black palette. -/
def wideBuffer : ImageData :=
  { Width := ((2147483648 : Nat) : Int), Height := ((1 : Nat) : Int),
    Pix := List.replicate 2147483648 black, Palette := zeroPalette, HasPal := true }

/-- An indexed buffer of width 4 and height `2^28 + 1`, all of whose pixels are
the index 1, with the palette `(0,0,0), (1,2,3), (1,2,3), ...`; `SaveBMP` writes
`2^30 + 4` bytes of pixel data for it. -/
def tallBuffer : ImageData :=
  { Width := ((4 : Nat) : Int), Height := ((268435457 : Nat) : Int),
    Pix := List.replicate 1073741828 ⟨1, 0, 0⟩,
    Palette := black :: List.replicate 255 ⟨1, 2, 3⟩, HasPal := true }

/-! ## Theorems -/


/-! ### The histogram -/

theorem mapGet_mapAdd (m : FreqMap) (k c : ColorRGB) (v : Nat) :
    mapGet (mapAdd m k v) c = mapGet m c + if k = c then v else 0 := by
  induction m with
  | nil => simp [mapAdd, mapGet]
  | cons hd t ih =>
    obtain ⟨k0, n⟩ := hd
    by_cases h : k0 = k
    · subst h
      by_cases hc : k0 = c <;> simp [mapAdd, mapGet, hc]
    · by_cases hc : k0 = c
      · have hkc : ¬ k = c := fun h2 => h (hc.trans h2.symm)
        simp only [mapAdd, if_neg h, mapGet, if_pos hc, if_neg hkc, Nat.add_zero]
      · simp [mapAdd, mapGet, h, hc, ih]

theorem mem_keys_mapAdd (m : FreqMap) (k c : ColorRGB) (v : Nat) :
    c ∈ (mapAdd m k v).map Prod.fst ↔ c ∈ m.map Prod.fst ∨ c = k := by
  induction m with
  | nil => simp [mapAdd]
  | cons hd t ih =>
    obtain ⟨k0, n⟩ := hd
    by_cases h : k0 = k
    · subst h
      simp only [mapAdd, if_true, List.map_cons, List.mem_cons]
      tauto
    · simp only [mapAdd, if_neg h, List.map_cons, List.mem_cons, ih]
      tauto

theorem mapWF_mapAdd (m : FreqMap) (k : ColorRGB) (v : Nat) (hv : 0 < v) (h : MapWF m) :
    MapWF (mapAdd m k v) := by
  induction m with
  | nil =>
    refine ⟨by simp [mapAdd], ?_⟩
    intro kv hkv
    simp only [mapAdd, List.mem_singleton] at hkv
    rw [hkv]
    exact hv
  | cons hd t ih =>
    obtain ⟨k0, n⟩ := hd
    obtain ⟨hnd, hpos⟩ := h
    have hnd2 := List.nodup_cons.mp hnd
    have ht : MapWF t := ⟨hnd2.2, fun kv hkv => hpos kv (List.mem_cons_of_mem _ hkv)⟩
    by_cases hk : k0 = k
    · subst hk
      refine ⟨by simpa [mapAdd] using hnd, ?_⟩
      intro kv hkv
      simp only [mapAdd, if_true, List.mem_cons] at hkv
      rcases hkv with h1 | h1
      · rw [h1]
        exact Nat.add_pos_right n hv
      · exact hpos kv (List.mem_cons_of_mem _ h1)
    · obtain ⟨ihnd, ihpos⟩ := ih ht
      refine ⟨?_, ?_⟩
      · simp only [mapAdd, if_neg hk, List.map_cons]
        refine List.nodup_cons.mpr ⟨?_, ihnd⟩
        intro hmem
        rcases (mem_keys_mapAdd t k k0 v).mp hmem with h1 | h1
        · exact hnd2.1 h1
        · exact hk h1
      · intro kv hkv
        simp only [mapAdd, if_neg hk, List.mem_cons] at hkv
        rcases hkv with h1 | h1
        · rw [h1]
          exact hpos (k0, n) (List.mem_cons_self _ _)
        · exact ihpos kv h1

theorem entrySum_perm {l1 l2 : FreqMap} (h : l1.Perm l2) (c : ColorRGB) :
    entrySum l1 c = entrySum l2 c := by
  induction h with
  | nil => rfl
  | cons x _ ih =>
    obtain ⟨k, n⟩ := x
    simp [entrySum, ih]
  | swap x y l =>
    obtain ⟨k, n⟩ := x
    obtain ⟨k2, n2⟩ := y
    simp only [entrySum]
    omega
  | trans _ _ ih1 ih2 => rw [ih1, ih2]

theorem entrySum_eq_zero (m : FreqMap) (c : ColorRGB) (h : c ∉ m.map Prod.fst) :
    entrySum m c = 0 := by
  induction m with
  | nil => rfl
  | cons hd t ih =>
    obtain ⟨k, n⟩ := hd
    simp only [List.map_cons, List.mem_cons, not_or] at h
    have hk : ¬ k = c := fun h2 => h.1 h2.symm
    simp [entrySum, hk, ih h.2]

theorem mapGet_eq_entrySum (m : FreqMap) (c : ColorRGB) (h : (m.map Prod.fst).Nodup) :
    mapGet m c = entrySum m c := by
  induction m with
  | nil => rfl
  | cons hd t ih =>
    obtain ⟨k, n⟩ := hd
    have hnd := List.nodup_cons.mp h
    by_cases hk : k = c
    · subst hk
      simp [mapGet, entrySum, entrySum_eq_zero t k hnd.1]
    · simp [mapGet, entrySum, hk, ih hnd.2]

theorem mapGet_of_mem (m : FreqMap) (c : ColorRGB) (n : Nat) (h : (m.map Prod.fst).Nodup)
    (hm : (c, n) ∈ m) : mapGet m c = n := by
  induction m with
  | nil => cases hm
  | cons hd t ih =>
    obtain ⟨k, n0⟩ := hd
    have hnd := List.nodup_cons.mp h
    rcases List.mem_cons.mp hm with h1 | h1
    · cases h1
      simp [mapGet]
    · have hk : ¬ k = c := by
        intro h2
        subst h2
        exact hnd.1 (List.mem_map.mpr ⟨(k, n), h1, rfl⟩)
      simp [mapGet, hk, ih hnd.2 h1]

theorem mem_of_mapGet_pos (m : FreqMap) (c : ColorRGB) (h : 0 < mapGet m c) :
    (c, mapGet m c) ∈ m := by
  induction m with
  | nil => simp [mapGet] at h
  | cons hd t ih =>
    obtain ⟨k, n0⟩ := hd
    by_cases hk : k = c
    · subst hk
      simp [mapGet]
    · simp only [mapGet, if_neg hk] at h ⊢
      exact List.mem_cons_of_mem _ (ih h)

theorem mapWF_perm {l1 l2 : FreqMap} (h : l1.Perm l2) (hw : MapWF l2) : MapWF l1 :=
  ⟨((h.map Prod.fst).nodup_iff).mpr hw.1, fun kv hkv => hw.2 kv (h.mem_iff.mp hkv)⟩

theorem mapWF_mergeInto (entries : FreqMap) (he : ∀ kv ∈ entries, 0 < kv.2) :
    ∀ m : FreqMap, MapWF m → MapWF (mergeInto m entries) := by
  induction entries with
  | nil => intro m hm; exact hm
  | cons hd t ih =>
    intro m hm
    simp only [mergeInto, List.foldl_cons]
    exact ih (fun kv hkv => he kv (List.mem_cons_of_mem _ hkv)) _
      (mapWF_mapAdd m hd.1 hd.2 (he hd (List.mem_cons_self _ _)) hm)

theorem mapGet_mergeInto (entries : FreqMap) (c : ColorRGB) :
    ∀ m : FreqMap, mapGet (mergeInto m entries) c = mapGet m c + entrySum entries c := by
  induction entries with
  | nil => intro m; simp [mergeInto, entrySum]
  | cons hd t ih =>
    intro m
    obtain ⟨k, n⟩ := hd
    have := ih (mapAdd m k n)
    simp only [mergeInto, List.foldl_cons] at this ⊢
    rw [this, mapGet_mapAdd]
    simp only [entrySum]
    omega

theorem chunk_bounds (len N i : Nat) (hi : i < N) :
    chunkStart len N i ≤ chunkEnd len N i ∧ chunkEnd len N i ≤ len := by
  have h1 : N * (len / N) ≤ len := Nat.mul_div_le len N
  unfold chunkEnd chunkStart
  generalize len / N = step at h1 ⊢
  by_cases h : i = N - 1
  · rw [if_pos h]
    have h2 : i * step ≤ N * step := Nat.mul_le_mul_right _ (by omega)
    omega
  · rw [if_neg h]
    have h2 : (i + 1) * step ≤ N * step := Nat.mul_le_mul_right _ (by omega)
    rw [Nat.add_mul, Nat.one_mul] at h2
    omega

theorem map_getD_range' (pix : List ColorRGB) :
    ∀ (n s : Nat), s + n ≤ pix.length →
      (List.range' s n).map (fun j => pix.getD j black) = (pix.drop s).take n := by
  intro n
  induction n with
  | zero => intro s _; simp
  | succ n ih =>
    intro s hs
    have hlt : s < pix.length := by omega
    rw [List.range'_succ, List.map_cons, ih (s + 1) (by omega), List.drop_eq_getElem_cons hlt,
      List.take_succ_cons, List.getD_eq_getElem pix black hlt]

theorem foldl_mapAdd_one (l : List ColorRGB) :
    ∀ m0 : FreqMap, MapWF m0 →
      MapWF (l.foldl (fun m x => mapAdd m x 1) m0) ∧
      ∀ c, mapGet (l.foldl (fun m x => mapAdd m x 1) m0) c = mapGet m0 c + l.count c := by
  induction l with
  | nil => intro m0 h; exact ⟨h, fun c => by simp⟩
  | cons x t ih =>
    intro m0 h
    obtain ⟨hw, hc⟩ := ih (mapAdd m0 x 1) (mapWF_mapAdd m0 x 1 (by omega) h)
    refine ⟨hw, ?_⟩
    intro c
    rw [List.foldl_cons, hc c, mapGet_mapAdd, List.count_cons]
    by_cases hx : x = c
    · simp [hx]
      omega
    · simp [hx]

theorem countChunk_spec (pix : List ColorRGB) (s e : Nat) (hse : s ≤ e) (he : e ≤ pix.length) :
    MapWF (countChunk pix s e) ∧
    ∀ c, mapGet (countChunk pix s e) c = ((pix.drop s).take (e - s)).count c := by
  have h := foldl_mapAdd_one ((pix.drop s).take (e - s)) [] ⟨by simp, by simp⟩
  rw [← map_getD_range' pix (e - s) s (by omega), List.foldl_map] at h
  refine ⟨h.1, ?_⟩
  intro c
  have := h.2 c
  rw [map_getD_range' pix (e - s) s (by omega)] at this
  simpa [countChunk, mapGet] using this

theorem histogram_fold (rt : Runtime) (hv : rt.Valid) (pix : List ColorRGB) (order : List Nat) :
    (∀ i ∈ order, i < rt.numCPU) → ∀ m0 : FreqMap, MapWF m0 →
      MapWF (order.foldl
        (fun m i => mergeInto m (rt.rangeOrder i
          (countChunk pix (chunkStart pix.length rt.numCPU i) (chunkEnd pix.length rt.numCPU i))))
        m0) ∧
      ∀ c, mapGet (order.foldl
        (fun m i => mergeInto m (rt.rangeOrder i
          (countChunk pix (chunkStart pix.length rt.numCPU i) (chunkEnd pix.length rt.numCPU i))))
        m0) c = mapGet m0 c + (order.map (fun i => (chunkSlice pix rt.numCPU i).count c)).sum := by
  induction order with
  | nil => intro _ m0 h; exact ⟨h, fun c => by simp⟩
  | cons i t ih =>
    intro hmem m0 h
    have hi : i < rt.numCPU := hmem i (List.mem_cons_self _ _)
    obtain ⟨hb1, hb2⟩ := chunk_bounds pix.length rt.numCPU i hi
    obtain ⟨hcw, hcc⟩ := countChunk_spec pix _ _ hb1 hb2
    have hperm := hv.range_perm i
      (countChunk pix (chunkStart pix.length rt.numCPU i) (chunkEnd pix.length rt.numCPU i))
    have hrw := mapWF_perm hperm hcw
    have hstep := mapWF_mergeInto _ hrw.2 m0 h
    obtain ⟨hw, hc⟩ := ih (fun j hj => hmem j (List.mem_cons_of_mem _ hj)) _ hstep
    refine ⟨hw, ?_⟩
    intro c
    rw [List.foldl_cons, hc c, mapGet_mergeInto, entrySum_perm hperm c,
      ← mapGet_eq_entrySum _ c hcw.1, hcc c, List.map_cons, List.sum_cons]
    unfold chunkSlice
    omega

theorem sum_count_take (pix : List ColorRGB) (c : ColorRGB) (step : Nat) :
    ∀ k : Nat, ((List.range k).map (fun i => ((pix.drop (i * step)).take step).count c)).sum
      = (pix.take (k * step)).count c := by
  intro k
  induction k with
  | zero => simp
  | succ k ih =>
    rw [List.range_succ, List.map_append, List.sum_append, ih, Nat.succ_mul, List.take_add,
      List.count_append]
    simp

theorem sum_count_chunks (pix : List ColorRGB) (c : ColorRGB) (N : Nat) (hN : 1 ≤ N) :
    ((List.range N).map (fun i => (chunkSlice pix N i).count c)).sum = pix.count c := by
  obtain ⟨M, rfl⟩ : ∃ M, N = M + 1 := ⟨N - 1, by omega⟩
  rw [List.range_succ, List.map_append, List.sum_append]
  have h1 : (List.range M).map (fun i => (chunkSlice pix (M + 1) i).count c)
      = (List.range M).map
          (fun i => ((pix.drop (i * (pix.length / (M + 1)))).take (pix.length / (M + 1))).count c) := by
    apply List.map_congr_left
    intro i hi
    have hi2 : i < M := List.mem_range.mp hi
    have hne : ¬ i = M + 1 - 1 := by omega
    simp only [chunkSlice, chunkEnd, chunkStart, if_neg hne]
    rw [Nat.add_sub_cancel_left]
  rw [h1, sum_count_take]
  have h2 : chunkSlice pix (M + 1) M = pix.drop (M * (pix.length / (M + 1))) := by
    simp only [chunkSlice, chunkEnd, chunkStart, Nat.add_sub_cancel, if_true]
    apply List.take_of_length_le
    rw [List.length_drop]
  rw [List.map_singleton, List.sum_singleton, h2, ← List.count_append, List.take_append_drop]

theorem histogram_wf (rt : Runtime) (hv : rt.Valid) (pix : List ColorRGB) :
    MapWF (histogram rt pix) :=
  (histogram_fold rt hv pix rt.mergeOrder
    (fun i hi => List.mem_range.mp (hv.merge_perm.mem_iff.mp hi)) [] ⟨by simp, by simp⟩).1

theorem mapGet_histogram (rt : Runtime) (hv : rt.Valid) (pix : List ColorRGB) (c : ColorRGB) :
    mapGet (histogram rt pix) c = pix.count c := by
  have h := (histogram_fold rt hv pix rt.mergeOrder
    (fun i hi => List.mem_range.mp (hv.merge_perm.mem_iff.mp hi)) [] ⟨by simp, by simp⟩).2 c
  have hp := (hv.merge_perm.map (fun i => (chunkSlice pix rt.numCPU i).count c)).sum_eq
  rw [hp, sum_count_chunks pix c rt.numCPU hv.cpu_pos] at h
  simpa [histogram, mapGet] using h

theorem mem_histogram_iff (rt : Runtime) (hv : rt.Valid) (pix : List ColorRGB) (c : ColorRGB)
    (n : Nat) : (c, n) ∈ histogram rt pix ↔ c ∈ pix ∧ n = pix.count c := by
  have hw := histogram_wf rt hv pix
  constructor
  · intro h
    have h1 := mapGet_of_mem _ c n hw.1 h
    rw [mapGet_histogram rt hv] at h1
    have h2 : 0 < n := hw.2 (c, n) h
    refine ⟨?_, h1.symm⟩
    rw [← h1] at h2
    exact List.count_pos_iff.mp h2
  · rintro ⟨h1, h2⟩
    have h3 : 0 < mapGet (histogram rt pix) c := by
      rw [mapGet_histogram rt hv]
      exact List.count_pos_iff.mpr h1
    have := mem_of_mapGet_pos _ c h3
    rw [mapGet_histogram rt hv] at this
    rw [h2]
    exact this


theorem chunk_disjoint (len N i1 i2 j : Nat) (h12 : i1 < i2) (h2 : i2 < N)
    (hj1 : j < chunkEnd len N i1) (hj2 : chunkStart len N i2 ≤ j) : False := by
  unfold chunkEnd chunkStart at *
  generalize len / N = step at *
  have hne : ¬ i1 = N - 1 := by omega
  rw [if_neg hne] at hj1
  have h3 : (i1 + 1) * step ≤ i2 * step := Nat.mul_le_mul_right _ (by omega)
  rw [Nat.add_mul, Nat.one_mul] at h3
  omega

theorem chunk_cover (len N j : Nat) (hN : 1 ≤ N) (hj : j < len) :
    ∃ i, i < N ∧ chunkStart len N i ≤ j ∧ j < chunkEnd len N i := by
  by_cases h : j < (N - 1) * (len / N)
  · have hstep : 0 < len / N := by
      rcases Nat.eq_zero_or_pos (len / N) with h0 | h0
      · rw [h0] at h
        simp at h
      · exact h0
    have hi : j / (len / N) < N - 1 := (Nat.div_lt_iff_lt_mul hstep).mpr h
    refine ⟨j / (len / N), by omega, ?_, ?_⟩
    · exact Nat.div_mul_le_self j (len / N)
    · have hne : ¬ j / (len / N) = N - 1 := by omega
      unfold chunkEnd chunkStart
      rw [if_neg hne]
      have h3 := Nat.div_add_mod j (len / N)
      have h4 := Nat.mod_lt j hstep
      rw [Nat.mul_comm] at h3
      generalize j / (len / N) * (len / N) = q at h3 ⊢
      generalize j % (len / N) = r at h3 h4
      generalize len / N = step at h4 ⊢
      omega
  · refine ⟨N - 1, by omega, ?_, ?_⟩
    · unfold chunkStart
      omega
    · unfold chunkEnd
      rw [if_pos rfl]
      exact hj

theorem simpleRuntime_valid (n : Nat) (hn : 1 ≤ n) : (simpleRuntime n).Valid := by
  haveI : IsTotal (ColorRGB × Nat) (fun a b => kvLess b a = false) :=
    ⟨fun a b => by
      simp only [kvLess, decide_eq_false_iff_not, not_lt, gt_iff_lt]
      omega⟩
  haveI : IsTrans (ColorRGB × Nat) (fun a b => kvLess b a = false) :=
    ⟨fun a b c h1 h2 => by
      simp only [kvLess, decide_eq_false_iff_not, not_lt, gt_iff_lt] at *
      omega⟩
  exact
    { cpu_pos := hn
      merge_perm := List.Perm.refl _
      range_perm := fun _ m => List.Perm.refl m
      sort_perm := fun l => List.perm_insertionSort _ l
      sort_sorted := fun l => List.sorted_insertionSort (fun a b => kvLess b a = false) l
      remap_perm := List.Perm.refl _ }

/-- C4: for every worker count `numCPU ≥ 1` (also one larger than the number of
pixels), every pixel index lies in the chunk `[start, end)` of exactly one
goroutine, and the merged count of every colour is its number of occurrences in
the whole pixel sequence, which is also what a single chunk gives (`rt1` with
`numCPU = 1`, whose only chunk is `[0, len)`), whatever the merge and iteration
orders of the two runs are. -/
theorem histogram_partition_independent (rt rt1 : Runtime) (hv : rt.Valid) (hv1 : rt1.Valid)
    (h1 : rt1.numCPU = 1) (pix : List ColorRGB) :
    (∀ j, j < pix.length →
      ∃! i, i < rt.numCPU ∧
        chunkStart pix.length rt.numCPU i ≤ j ∧ j < chunkEnd pix.length rt.numCPU i) ∧
    (chunkStart pix.length rt1.numCPU 0 = 0 ∧ chunkEnd pix.length rt1.numCPU 0 = pix.length) ∧
    (∀ c, mapGet (histogram rt pix) c = pix.count c) ∧
    (∀ c, mapGet (histogram rt pix) c = mapGet (histogram rt1 pix) c) := by
  refine ⟨?_, ?_, ?_, ?_⟩
  · intro j hj
    obtain ⟨i, hi, hs, he⟩ := chunk_cover pix.length rt.numCPU j hv.cpu_pos hj
    refine ⟨i, ⟨hi, hs, he⟩, ?_⟩
    rintro i2 ⟨hi2, hs2, he2⟩
    rcases Nat.lt_trichotomy i2 i with h | h | h
    · exact (chunk_disjoint _ _ i2 i j h hi he2 hs).elim
    · exact h
    · exact (chunk_disjoint _ _ i i2 j h hi2 he hs2).elim
  · rw [h1]
    simp [chunkStart, chunkEnd]
  · intro c
    exact mapGet_histogram rt hv pix c
  · intro c
    rw [mapGet_histogram rt hv pix c, mapGet_histogram rt1 hv1 pix c]

/-- Witness for C4: seven workers, merged in the order of their chunks, on three
pixels, against one worker. -/
theorem histogram_partition_independent_witness :
    (∀ j, j < 3 → ∃! i, i < 7 ∧ chunkStart 3 7 i ≤ j ∧ j < chunkEnd 3 7 i) ∧
    (chunkStart 3 1 0 = 0 ∧ chunkEnd 3 1 0 = 3) ∧
    (∀ c, mapGet (histogram (simpleRuntime 7) [⟨1, 2, 3⟩, ⟨0, 0, 0⟩, ⟨1, 2, 3⟩]) c
      = ([⟨1, 2, 3⟩, ⟨0, 0, 0⟩, ⟨1, 2, 3⟩] : List ColorRGB).count c) ∧
    (∀ c, mapGet (histogram (simpleRuntime 7) [⟨1, 2, 3⟩, ⟨0, 0, 0⟩, ⟨1, 2, 3⟩]) c
      = mapGet (histogram (simpleRuntime 1) [⟨1, 2, 3⟩, ⟨0, 0, 0⟩, ⟨1, 2, 3⟩]) c) :=
  histogram_partition_independent (simpleRuntime 7) (simpleRuntime 1)
    (simpleRuntime_valid 7 (by decide)) (simpleRuntime_valid 1 (by decide)) rfl
    [⟨1, 2, 3⟩, ⟨0, 0, 0⟩, ⟨1, 2, 3⟩]


/-! ### Palette selection -/

theorem sortedColors_perm (rt : Runtime) (hv : rt.Valid) (pix : List ColorRGB) :
    (sortedColors rt pix).Perm (histogram rt pix) :=
  (hv.sort_perm _).trans (hv.range_perm _ _)

theorem mem_sortedColors_iff (rt : Runtime) (hv : rt.Valid) (pix : List ColorRGB) (c : ColorRGB)
    (n : Nat) : (c, n) ∈ sortedColors rt pix ↔ c ∈ pix ∧ n = pix.count c := by
  rw [(sortedColors_perm rt hv pix).mem_iff]
  exact mem_histogram_iff rt hv pix c n

theorem sortedColors_nodup (rt : Runtime) (hv : rt.Valid) (pix : List ColorRGB) :
    ((sortedColors rt pix).map Prod.fst).Nodup :=
  (((sortedColors_perm rt hv pix).map Prod.fst).nodup_iff).mpr (histogram_wf rt hv pix).1

theorem sortedColors_length (rt : Runtime) (hv : rt.Valid) (pix : List ColorRGB) :
    (sortedColors rt pix).length = pix.dedup.length := by
  have hp : ((sortedColors rt pix).map Prod.fst).Perm pix.dedup := by
    rw [List.perm_ext_iff_of_nodup (sortedColors_nodup rt hv pix) (List.nodup_dedup pix)]
    intro c
    rw [List.mem_dedup, List.mem_map]
    constructor
    · rintro ⟨⟨c2, n⟩, hmem, rfl⟩
      exact ((mem_sortedColors_iff rt hv pix c2 n).mp hmem).1
    · intro hc
      exact ⟨(c, pix.count c), (mem_sortedColors_iff rt hv pix c _).mpr ⟨hc, rfl⟩, rfl⟩
  have := hp.length_eq
  rwa [List.length_map] at this

theorem sortedColors_sorted (rt : Runtime) (hv : rt.Valid) (pix : List ColorRGB) (i k : Nat)
    (hik : i < k) (hk : k < (sortedColors rt pix).length) :
    ((sortedColors rt pix).getD k (black, 0)).2 ≤ ((sortedColors rt pix).getD i (black, 0)).2 := by
  have hs := hv.sort_sorted (rt.rangeOrder rt.numCPU (histogram rt pix))
  have h := (List.pairwise_iff_getElem.mp hs) i k (by unfold sortedColors at hk; omega) hk hik
  simp only [kvLess, decide_eq_false_iff_not, not_lt, gt_iff_lt] at h
  rw [List.getD_eq_getElem _ _ hk, List.getD_eq_getElem _ _ (by omega : i < _)]
  exact h

theorem getD_sortedColors (rt : Runtime) (hv : rt.Valid) (pix : List ColorRGB) (i : Nat)
    (hi : i < (sortedColors rt pix).length) :
    ((sortedColors rt pix).getD i (black, 0)).1 ∈ pix ∧
    ((sortedColors rt pix).getD i (black, 0)).2
      = pix.count ((sortedColors rt pix).getD i (black, 0)).1 := by
  rw [List.getD_eq_getElem _ _ hi]
  exact (mem_sortedColors_iff rt hv pix _ _).mp (List.getElem_mem hi)

theorem exists_index_sortedColors (rt : Runtime) (hv : rt.Valid) (pix : List ColorRGB)
    (c : ColorRGB) (hc : c ∈ pix) :
    ∃ k, k < (sortedColors rt pix).length ∧
      (sortedColors rt pix).getD k (black, 0) = (c, pix.count c) := by
  have hm := (mem_sortedColors_iff rt hv pix c _).mpr ⟨hc, rfl⟩
  obtain ⟨k, hk, hget⟩ := List.getElem_of_mem hm
  exact ⟨k, hk, by rw [List.getD_eq_getElem _ _ hk, hget]⟩

theorem buildPalette_length (arr : FreqMap) : (buildPalette arr).length = 256 := by
  simp [buildPalette]

theorem buildPalette_getElem? (arr : FreqMap) (i : Nat) (hi : i < 256) :
    (buildPalette arr)[i]? = some (if i < arr.length then (arr.getD i (black, 0)).1 else black) := by
  simp only [buildPalette, List.getElem?_map, List.getElem?_range hi, Option.map_some']

theorem Quantize_eq (rt : Runtime) (hv : rt.Valid) (img : ImageData) :
    Quantize rt img = .ok
      { Width := img.Width, Height := img.Height,
        Pix := remap rt img.Pix (buildPalette (sortedColors rt img.Pix)),
        Palette := buildPalette (sortedColors rt img.Pix), HasPal := true } := by
  have hcpu : ¬ rt.numCPU = 0 := by
    have := hv.cpu_pos
    omega
  simp only [Quantize, if_neg hcpu]

/-- C3: the palette `Quantize` returns has exactly 256 entries; each of its first
`min(256, d)` slots (`d` the number of distinct colours of the pixel sequence)
holds a colour of the sequence, and a colour of the sequence that is in none of
these slots does not occur more often than a colour that is in one of them. -/
theorem quantize_selection (rt : Runtime) (hv : rt.Valid) (img : ImageData) :
    ∃ out, Quantize rt img = .ok out ∧ out.Palette.length = 256 ∧
      (∀ i, i < min 256 img.Pix.dedup.length → ∃ c, c ∈ img.Pix ∧ out.Palette[i]? = some c) ∧
      (∀ (i : Nat) (c1 c2 : ColorRGB), i < min 256 img.Pix.dedup.length →
        out.Palette[i]? = some c1 → c2 ∈ img.Pix →
        (∀ j, j < min 256 img.Pix.dedup.length → out.Palette[j]? ≠ some c2) →
        img.Pix.count c2 ≤ img.Pix.count c1) := by
  have hlen := sortedColors_length rt hv img.Pix
  refine ⟨_, Quantize_eq rt hv img, buildPalette_length _, ?_, ?_⟩
  · intro i hi
    have hi1 : i < 256 := by omega
    have hi2 : i < (sortedColors rt img.Pix).length := by omega
    refine ⟨_, (getD_sortedColors rt hv img.Pix i hi2).1, ?_⟩
    simp only [buildPalette_getElem? _ i hi1, if_pos hi2]
  · intro i c1 c2 hi h1 hc2 habs
    have hi1 : i < 256 := by omega
    have hi2 : i < (sortedColors rt img.Pix).length := by omega
    simp only [buildPalette_getElem? _ i hi1, if_pos hi2, Option.some.injEq] at h1
    obtain ⟨k, hk, hget⟩ := exists_index_sortedColors rt hv img.Pix c2 hc2
    have hk256 : 256 ≤ k := by
      by_contra hlt
      have hk1 : k < 256 := by omega
      apply habs k (by omega)
      simp only [buildPalette_getElem? _ k hk1, if_pos hk, hget]
    have hs := sortedColors_sorted rt hv img.Pix i k (by omega) hk
    rw [hget, (getD_sortedColors rt hv img.Pix i hi2).2, h1] at hs
    exact hs

/-- Witness for C3: three workers on a four-pixel buffer. -/
theorem quantize_selection_witness :
    ∃ out, Quantize (simpleRuntime 3)
        ⟨2, 2, [⟨9, 9, 9⟩, ⟨0, 0, 0⟩, ⟨9, 9, 9⟩, ⟨1, 1, 1⟩], zeroPalette, false⟩ = .ok out ∧
      out.Palette.length = 256 :=
  (quantize_selection (simpleRuntime 3) (simpleRuntime_valid 3 (by decide))
    ⟨2, 2, [⟨9, 9, 9⟩, ⟨0, 0, 0⟩, ⟨9, 9, 9⟩, ⟨1, 1, 1⟩], zeroPalette, false⟩).imp
    (fun _ h => ⟨h.1, h.2.1⟩)


/-- C7: on the 2x2 buffer `(0,0,0), (0,0,0), (255,255,255), (1,1,1)`, for every
worker count, schedule, map iteration order and sort, `Quantize` puts `(0,0,0)`
at palette index 0, puts `(255,255,255)` and `(1,1,1)` in the palette, and every
index holding `(255,255,255)` or `(1,1,1)` is greater than 0. -/
theorem quantize_sample_order (rt : Runtime) (hv : rt.Valid) :
    ∃ out, Quantize rt sampleBuffer = .ok out ∧
      out.Palette[0]? = some ⟨0, 0, 0⟩ ∧
      (∃ i, 0 < i ∧ out.Palette[i]? = some ⟨255, 255, 255⟩) ∧
      (∃ j, 0 < j ∧ out.Palette[j]? = some ⟨1, 1, 1⟩) ∧
      (∀ i, out.Palette[i]? = some ⟨255, 255, 255⟩ ∨ out.Palette[i]? = some ⟨1, 1, 1⟩ → 0 < i) := by
  have hlen : (sortedColors rt sampleBuffer.Pix).length = 3 := by
    rw [sortedColors_length rt hv]
    decide
  have hmemP : ∀ c, c ∈ sampleBuffer.Pix →
      c = ⟨0, 0, 0⟩ ∨ c = ⟨255, 255, 255⟩ ∨ c = ⟨1, 1, 1⟩ := by
    intro c hc
    simp only [sampleBuffer, List.mem_cons, List.mem_singleton, List.not_mem_nil, or_false] at hc
    tauto
  -- the first entry of the sorted slice is black
  have h0 : ((sortedColors rt sampleBuffer.Pix).getD 0 (black, 0)).1 = ⟨0, 0, 0⟩ := by
    obtain ⟨hm, hn⟩ := getD_sortedColors rt hv sampleBuffer.Pix 0 (by omega)
    obtain ⟨k, hk, hget⟩ := exists_index_sortedColors rt hv sampleBuffer.Pix ⟨0, 0, 0⟩
      (by simp [sampleBuffer])
    rcases Nat.eq_zero_or_pos k with hk0 | hk0
    · rw [hk0] at hget
      rw [hget]
    · have hs := sortedColors_sorted rt hv sampleBuffer.Pix 0 k hk0 hk
      rw [hget, hn] at hs
      have h2 : List.count (⟨0, 0, 0⟩ : ColorRGB) sampleBuffer.Pix = 2 := by decide
      rw [h2] at hs
      rcases hmemP _ hm with h | h | h
      · exact h
      · rw [h] at hs
        have : List.count (⟨255, 255, 255⟩ : ColorRGB) sampleBuffer.Pix = 1 := by decide
        omega
      · rw [h] at hs
        have : List.count (⟨1, 1, 1⟩ : ColorRGB) sampleBuffer.Pix = 1 := by decide
        omega
  have hpal0 : (buildPalette (sortedColors rt sampleBuffer.Pix))[0]? = some ⟨0, 0, 0⟩ := by
    rw [buildPalette_getElem? _ 0 (by omega), if_pos (by omega), h0]
  have hother : ∀ c : ColorRGB, c ∈ sampleBuffer.Pix → c ≠ ⟨0, 0, 0⟩ →
      ∃ i, 0 < i ∧ (buildPalette (sortedColors rt sampleBuffer.Pix))[i]? = some c := by
    intro c hc hne
    obtain ⟨k, hk, hget⟩ := exists_index_sortedColors rt hv sampleBuffer.Pix c hc
    have hkpos : 0 < k := by
      rcases Nat.eq_zero_or_pos k with hk0 | hk0
      · rw [hk0, Prod.ext_iff] at hget
        exact absurd (h0.symm.trans hget.1).symm hne
      · exact hk0
    refine ⟨k, hkpos, ?_⟩
    rw [buildPalette_getElem? _ k (by omega), if_pos hk, hget]
  refine ⟨_, Quantize_eq rt hv sampleBuffer, hpal0, ?_, ?_, ?_⟩
  · exact hother _ (by simp [sampleBuffer]) (by decide)
  · exact hother _ (by simp [sampleBuffer]) (by decide)
  · intro i hi
    rcases Nat.eq_zero_or_pos i with hi0 | hi0
    · exfalso
      rw [hi0] at hi
      simp only at hi
      rw [hpal0] at hi
      rcases hi with h | h
      · exact absurd (Option.some.inj h) (by decide)
      · exact absurd (Option.some.inj h) (by decide)
    · exact hi0

/-- Witness for C7: five workers, more than there are pixels. -/
theorem quantize_sample_order_witness :
    ∃ out, Quantize (simpleRuntime 5) sampleBuffer = .ok out ∧
      out.Palette[0]? = some ⟨0, 0, 0⟩ :=
  (quantize_sample_order (simpleRuntime 5) (simpleRuntime_valid 5 (by decide))).imp
    (fun _ h => ⟨h.1, h.2.1⟩)


/-! ### Nearest palette entry -/

theorem distSq_nonneg (a b : ColorRGB) : 0 ≤ distSq a b := by
  unfold distSq
  simp only
  nlinarith [mul_self_nonneg ((a.R.val : Int) - (b.R.val : Int)),
    mul_self_nonneg ((a.G.val : Int) - (b.G.val : Int)),
    mul_self_nonneg ((a.B.val : Int) - (b.B.val : Int))]

theorem distSq_lt_maxFloat64 (a b : ColorRGB) : distSq a b < maxFloat64 := by
  have h1 : ∀ x y : Byte, ((x.val : Int) - (y.val : Int)) * ((x.val : Int) - (y.val : Int)) ≤ 65025 := by
    intro x y
    have hx := x.isLt
    have hy := y.isLt
    nlinarith
  have hR := h1 a.R b.R
  have hG := h1 a.G b.G
  have hB := h1 a.B b.B
  have hm : (195075 : Int) < maxFloat64 := by
    unfold maxFloat64
    norm_num
  unfold distSq
  simp only
  omega

/-- The invariant of the loop of `findNearestIndex` gives its postcondition. -/
theorem nearestLoop_spec (c : ColorRGB) (p : List ColorRGB) :
    ∀ (n i best : Nat) (bd : Int), 0 < i + n →
      (∀ j, j < i → bd ≤ distSq c (p.getD j black)) →
      (∀ j, j < best → bd < distSq c (p.getD j black)) →
      (i = 0 → ∀ j, distSq c (p.getD j black) < bd) →
      (0 < i → best < i ∧ bd = distSq c (p.getD best black)) →
      nearestLoop c p n i best bd < i + n ∧
      (∀ j, j < i + n →
        distSq c (p.getD (nearestLoop c p n i best bd) black) ≤ distSq c (p.getD j black)) ∧
      (∀ j, j < nearestLoop c p n i best bd →
        distSq c (p.getD (nearestLoop c p n i best bd) black) < distSq c (p.getD j black)) := by
  intro n
  induction n with
  | zero =>
    intro i best bd hpos hle hlt _ hbest
    have hi : 0 < i := by omega
    obtain ⟨hb, hbd⟩ := hbest hi
    simp only [nearestLoop, Nat.add_zero]
    refine ⟨hb, ?_, ?_⟩
    · intro j hj
      rw [← hbd]
      exact hle j hj
    · intro j hj
      rw [← hbd]
      exact hlt j hj
  | succ n ih =>
    intro i best bd _ hle hlt hzero hbest
    simp only [nearestLoop]
    by_cases hd : distSq c (p.getD i black) < bd
    · rw [if_pos hd]
      by_cases h0 : distSq c (p.getD i black) = 0
      · rw [if_pos h0]
        refine ⟨by omega, ?_, ?_⟩
        · intro j _
          rw [h0]
          exact distSq_nonneg _ _
        · intro j hj
          have := hle j hj
          omega
      · rw [if_neg h0]
        have := ih (i + 1) i (distSq c (p.getD i black)) (by omega)
          (by
            intro j hj
            rcases Nat.lt_succ_iff_lt_or_eq.mp hj with h | h
            · have := hle j h
              omega
            · rw [h])
          (by
            intro j hj
            have := hle j hj
            omega)
          (by intro h; omega)
          (by intro _; exact ⟨by omega, rfl⟩)
        rw [show i + 1 + n = i + (n + 1) by omega] at this
        exact this
    · rw [if_neg hd]
      have hi : 0 < i := by
        rcases Nat.eq_zero_or_pos i with h | h
        · exact absurd (hzero h i) hd
        · exact h
      obtain ⟨hb, hbd⟩ := hbest hi
      have := ih (i + 1) best bd (by omega)
        (by
          intro j hj
          rcases Nat.lt_succ_iff_lt_or_eq.mp hj with h | h
          · exact hle j h
          · rw [h]; omega)
        hlt
        (by intro h; omega)
        (by intro _; exact ⟨by omega, hbd⟩)
      rw [show i + 1 + n = i + (n + 1) by omega] at this
      exact this

/-- C2: for a 256-entry palette `p`, `findNearestIndex c p` is an index `k < 256`
whose entry is at least as close to `c` (in exact squared RGB distance) as every
entry of `p`, and every earlier entry is strictly farther: `k` is the smallest
index attaining the minimum. -/
theorem findNearestIndex_nearest (c : ColorRGB) (p : List ColorRGB) (hp : p.length = 256) :
    ∃ hk : findNearestIndex c p < 256,
      (∀ (i : Nat) (hi : i < 256),
        distSq c (p.get ⟨findNearestIndex c p, by omega⟩) ≤ distSq c (p.get ⟨i, by omega⟩)) ∧
      (∀ (i : Nat) (hi : i < findNearestIndex c p),
        distSq c (p.get ⟨findNearestIndex c p, by omega⟩) < distSq c (p.get ⟨i, by omega⟩)) := by
  have h := nearestLoop_spec c p 256 0 0 maxFloat64 (by omega)
    (by intro j hj; omega) (by intro j hj; omega)
    (by intro _ j; exact distSq_lt_maxFloat64 _ _) (by intro h; omega)
  obtain ⟨hk, hmin, hfirst⟩ := h
  simp only [Nat.zero_add] at hk hmin
  have hget : ∀ (j : Nat) (hj : j < p.length), p.getD j black = p.get ⟨j, hj⟩ := by
    intro j hj
    rw [List.getD_eq_getElem p black hj]
    rfl
  refine ⟨hk, ?_, ?_⟩
  · intro i hi
    have := hmin i hi
    rw [hget _ (by omega), hget i (by omega)] at this
    exact this
  · intro i hi
    have hk2 : findNearestIndex c p < 256 := hk
    have := hfirst i hi
    rw [hget _ (by omega), hget i (by omega)] at this
    exact this

/-- Witness for C2: the colour `(1,2,3)` against the all-black 256-entry palette. -/
theorem findNearestIndex_nearest_witness :
    zeroPalette.length = 256 ∧ findNearestIndex ⟨1, 2, 3⟩ zeroPalette < 256 :=
  ⟨List.length_replicate 256 black,
    (findNearestIndex_nearest ⟨1, 2, 3⟩ zeroPalette (List.length_replicate 256 black)).fst⟩

/-! ### The run-length decoder -/

theorem cursor_in_bounds (w h x y : Nat) (hx : x < w) (hy : y < h) : y * w + x < w * h := by
  have h1 : (y + 1) * w ≤ h * w := Nat.mul_le_mul_right _ (by omega)
  rw [Nat.add_mul, Nat.one_mul, Nat.mul_comm h w] at h1
  omega

theorem runLoop_fit (w bpl y : Nat) (c : ColorRGB) (hw : w ≤ bpl) :
    ∀ (count x : Nat) (pix : List ColorRGB), x + count ≤ w →
      (runLoop w bpl y c count x pix).1 = x + count ∧
      (runLoop w bpl y c count x pix).2.length = pix.length ∧
      ∀ k, (runLoop w bpl y c count x pix).2[k]? =
        if y * w + x ≤ k ∧ k < y * w + x + count ∧ k < pix.length then some c else pix[k]? := by
  intro count
  induction count with
  | zero =>
    intro x pix _
    refine ⟨rfl, rfl, ?_⟩
    intro k
    have : ¬ (y * w + x ≤ k ∧ k < y * w + x + 0 ∧ k < pix.length) := by omega
    rw [if_neg this]
    rfl
  | succ n ih =>
    intro x pix hfit
    have hx : x < bpl := by omega
    have hxw : x < w := by omega
    obtain ⟨h1, h2, h3⟩ := ih (x + 1) (pix.set (y * w + x) c) (by omega)
    simp only [runLoop, if_pos hx, putPixel, if_pos hxw]
    refine ⟨by omega, by rw [h2, List.length_set], ?_⟩
    intro k
    rw [h3 k, List.length_set, List.getElem?_set]
    by_cases hk : y * w + x = k
    · subst hk
      by_cases hl : y * w + x < pix.length
      · have e1 : ¬ (y * w + (x + 1) ≤ y * w + x ∧ y * w + x < y * w + (x + 1) + n ∧
            y * w + x < pix.length) := by omega
        have e2 : y * w + x ≤ y * w + x ∧ y * w + x < y * w + x + (n + 1) ∧
            y * w + x < pix.length := by omega
        rw [if_neg e1, if_pos e2, if_pos rfl, if_pos hl]
      · have e1 : ¬ (y * w + (x + 1) ≤ y * w + x ∧ y * w + x < y * w + (x + 1) + n ∧
            y * w + x < pix.length) := by omega
        have e2 : ¬ (y * w + x ≤ y * w + x ∧ y * w + x < y * w + x + (n + 1) ∧
            y * w + x < pix.length) := by omega
        rw [if_neg e1, if_neg e2, if_pos rfl, if_neg hl]
        exact (List.getElem?_eq_none (by omega)).symm
    · rw [if_neg hk]
      by_cases hc : y * w + (x + 1) ≤ k ∧ k < y * w + (x + 1) + n ∧ k < pix.length
      · have e2 : y * w + x ≤ k ∧ k < y * w + x + (n + 1) ∧ k < pix.length := by omega
        rw [if_pos hc, if_pos e2]
      · have e2 : ¬ (y * w + x ≤ k ∧ k < y * w + x + (n + 1) ∧ k < pix.length) := by omega
        rw [if_neg hc, if_neg e2]

/-! ### Machine arithmetic -/

theorem ldiff_three (n : Nat) : Nat.ldiff n 3 = n / 4 * 4 := by
  apply Nat.eq_of_testBit_eq
  intro k
  have h3 : (3 : Nat) = 2 ^ 2 - 1 := by decide
  have h4 : n / 4 * 4 = (n >>> 2) <<< 2 := by
    rw [Nat.shiftRight_eq_div_pow, Nat.shiftLeft_eq]
  rw [Nat.testBit_ldiff, h4, Nat.testBit_shiftLeft, Nat.testBit_shiftRight, h3,
    Nat.testBit_two_pow_sub_one]
  by_cases hk : k < 2
  · have : ¬ k ≥ 2 := by omega
    simp [hk, this]
  · have h2 : k ≥ 2 := by omega
    have : 2 + (k - 2) = k := by omega
    simp [hk, h2, this]

theorem bitClear_three (n : Nat) : bitClear (n : Int) 3 = ((n / 4 * 4 : Nat) : Int) := by
  rw [← ldiff_three]
  rfl

theorem saveRowSize_nat (w : Nat) : saveRowSize (w : Int) = (((w + 3) / 4 * 4 : Nat) : Int) := by
  unfold saveRowSize
  rw [← bitClear_three]
  rfl

theorem loadRowSize_eight (w : Nat) : loadRowSize (w : Int) 8 = (((w + 3) / 4 * 4 : Nat) : Int) := by
  unfold loadRowSize
  rw [← bitClear_three]
  have : Int.tdiv ((w : Int) * ((8 : Nat) : Int)) 8 = (w : Int) :=
    Int.mul_tdiv_cancel _ (by decide)
  rw [this]
  rfl

theorem toUint32_nat (v : Nat) (hv : v < 4294967296) : toUint32 (v : Int) = v := by
  unfold toUint32
  omega

theorem toInt32_small (v : Nat) (hv : v < 2147483648) : toInt32 v = (v : Int) := by
  unfold toInt32
  have h1 : v % 4294967296 = v := Nat.mod_eq_of_lt (by omega)
  rw [h1, if_pos hv]

theorem byte_sum32 (v : Nat) (hv : v < 4294967296) :
    (byteOfNat v).val + 256 * (byteOfNat (v >>> 8)).val + 65536 * (byteOfNat (v >>> 16)).val
      + 16777216 * (byteOfNat (v >>> 24)).val = v := by
  simp only [byteOfNat, Nat.shiftRight_eq_div_pow]
  omega

/-! ### The rows `SaveBMP` writes -/

theorem foldl_set_range {α : Type} (f : Nat → α) :
    ∀ (n : Nat) (line : List α), n ≤ line.length →
      (List.range n).foldl (fun l x => l.set x (f x)) line = (List.range n).map f ++ line.drop n := by
  intro n
  induction n with
  | zero => intro line _; simp
  | succ n ih =>
    intro line hn
    have hlt : n < line.length := by omega
    rw [List.range_succ, List.foldl_append, ih line (by omega), List.map_append, List.foldl_cons,
      List.foldl_nil, List.map_singleton, List.append_assoc, List.singleton_append]
    have hlen : ((List.range n).map f).length = n := by simp
    rw [List.set_append, if_neg (by omega), hlen, Nat.sub_self, List.drop_eq_getElem_cons hlt,
      List.set_cons_zero]

theorem fillLine_eq (pix : List ColorRGB) (w y : Nat) :
    ∀ (xs : List Nat) (line : List Byte), (∀ x ∈ xs, y * w + x < pix.length) →
      fillLine pix w y xs line
        = .ok (xs.foldl (fun l x => l.set x (pix.getD (y * w + x) black).R) line) := by
  intro xs
  induction xs with
  | nil => intro line _; rfl
  | cons x xs ih =>
    intro line hx
    have hlt : y * w + x < pix.length := hx x (List.mem_cons_self _ _)
    simp only [fillLine, List.getElem?_eq_getElem hlt, List.foldl_cons,
      List.getD_eq_getElem pix black hlt]
    exact ih _ (fun x2 h2 => hx x2 (List.mem_cons_of_mem _ h2))

theorem length_bmpRow (pix : List ColorRGB) (w rowSize y : Nat) (hw : w ≤ rowSize) :
    (bmpRow pix w rowSize y).length = rowSize := by
  simp [bmpRow]
  omega

theorem writeRows_eq (pix : List ColorRGB) (w h rowSize : Nat) (hw : w ≤ rowSize)
    (hlen : pix.length = w * h) :
    ∀ (ys : List Nat) (line : List Byte), (∀ y ∈ ys, y < h) → line.length = rowSize →
      line.drop w = List.replicate (rowSize - w) 0 →
      writeRows pix w ys line = .ok ((ys.map (bmpRow pix w rowSize)).flatten) := by
  intro ys
  induction ys with
  | nil => intro line _ _ _; rfl
  | cons y ys ih =>
    intro line hy hl hd
    have hyh : y < h := hy y (List.mem_cons_self _ _)
    have hfill := fillLine_eq pix w y (List.range w) line (by
      intro x hx
      rw [hlen]
      exact cursor_in_bounds w h x y (List.mem_range.mp hx) hyh)
    rw [foldl_set_range (fun x => (pix.getD (y * w + x) black).R) w line (by omega), hd] at hfill
    have hrow : (List.range w).map (fun x => (pix.getD (y * w + x) black).R)
        ++ List.replicate (rowSize - w) 0 = bmpRow pix w rowSize y := rfl
    rw [hrow] at hfill
    have hnext := ih (bmpRow pix w rowSize y) (fun y2 h2 => hy y2 (List.mem_cons_of_mem _ h2))
      (length_bmpRow pix w rowSize y hw) (by
        unfold bmpRow
        rw [List.drop_left' (by simp)])
    simp only [writeRows, hfill, hnext, List.map_cons, List.flatten_cons]


theorem stride_bounds (w : Nat) : w ≤ stride w ∧ stride w < w + 4 ∧ stride w % 4 = 0 := by
  unfold stride
  omega

theorem saveRowSize_stride (w : Nat) : saveRowSize (w : Int) = (stride w : Int) :=
  saveRowSize_nat w

/-- The bytes `SaveBMP` writes for a buffer of `w * h` pixels. -/
theorem SaveBMP_eq (w h : Nat) (pix pal : List ColorRGB) (hp : Bool) (hlen : pix.length = w * h) :
    SaveBMP { Width := w, Height := h, Pix := pix, Palette := pal, HasPal := hp }
      = .ok (bmpFileHeader (54 + 256 * 4 + (stride w : Int) * (h : Int))
          ++ bmpDibHeader w h ((stride w : Int) * (h : Int)) ++ bmpPaletteBytes pal
          ++ ((List.range h).reverse.map (bmpRow pix w (stride w))).flatten) := by
  have hrows := writeRows_eq pix w h (stride w) (stride_bounds w).1 hlen (List.range h).reverse
    (List.replicate (stride w) 0)
    (by
      intro y hy
      exact List.mem_range.mp (List.mem_reverse.mp hy))
    (by simp)
    (by simp)
  have hneg : ¬ ((stride w : Int) < 0) := by omega
  simp only [SaveBMP, saveRowSize_stride, if_neg hneg, Int.toNat_ofNat, hrows]


theorem length_bmpFileHeader (s : Int) : (bmpFileHeader s).length = 14 := by
  simp [bmpFileHeader, putUint32]

theorem length_bmpDibHeader (w h s : Int) : (bmpDibHeader w h s).length = 40 := by
  simp [bmpDibHeader, putUint32, putUint16]

theorem length_flatMap_four {α β : Type} (f : α → List β) (hf : ∀ a, (f a).length = 4) :
    ∀ l : List α, (l.flatMap f).length = 4 * l.length := by
  intro l
  induction l with
  | nil => rfl
  | cons a t ih =>
    rw [List.flatMap_cons, List.length_append, ih, hf, List.length_cons]
    omega

theorem length_bmpPaletteBytes (pal : List ColorRGB) : (bmpPaletteBytes pal).length = 1024 := by
  unfold bmpPaletteBytes
  rw [length_flatMap_four
    (fun i => [(pal.getD i black).B, (pal.getD i black).G, (pal.getD i black).R, (0 : Byte)])
    (fun _ => rfl), List.length_range]

theorem length_flatten_uniform {α : Type} (n : Nat) :
    ∀ ls : List (List α), (∀ l ∈ ls, l.length = n) → ls.flatten.length = ls.length * n := by
  intro ls
  induction ls with
  | nil => intro _; simp
  | cons l t ih =>
    intro h
    rw [List.flatten_cons, List.length_append, ih (fun l2 h2 => h l2 (List.mem_cons_of_mem _ h2)),
      h l (List.mem_cons_self _ _), List.length_cons, Nat.succ_mul]
    omega

theorem getElem?_flatten_uniform {α : Type} (n : Nat) :
    ∀ (ls : List (List α)) (r x : Nat) (row : List α), (∀ l ∈ ls, l.length = n) →
      ls[r]? = some row → x < n → ls.flatten[r * n + x]? = row[x]? := by
  intro ls
  induction ls with
  | nil => intro r x row _ h _; simp at h
  | cons l t ih =>
    intro r x row hall hr hx
    have hl : l.length = n := hall l (List.mem_cons_self _ _)
    cases r with
    | zero =>
      simp only [List.getElem?_cons_zero, Option.some.injEq] at hr
      subst hr
      rw [List.flatten_cons, Nat.zero_mul, Nat.zero_add, List.getElem?_append_left (by omega)]
    | succ r =>
      simp only [List.getElem?_cons_succ] at hr
      have := ih r x row (fun l2 h2 => hall l2 (List.mem_cons_of_mem _ h2)) hr hx
      rw [List.flatten_cons, List.getElem?_append_right (by rw [hl, Nat.succ_mul]; omega), hl]
      rw [show (r + 1) * n + x - n = r * n + x by rw [Nat.succ_mul]; omega]
      exact this

theorem getElem?_rows (pix : List ColorRGB) (w h rowSize y : Nat) (hy : y < h) :
    ((List.range h).reverse.map (bmpRow pix w rowSize))[h - 1 - y]?
      = some (bmpRow pix w rowSize y) := by
  rw [List.getElem?_map, List.getElem?_reverse (by rw [List.length_range]; omega),
    List.length_range, List.getElem?_range (by omega)]
  simp only [Option.map_some']
  rw [show h - 1 - (h - 1 - y) = y by omega]

theorem getElem?_bmpRow_pixel (pix : List ColorRGB) (w rowSize y x : Nat) (hx : x < w) :
    (bmpRow pix w rowSize y)[x]? = some (pix.getD (y * w + x) black).R := by
  unfold bmpRow
  rw [List.getElem?_append_left (by simpa using hx), List.getElem?_map,
    List.getElem?_range hx]
  rfl

theorem getElem?_bmpRow_padding (pix : List ColorRGB) (w rowSize y x : Nat) (hx : w ≤ x)
    (hx2 : x < rowSize) : (bmpRow pix w rowSize y)[x]? = some 0 := by
  unfold bmpRow
  rw [List.getElem?_append_right (by simpa using hx), List.getElem?_replicate]
  simp only [List.length_map, List.length_range]
  rw [if_pos (by omega)]

/-- The byte of the pixel data at row position `x` of image row `y`. -/
theorem getElem?_rowsData (pix : List ColorRGB) (w h y x : Nat) (hy : y < h) (hx : x < stride w)
    (pre : List Byte) (hpre : pre.length = 1078) :
    (pre ++ ((List.range h).reverse.map (bmpRow pix w (stride w))).flatten)[
        1078 + (h - 1 - y) * stride w + x]?
      = (bmpRow pix w (stride w) y)[x]? := by
  rw [List.getElem?_append_right (by omega), hpre,
    show 1078 + (h - 1 - y) * stride w + x - 1078 = (h - 1 - y) * stride w + x by omega]
  apply getElem?_flatten_uniform (stride w) _ _ _ _ _ (getElem?_rows pix w h (stride w) y hy) hx
  intro l hl
  obtain ⟨y2, _, rfl⟩ := List.mem_map.mp hl
  exact length_bmpRow pix w (stride w) y2 (stride_bounds w).1

theorem length_bmpPrefix (s : Int) (w h d : Int) (pal : List ColorRGB) :
    (bmpFileHeader s ++ bmpDibHeader w h d ++ bmpPaletteBytes pal).length = 1078 := by
  rw [List.length_append, List.length_append, length_bmpFileHeader, length_bmpDibHeader,
    length_bmpPaletteBytes]

theorem length_rowsData (pix : List ColorRGB) (w h : Nat) :
    (((List.range h).reverse.map (bmpRow pix w (stride w))).flatten).length = stride w * h := by
  rw [length_flatten_uniform (stride w)]
  · simp
    exact Nat.mul_comm _ _
  · intro l hl
    obtain ⟨y2, _, rfl⟩ := List.mem_map.mp hl
    exact length_bmpRow pix w (stride w) y2 (stride_bounds w).1


theorem toUint32_lt (v : Int) : toUint32 v < 4294967296 := by
  unfold toUint32
  omega

theorem header_fields (s w h d : Int) (rest : List Byte) :
    (bmpFileHeader s ++ bmpDibHeader w h d ++ rest)[0]? = some 0x42 ∧
    (bmpFileHeader s ++ bmpDibHeader w h d ++ rest)[1]? = some 0x4D ∧
    le32 (bmpFileHeader s ++ bmpDibHeader w h d ++ rest) 2 = toUint32 s ∧
    le32 (bmpFileHeader s ++ bmpDibHeader w h d ++ rest) 10 = 1078 ∧
    le32 (bmpFileHeader s ++ bmpDibHeader w h d ++ rest) 14 = 40 ∧
    le32 (bmpFileHeader s ++ bmpDibHeader w h d ++ rest) 18 = toUint32 w ∧
    le32 (bmpFileHeader s ++ bmpDibHeader w h d ++ rest) 22 = toUint32 h ∧
    le16 (bmpFileHeader s ++ bmpDibHeader w h d ++ rest) 26 = 1 ∧
    le16 (bmpFileHeader s ++ bmpDibHeader w h d ++ rest) 28 = 8 ∧
    le32 (bmpFileHeader s ++ bmpDibHeader w h d ++ rest) 30 = 0 ∧
    le32 (bmpFileHeader s ++ bmpDibHeader w h d ++ rest) 34 = toUint32 d := by
  have hs := byte_sum32 (toUint32 s) (toUint32_lt s)
  have hw := byte_sum32 (toUint32 w) (toUint32_lt w)
  have hh := byte_sum32 (toUint32 h) (toUint32_lt h)
  have hd := byte_sum32 (toUint32 d) (toUint32_lt d)
  simp only [bmpFileHeader, bmpDibHeader, putUint32, putUint16, le32, le16,
    List.getD_eq_getElem?_getD, List.cons_append, List.nil_append, List.getElem?_cons_zero,
    List.getElem?_cons_succ, List.append_assoc, Option.getD_some]
  refine ⟨trivial, trivial, hs, ?_, ?_, hw, hh, ?_, ?_, ?_, hd⟩ <;> decide

/-- A buffer with positive dimensions and `len(Pix) = Width*Height` has natural-number dimensions. -/
theorem exists_nat_dims (img : ImageData) (hw : 0 < img.Width) (hh : 0 < img.Height)
    (hlen : (img.Pix.length : Int) = img.Width * img.Height) :
    ∃ w h : Nat, 0 < w ∧ 0 < h ∧ img.Width = (w : Int) ∧ img.Height = (h : Int) ∧
      img.Pix.length = w * h ∧
      img = { Width := w, Height := h, Pix := img.Pix, Palette := img.Palette,
              HasPal := img.HasPal } := by
  obtain ⟨w, hw2⟩ := Int.eq_ofNat_of_zero_le (le_of_lt hw)
  obtain ⟨h, hh2⟩ := Int.eq_ofNat_of_zero_le (le_of_lt hh)
  refine ⟨w, h, by omega, by omega, hw2, hh2, ?_, ?_⟩
  · rw [hw2, hh2] at hlen
    exact_mod_cast hlen
  · cases img
    simp only at hw2 hh2
    subst hw2 hh2
    rfl

/-- C8: for a buffer with `Width > 0`, `Height > 0`, `len(Pix) = Width*Height` and
a file size `54 + 1024 + row_stride*Height` below `2^32`, where
`row_stride = (Width+3) &^ 3`, `SaveBMP` writes exactly that many bytes, and the
header holds `'B','M'`, the file size at offset 2, the data offset 1078 at 10, the
info-header size 40 at 14, the width at 18, the height at 22, planes 1 at 26,
bit count 8 at 28, compression 0 at 30 and the data size `row_stride*Height` at 34. -/
theorem saveBMP_size_and_header (img : ImageData) (hw : 0 < img.Width) (hh : 0 < img.Height)
    (hlen : (img.Pix.length : Int) = img.Width * img.Height)
    (hsize : 54 + 1024 + saveRowSize img.Width * img.Height < 4294967296) :
    ∃ bytes : List Byte, SaveBMP img = .ok bytes ∧
      (bytes.length : Int) = 54 + 1024 + saveRowSize img.Width * img.Height ∧
      bytes[0]? = some 0x42 ∧ bytes[1]? = some 0x4D ∧
      (le32 bytes 2 : Int) = 54 + 1024 + saveRowSize img.Width * img.Height ∧
      le32 bytes 10 = 1078 ∧
      le32 bytes 14 = 40 ∧
      (le32 bytes 18 : Int) = img.Width ∧
      (le32 bytes 22 : Int) = img.Height ∧
      le16 bytes 26 = 1 ∧
      le16 bytes 28 = 8 ∧
      le32 bytes 30 = 0 ∧
      (le32 bytes 34 : Int) = saveRowSize img.Width * img.Height := by
  obtain ⟨w, h, hw0, hh0, hwe, hhe, hl, himg⟩ := exists_nat_dims img hw hh hlen
  rw [hwe, hhe, saveRowSize_stride] at hsize ⊢
  have hsave := SaveBMP_eq w h img.Pix img.Palette img.HasPal hl
  rw [← himg] at hsave
  have hwS := (stride_bounds w).1
  have hprod : h ≤ stride w * h := Nat.le_mul_of_pos_left h (by omega)
  have hprod2 : w ≤ stride w * h := le_trans hwS (Nat.le_mul_of_pos_right _ hh0)
  have hsz : 54 + 1024 + stride w * h < 4294967296 := by exact_mod_cast hsize
  obtain ⟨f0, f1, f2, f10, f14, f18, f22, f26, f28, f30, f34⟩ :=
    header_fields (54 + 256 * 4 + (stride w : Int) * (h : Int)) w h ((stride w : Int) * (h : Int))
      (bmpPaletteBytes img.Palette
        ++ ((List.range h).reverse.map (bmpRow img.Pix w (stride w))).flatten)
  simp only [← List.append_assoc] at f0 f1 f2 f10 f14 f18 f22 f26 f28 f30 f34
  refine ⟨_, hsave, ?_, f0, f1, ?_, f10, f14, ?_, ?_, f26, f28, f30, ?_⟩
  · rw [List.length_append, length_bmpPrefix, length_rowsData]
    push_cast
    ring
  · rw [f2]
    have : (54 : Int) + 256 * 4 + (stride w : Int) * (h : Int) = ((54 + 1024 + stride w * h : Nat) : Int) := by
      push_cast
      ring
    rw [this, toUint32_nat _ hsz]
    push_cast
    ring
  · rw [f18, toUint32_nat _ (by omega)]
  · rw [f22, toUint32_nat _ (by omega)]
  · rw [f34]
    have : (stride w : Int) * (h : Int) = ((stride w * h : Nat) : Int) := by push_cast; ring
    rw [this, toUint32_nat _ (by omega)]

/-- Witness for C8: a 3x2 indexed buffer. -/
theorem saveBMP_size_and_header_witness :
    ∃ bytes : List Byte,
      SaveBMP ⟨(3 : Nat), (2 : Nat),
        [⟨0, 0, 0⟩, ⟨1, 0, 0⟩, ⟨2, 0, 0⟩, ⟨3, 0, 0⟩, ⟨4, 0, 0⟩, ⟨5, 0, 0⟩], zeroPalette, true⟩
        = .ok bytes ∧
      (bytes.length : Int) = 54 + 1024 + saveRowSize (3 : Nat) * (2 : Nat) := by
  obtain ⟨bytes, h1, h2, _⟩ := saveBMP_size_and_header
    ⟨(3 : Nat), (2 : Nat),
      [⟨0, 0, 0⟩, ⟨1, 0, 0⟩, ⟨2, 0, 0⟩, ⟨3, 0, 0⟩, ⟨4, 0, 0⟩, ⟨5, 0, 0⟩], zeroPalette, true⟩
    (by decide) (by decide) (by decide) (by rw [saveRowSize_nat]; decide)
  exact ⟨bytes, h1, h2⟩

/-- C9: for a buffer with `Width > 0`, `Height > 0` and `len(Pix) = Width*Height`,
in the bytes `SaveBMP` writes the byte at offset
`1078 + (Height-1-y)*row_stride + x` is the index `Pix[y*Width+x].R` for
`x < Width`, `y < Height`, the byte at a row position `Width ≤ x < row_stride` is 0,
and `row_stride = (Width+3) &^ 3` is the least multiple of 4 that is at least `Width`. -/
theorem saveBMP_pixel_layout (img : ImageData) (hw : 0 < img.Width) (hh : 0 < img.Height)
    (hlen : (img.Pix.length : Int) = img.Width * img.Height) :
    ∃ bytes : List Byte, SaveBMP img = .ok bytes ∧
      (∀ x y : Nat, (x : Int) < img.Width → (y : Int) < img.Height →
        ∃ c : ColorRGB, img.Pix[y * img.Width.toNat + x]? = some c ∧
          bytes[1078 + (img.Height.toNat - 1 - y) * (saveRowSize img.Width).toNat + x]?
            = some c.R) ∧
      (∀ x y : Nat, img.Width ≤ (x : Int) → (x : Int) < saveRowSize img.Width →
        (y : Int) < img.Height →
        bytes[1078 + (img.Height.toNat - 1 - y) * (saveRowSize img.Width).toNat + x]? = some 0) ∧
      saveRowSize img.Width % 4 = 0 ∧ img.Width ≤ saveRowSize img.Width ∧
      (∀ m : Int, m % 4 = 0 → img.Width ≤ m → saveRowSize img.Width ≤ m) := by
  obtain ⟨w, h, hw0, hh0, hwe, hhe, hl, himg⟩ := exists_nat_dims img hw hh hlen
  have hsave := SaveBMP_eq w h img.Pix img.Palette img.HasPal hl
  rw [← himg] at hsave
  rw [hwe, hhe, saveRowSize_stride]
  simp only [Int.toNat_ofNat]
  obtain ⟨hs1, hs2, hs3⟩ := stride_bounds w
  refine ⟨_, hsave, ?_, ?_, by omega, by omega, ?_⟩
  · intro x y hx hy
    have hx2 : x < w := by omega
    have hy2 : y < h := by omega
    have hin : y * w + x < img.Pix.length := by
      rw [hl]
      exact cursor_in_bounds w h x y hx2 hy2
    refine ⟨img.Pix.getD (y * w + x) black, ?_, ?_⟩
    · rw [List.getD_eq_getElem _ _ hin, List.getElem?_eq_getElem hin]
    · rw [getElem?_rowsData img.Pix w h y x hy2 (by omega) _ (length_bmpPrefix _ _ _ _ _),
        getElem?_bmpRow_pixel img.Pix w (stride w) y x hx2]
  · intro x y hx hx3 hy
    rw [getElem?_rowsData img.Pix w h y x (by omega) (by omega) _ (length_bmpPrefix _ _ _ _ _),
      getElem?_bmpRow_padding img.Pix w (stride w) y x (by omega) (by omega)]
  · intro m hm hwm
    omega

/-- Witness for C9: a 3x2 indexed buffer. -/
theorem saveBMP_pixel_layout_witness :
    ∃ bytes : List Byte,
      SaveBMP ⟨(3 : Nat), (2 : Nat),
        [⟨0, 0, 0⟩, ⟨1, 0, 0⟩, ⟨2, 0, 0⟩, ⟨3, 0, 0⟩, ⟨4, 0, 0⟩, ⟨5, 0, 0⟩], zeroPalette, true⟩
        = .ok bytes ∧
      saveRowSize (3 : Nat) % 4 = 0 := by
  obtain ⟨bytes, h1, _, _, h4, _⟩ := saveBMP_pixel_layout
    ⟨(3 : Nat), (2 : Nat),
      [⟨0, 0, 0⟩, ⟨1, 0, 0⟩, ⟨2, 0, 0⟩, ⟨3, 0, 0⟩, ⟨4, 0, 0⟩, ⟨5, 0, 0⟩], zeroPalette, true⟩
    (by decide) (by decide) (by decide)
  exact ⟨bytes, h1, h4⟩


/-! ### Reading back what `SaveBMP` writes -/

/-- One `Read` call for the `n` bytes that the file holds at the position: the
first `maxRW` of them arrive and the rest of the buffer stays zero. -/
theorem File.read_capped (data pre chunk post : List Byte) (pos n : Nat)
    (hd : data = pre ++ chunk ++ post) (hp : pos = pre.length) (hn : chunk.length = n)
    (h0 : 0 < n) :
    File.read { data := data, pos := pos } n
      = .ok (chunk.take maxRW ++ List.replicate (n - min n maxRW) 0,
          { data := data, pos := pos + min n maxRW }) := by
  have hne : ¬ n = 0 := by omega
  have hlt : ¬ data.length ≤ pos := by
    rw [hd, hp, List.length_append, List.length_append]
    omega
  have htake : chunk.take (min n maxRW) = chunk.take maxRW := by
    by_cases hc : n ≤ maxRW
    · rw [Nat.min_eq_left hc, List.take_of_length_le (by omega),
        List.take_of_length_le (by omega)]
    · rw [Nat.min_eq_right (by omega)]
  have hgot : (data.drop pos).take (min n maxRW) = chunk.take maxRW := by
    rw [hd, hp, List.append_assoc, List.drop_left,
      List.take_append_of_le_length (by rw [hn]; exact Nat.min_le_left _ _), htake]
  have hl : (chunk.take maxRW).length = min n maxRW := by
    rw [List.length_take, hn, Nat.min_comm]
  simp only [File.read, if_neg hne, if_neg hlt, hgot, hl]

theorem File.read_chunk (data pre chunk post : List Byte) (pos n : Nat)
    (hd : data = pre ++ chunk ++ post) (hp : pos = pre.length) (hn : chunk.length = n)
    (h0 : 0 < n) (hcap : n ≤ maxRW) :
    File.read { data := data, pos := pos } n = .ok (chunk, { data := data, pos := pos + n }) := by
  rw [File.read_capped data pre chunk post pos n hd hp hn h0, Nat.min_eq_left hcap,
    List.take_of_length_le (by omega), Nat.sub_self, List.replicate_zero, List.append_nil]

theorem getD_capped (rows : List Byte) (m k : Nat) :
    (rows.take maxRW ++ List.replicate m 0).getD k 0
      = if k < maxRW then rows.getD k 0 else 0 := by
  rw [List.getD_eq_getElem?_getD, List.getD_eq_getElem?_getD]
  by_cases hk : k < (rows.take maxRW).length
  · have hk2 := hk
    rw [List.length_take] at hk2
    rw [List.getElem?_append_left hk, List.getElem?_take_of_lt (by omega), if_pos (by omega)]
  · rw [List.length_take] at hk
    rw [List.getElem?_append_right (by rw [List.length_take]; omega), List.getElem?_replicate]
    have hz : (if k - (List.take maxRW rows).length < m then some (0 : Byte) else none).getD 0
        = 0 := by
      split_ifs <;> rfl
    rw [hz]
    split_ifs with hc
    · rw [List.getElem?_eq_none (by omega)]
      rfl
    · rfl

theorem File.readFull_chunk (data pre chunk post : List Byte) (pos n : Nat)
    (hd : data = pre ++ chunk ++ post) (hp : pos = pre.length) (hn : chunk.length = n) :
    File.readFull { data := data, pos := pos } n
      = .ok (chunk, { data := data, pos := pos + n }) := by
  have hle : pos + n ≤ data.length := by
    rw [hd, hp, List.length_append, List.length_append]
    omega
  have hgot : (data.drop pos).take n = chunk := by
    rw [hd, hp, List.append_assoc, List.drop_left, ← hn, List.take_left]
  simp only [File.readFull, if_pos hle, hgot]

theorem readPalette_spec (post : List Byte) :
    ∀ (cs : List ColorRGB) (data pre : List Byte) (pos i : Nat) (p0 : List ColorRGB),
      data = pre ++ cs.flatMap bgr0 ++ post → pos = pre.length →
      ∃ p1 : List ColorRGB,
        readPalette cs.length i { data := data, pos := pos } p0
          = .ok (p1, { data := data, pos := pos + 4 * cs.length }) ∧
        p1.length = p0.length ∧
        ∀ k, p1[k]? =
          if i ≤ k ∧ k < i + cs.length ∧ k < p0.length then cs[k - i]? else p0[k]? := by
  intro cs
  induction cs with
  | nil =>
    intro data pre pos i p0 _ _
    refine ⟨p0, rfl, rfl, ?_⟩
    intro k
    have hno : ¬ (i ≤ k ∧ k < i + ([] : List ColorRGB).length ∧ k < p0.length) := by
      simp only [List.length_nil]
      omega
    rw [if_neg hno]
  | cons c cs ih =>
    intro data pre pos i p0 hd hp
    have hd1 : data = pre ++ bgr0 c ++ (cs.flatMap bgr0 ++ post) := by
      rw [hd, List.flatMap_cons]
      simp only [List.append_assoc]
    have hd2 : data = (pre ++ bgr0 c) ++ cs.flatMap bgr0 ++ post := by
      rw [hd, List.flatMap_cons]
      simp only [List.append_assoc]
    have hread := File.readFull_chunk data pre (bgr0 c) (cs.flatMap bgr0 ++ post) pos 4 hd1 hp rfl
    obtain ⟨p1, h1, h2, h3⟩ := ih data (pre ++ bgr0 c) (pos + 4) (i + 1) (p0.set i c) hd2
      (by rw [List.length_append, hp]; rfl)
    refine ⟨p1, ?_, ?_, ?_⟩
    · simp only [readPalette, List.length_cons, hread]
      have hc : (⟨(bgr0 c).getD 2 0, (bgr0 c).getD 1 0, (bgr0 c).getD 0 0⟩ : ColorRGB) = c := rfl
      rw [hc, h1]
      have : pos + 4 + 4 * cs.length = pos + 4 * (cs.length + 1) := by omega
      rw [this]
    · rw [h2, List.length_set]
    · intro k
      rw [h3 k, List.length_set, List.getElem?_set, List.length_cons]
      by_cases hk : i = k
      · subst hk
        by_cases hl : i < p0.length
        · rw [if_neg (by omega), if_pos rfl, if_pos hl, if_pos (by omega), Nat.sub_self,
            List.getElem?_cons_zero]
        · rw [if_neg (by omega), if_pos rfl, if_neg hl, if_neg (by omega)]
          exact (List.getElem?_eq_none (by omega)).symm
      · rw [if_neg hk]
        by_cases hc : i + 1 ≤ k ∧ k < i + 1 + cs.length ∧ k < p0.length
        · rw [if_pos hc, if_pos (by omega)]
          have : k - i = (k - (i + 1)) + 1 := by omega
          rw [this, List.getElem?_cons_succ]
        · rw [if_neg hc, if_neg (by omega)]

theorem bmpPaletteBytes_eq (pal : List ColorRGB) :
    bmpPaletteBytes pal = ((List.range 256).map (fun i => pal.getD i black)).flatMap bgr0 := by
  unfold bmpPaletteBytes
  rw [List.flatMap_def, List.flatMap_def, List.map_map]
  rfl

theorem foldl_set_offset {α : Type} (f : Nat → α) (off : Nat) :
    ∀ (n : Nat) (pix : List α),
      ((List.range n).foldl (fun p x => p.set (off + x) (f x)) pix).length = pix.length ∧
      ∀ k, ((List.range n).foldl (fun p x => p.set (off + x) (f x)) pix)[k]? =
        if off ≤ k ∧ k < off + n ∧ k < pix.length then some (f (k - off)) else pix[k]? := by
  intro n
  induction n with
  | zero =>
    intro pix
    refine ⟨rfl, ?_⟩
    intro k
    rw [if_neg (by omega)]
    rfl
  | succ n ih =>
    intro pix
    obtain ⟨h1, h2⟩ := ih pix
    rw [List.range_succ, List.foldl_append, List.foldl_cons, List.foldl_nil]
    refine ⟨by rw [List.length_set, h1], ?_⟩
    intro k
    rw [List.getElem?_set, h1, h2 k]
    by_cases hk : off + n = k
    · subst hk
      by_cases hl : off + n < pix.length
      · rw [if_pos rfl, if_pos hl, if_pos (by omega), Nat.add_sub_cancel_left]
      · rw [if_pos rfl, if_neg hl, if_neg (by omega)]
        exact (List.getElem?_eq_none (by omega)).symm
    · rw [if_neg hk]
      by_cases hc : off ≤ k ∧ k < off + n ∧ k < pix.length
      · rw [if_pos hc, if_pos (by omega)]
      · rw [if_neg hc, if_neg (by omega)]

theorem rowsLoop_spec {α : Type} (g : Nat → Nat → α) (w h : Nat) (p0 : List α)
    (hlen : p0.length = w * h) :
    ∀ k, k ≤ h →
      ((List.range k).foldl
        (fun pix y => (List.range w).foldl (fun pix x => pix.set (y * w + x) (g y x)) pix)
        p0).length = p0.length ∧
      ∀ y, y < k → ∀ x, x < w →
        ((List.range k).foldl
          (fun pix y => (List.range w).foldl (fun pix x => pix.set (y * w + x) (g y x)) pix)
          p0)[y * w + x]? = some (g y x) := by
  intro k
  induction k with
  | zero =>
    intro _
    exact ⟨rfl, fun y hy => by omega⟩
  | succ k ih =>
    intro hk
    obtain ⟨h1, h2⟩ := ih (by omega)
    rw [List.range_succ, List.foldl_append, List.foldl_cons, List.foldl_nil]
    obtain ⟨h3, h4⟩ := foldl_set_offset (g k) (k * w) w
      ((List.range k).foldl
        (fun pix y => (List.range w).foldl (fun pix x => pix.set (y * w + x) (g y x)) pix) p0)
    refine ⟨by rw [h3, h1], ?_⟩
    intro y hy x hx
    rw [h4, h1]
    have hin : y * w + x < w * h := cursor_in_bounds w h x y hx (by omega)
    rcases Nat.lt_succ_iff_lt_or_eq.mp hy with hlt | heq
    · have hb : (y + 1) * w ≤ k * w := Nat.mul_le_mul_right _ (by omega)
      rw [Nat.add_mul, Nat.one_mul] at hb
      rw [if_neg (by omega)]
      exact h2 y hlt x hx
    · subst heq
      rw [if_pos (by omega), Nat.add_sub_cancel_left]

theorem fillPix_spec (bitCount : Nat) (data : List Byte) (palette : List ColorRGB)
    (w h rowSize : Nat) :
    (fillPix bitCount data palette w h rowSize).length = w * h ∧
    ∀ y, y < h → ∀ x, x < w →
      (fillPix bitCount data palette w h rowSize)[y * w + x]?
        = some (bmpPixel bitCount data palette h rowSize y x) := by
  obtain ⟨h1, h2⟩ := rowsLoop_spec (bmpPixel bitCount data palette h rowSize) w h
    (List.replicate (w * h) black) (by simp) h (Nat.le_refl h)
  refine ⟨?_, h2⟩
  unfold fillPix fillPixFrom
  rw [h1, List.length_replicate]


theorem dib_fields (w h d : Int) :
    le32 (bmpDibHeader w h d) 4 = toUint32 w ∧ le32 (bmpDibHeader w h d) 8 = toUint32 h ∧
    le16 (bmpDibHeader w h d) 14 = 8 := by
  have hw := byte_sum32 (toUint32 w) (toUint32_lt w)
  have hh := byte_sum32 (toUint32 h) (toUint32_lt h)
  simp only [bmpDibHeader, putUint32, putUint16, le32, le16,
    List.getD_eq_getElem?_getD, List.cons_append, List.nil_append, List.getElem?_cons_zero,
    List.getElem?_cons_succ, List.append_assoc, Option.getD_some]
  exact ⟨hw, hh, by decide⟩

theorem fileHeader_magic (s : Int) :
    ¬ ((bmpFileHeader s).getD 0 0 ≠ 0x42 ∨ (bmpFileHeader s).getD 1 0 ≠ 0x4D) := by
  simp [bmpFileHeader]

/-- What `LoadBMP` returns on a file made of the two headers `SaveBMP` writes for
a `w` by `h` image, a palette and `stride w * h` bytes of pixel data: the pixel
loops run on the first `maxRW` bytes of the pixel data, followed by zeros. -/
theorem LoadBMP_of_saved (w h : Nat) (hw0 : 0 < w) (hh0 : 0 < h) (hw : w < 2147483648)
    (hh : h < 2147483648) (s d : Int) (pal : List ColorRGB) (rows : List Byte)
    (hrows : rows.length = stride w * h) :
    ∃ pal1 : List ColorRGB, (∀ k, k < 256 → pal1.getD k black = pal.getD k black) ∧
      LoadBMP (bmpFileHeader s ++ bmpDibHeader w h d ++ bmpPaletteBytes pal ++ rows)
        = .ok { Width := w, Height := h,
                Pix := fillPix 8 (rows.take maxRW
                  ++ List.replicate (stride w * h - min (stride w * h) maxRW) 0) pal1 w h (stride w),
                Palette := zeroPalette, HasPal := false } := by
  obtain ⟨f4, f8, f14⟩ := dib_fields w h d
  rw [toUint32_nat w (by omega)] at f4
  rw [toUint32_nat h (by omega)] at f8
  have r1 := File.read_chunk
    (bmpFileHeader s ++ bmpDibHeader w h d ++ bmpPaletteBytes pal ++ rows) []
    (bmpFileHeader s) (bmpDibHeader w h d ++ bmpPaletteBytes pal ++ rows) 0 14
    (by simp only [List.nil_append, List.append_assoc]) rfl (length_bmpFileHeader s) (by omega)
    (by decide)
  have r2 := File.read_chunk
    (bmpFileHeader s ++ bmpDibHeader w h d ++ bmpPaletteBytes pal ++ rows) (bmpFileHeader s)
    (bmpDibHeader w h d) (bmpPaletteBytes pal ++ rows) (0 + 14) 40
    (by simp only [List.append_assoc]) (by rw [length_bmpFileHeader]) (length_bmpDibHeader _ _ _)
    (by omega) (by decide)
  obtain ⟨pal1, r3, hl3, hget3⟩ := readPalette_spec rows
    ((List.range 256).map (fun i => pal.getD i black))
    (bmpFileHeader s ++ bmpDibHeader w h d ++ bmpPaletteBytes pal ++ rows)
    (bmpFileHeader s ++ bmpDibHeader w h d) (0 + 14 + 40) 0 zeroPalette
    (by rw [bmpPaletteBytes_eq])
    (by rw [List.length_append, length_bmpFileHeader, length_bmpDibHeader])
  have hcs : ((List.range 256).map (fun i => pal.getD i black)).length = 256 := by
    rw [List.length_map, List.length_range]
  rw [hcs] at r3
  have hpos : 0 < stride w * h := Nat.mul_pos (by have := (stride_bounds w).1; omega) hh0
  have r4 := File.read_capped
    (bmpFileHeader s ++ bmpDibHeader w h d ++ bmpPaletteBytes pal ++ rows)
    (bmpFileHeader s ++ bmpDibHeader w h d ++ bmpPaletteBytes pal) rows [] (0 + 14 + 40 + 4 * 256)
    (stride w * h) (by simp only [List.append_nil]) (by rw [length_bmpPrefix]) hrows hpos
  refine ⟨pal1, ?_, ?_⟩
  · intro k hk
    have := hget3 k
    rw [hcs, if_pos ⟨by omega, by omega, by
      show k < (List.replicate 256 black).length
      rw [List.length_replicate]
      exact hk⟩] at this
    rw [List.getD_eq_getElem?_getD, this, Nat.sub_zero, List.getElem?_map,
      List.getElem?_range hk]
    rfl
  · have hbc : ¬ ((8 : Nat) ≠ 8 ∧ (8 : Nat) ≠ 24) := by decide
    have hmul : ((stride w : Int) * (h : Int)) = ((stride w * h : Nat) : Int) := by
      push_cast
      ring
    have hneg : ¬ (((stride w * h : Nat) : Int) < 0) := by omega
    have hmul2 : ((w : Int) * (h : Int)) = ((w * h : Nat) : Int) := by
      push_cast
      ring
    have hneg2 : ¬ (((w * h : Nat) : Int) < 0) := by omega
    unfold LoadBMP
    simp only [r1]
    rw [if_neg (fileHeader_magic s)]
    simp only [r2]
    simp only [f4, f8, f14]
    rw [if_neg hbc]
    rw [if_pos True.intro]
    simp only [r3]
    have hrs : loadRowSize (w : Int) 8 = (stride w : Int) := loadRowSize_eight w
    simp only [toInt32_small w hw, toInt32_small h hh, hrs, hmul]
    rw [if_neg hneg]
    simp only [Int.toNat_ofNat, r4]
    rw [hmul2, if_neg hneg2]
    simp only [Int.toNat_ofNat, fillPix]

theorem getElem?_rowsFlat (pix : List ColorRGB) (w h y x : Nat) (hy : y < h) (hx : x < stride w) :
    (((List.range h).reverse.map (bmpRow pix w (stride w))).flatten)[(h - 1 - y) * stride w + x]?
      = (bmpRow pix w (stride w) y)[x]? := by
  have := getElem?_rowsData pix w h y x hy hx (List.replicate 1078 0) (List.length_replicate _ _)
  rw [List.getElem?_append_right (by rw [List.length_replicate]; omega),
    List.length_replicate,
    show 1078 + (h - 1 - y) * stride w + x - 1078 = (h - 1 - y) * stride w + x by omega] at this
  exact this

/-- The result of reading back the file `SaveBMP` writes for a `w` by `h` buffer:
a pixel whose byte lies in the first `maxRW` bytes of the pixel data comes back
as its palette colour, any other pixel as palette entry 0. -/
theorem saveThenLoad_capped (w h : Nat) (hw0 : 0 < w) (hh0 : 0 < h) (hw : w < 2147483648)
    (hh : h < 2147483648) (pix pal : List ColorRGB) (hp : Bool) (hlen : pix.length = w * h) :
    ∃ outPix : List ColorRGB,
      saveThenLoad { Width := w, Height := h, Pix := pix, Palette := pal, HasPal := hp }
        = .ok { Width := w, Height := h, Pix := outPix, Palette := zeroPalette, HasPal := false } ∧
      outPix.length = w * h ∧
      ∀ i, i < w * h → outPix[i]? = some (pal.getD
        (if (h - 1 - i / w) * stride w + i % w < maxRW then (pix.getD i black).R.val else 0)
        black) := by
  have hsave := SaveBMP_eq w h pix pal hp hlen
  obtain ⟨pal1, hpal1, hload⟩ := LoadBMP_of_saved w h hw0 hh0 hw hh
    (54 + 256 * 4 + (stride w : Int) * (h : Int)) ((stride w : Int) * (h : Int)) pal
    (((List.range h).reverse.map (bmpRow pix w (stride w))).flatten) (length_rowsData pix w h)
  obtain ⟨hfl, hfp⟩ := fillPix_spec 8
    ((((List.range h).reverse.map (bmpRow pix w (stride w))).flatten).take maxRW
      ++ List.replicate (stride w * h - min (stride w * h) maxRW) 0) pal1 w h (stride w)
  refine ⟨_, by simp only [saveThenLoad, hsave, hload], hfl, ?_⟩
  intro i hi
  have hy : i / w < h := (Nat.div_lt_iff_lt_mul hw0).mpr (by rw [Nat.mul_comm]; exact hi)
  have hx : i % w < w := Nat.mod_lt i hw0
  have hi2 : i / w * w + i % w = i := Nat.div_add_mod' i w
  have := hfp (i / w) hy (i % w) hx
  rw [hi2] at this
  rw [this]
  have hbyte := getElem?_rowsFlat pix w h (i / w) (i % w) hy
    (by have := (stride_bounds w).1; omega)
  rw [getElem?_bmpRow_pixel pix w (stride w) (i / w) (i % w) hx, hi2] at hbyte
  simp only [bmpPixel, if_true, getD_capped]
  split_ifs with hc
  · simp only [List.getD_eq_getElem?_getD _ _ (0 : Byte), hbyte, Option.getD_some]
    rw [hpal1 _ (pix.getD i black).R.isLt]
  · exact congrArg some (hpal1 0 (by decide))

/-- The result of reading back the file `SaveBMP` writes for a `w` by `h` buffer
whose pixel data, `stride w * h` bytes, is delivered by one read. -/
theorem saveThenLoad_spec (w h : Nat) (hw0 : 0 < w) (hh0 : 0 < h) (hcap : stride w * h ≤ maxRW)
    (pix pal : List ColorRGB) (hp : Bool) (hlen : pix.length = w * h) :
    ∃ outPix : List ColorRGB,
      saveThenLoad { Width := w, Height := h, Pix := pix, Palette := pal, HasPal := hp }
        = .ok { Width := w, Height := h, Pix := outPix, Palette := zeroPalette, HasPal := false } ∧
      outPix.length = w * h ∧
      ∀ i, i < w * h → outPix[i]? = some (pal.getD (pix.getD i black).R.val black) := by
  have hs := (stride_bounds w).1
  have hcap2 : stride w * h ≤ 1073741824 := hcap
  have hw : w < 2147483648 := by
    have : stride w * 1 ≤ stride w * h := Nat.mul_le_mul_left _ hh0
    omega
  have hh : h < 2147483648 := by
    have : 1 * h ≤ stride w * h := Nat.mul_le_mul_right _ (by omega)
    omega
  obtain ⟨outPix, h1, h2, h3⟩ := saveThenLoad_capped w h hw0 hh0 hw hh pix pal hp hlen
  refine ⟨outPix, h1, h2, ?_⟩
  intro i hi
  have hy : i / w < h := (Nat.div_lt_iff_lt_mul hw0).mpr (by rw [Nat.mul_comm]; exact hi)
  have hx : i % w < w := Nat.mod_lt i hw0
  have hrow : ∀ q, q < h → (h - 1 - q) * stride w + stride w ≤ stride w * h := by
    intro q hq
    have : (h - 1 - q + 1) * stride w ≤ h * stride w := Nat.mul_le_mul_right _ (by omega)
    rw [Nat.add_mul, Nat.one_mul, Nat.mul_comm h] at this
    exact this
  have hrow2 := hrow (i / w) hy
  have hlt : (h - 1 - i / w) * stride w + i % w < stride w * h := by omega
  rw [h3 i hi, if_pos (lt_of_lt_of_le hlt hcap)]

/-- C1 (amended): for an indexed buffer with `Width > 0`, `Height > 0`,
`len(Pix) = Width*Height`, a 256-entry palette and pixel data of at most `2^30`
bytes (`rowSize*Height ≤ maxRW` with `rowSize = (Width+3) &^ 3`, what one `Read`
call delivers), `LoadBMP` on the bytes `SaveBMP` writes succeeds with the same
width and height and as many pixels, and pixel `i` of the result is the palette
colour `Palette[Pix[i].R]`; so the result holds the pixel `Pix[i]` itself exactly
where `Palette[Pix[i].R] = Pix[i]`. -/
theorem saveBMP_loadBMP_roundtrip (img : ImageData) (hw : 0 < img.Width) (hh : 0 < img.Height)
    (hcap : saveRowSize img.Width * img.Height ≤ (maxRW : Int))
    (hlen : (img.Pix.length : Int) = img.Width * img.Height) (hpal : img.Palette.length = 256) :
    ∃ out : ImageData, saveThenLoad img = .ok out ∧
      out.Width = img.Width ∧ out.Height = img.Height ∧ out.Pix.length = img.Pix.length ∧
      (∀ (i : Nat) (c : ColorRGB), img.Pix[i]? = some c →
        out.Pix[i]? = img.Palette[c.R.val]?) ∧
      (∀ (i : Nat) (c : ColorRGB), img.Pix[i]? = some c →
        (out.Pix[i]? = some c ↔ img.Palette[c.R.val]? = some c)) := by
  obtain ⟨w, h, hw0, hh0, hwe, hhe, hl, himg⟩ := exists_nat_dims img hw hh hlen
  rw [hwe, hhe, saveRowSize_stride] at hcap
  obtain ⟨outPix, hrt, hlen2, hpix⟩ := saveThenLoad_spec w h hw0 hh0 (by exact_mod_cast hcap)
    img.Pix img.Palette img.HasPal hl
  rw [← himg] at hrt
  have hkey : ∀ (i : Nat) (c : ColorRGB), img.Pix[i]? = some c →
      outPix[i]? = img.Palette[c.R.val]? := by
    intro i c hc
    have hi : i < img.Pix.length := by
      by_contra hge
      rw [List.getElem?_eq_none (by omega)] at hc
      cases hc
    have hget : img.Pix.getD i black = c := by
      rw [List.getD_eq_getElem?_getD, hc]
      rfl
    rw [hpix i (by omega), hget, List.getD_eq_getElem _ _ (by rw [hpal]; exact c.R.isLt),
      List.getElem?_eq_getElem]
  refine ⟨_, hrt, hwe.symm, hhe.symm, by rw [hlen2, hl], hkey, ?_⟩
  intro i c hc
  rw [hkey i c hc]

/-- Witness for C1 (amended): a 3x2 indexed buffer with the all-black palette. -/
theorem saveBMP_loadBMP_roundtrip_witness :
    ∃ out : ImageData,
      saveThenLoad ⟨(3 : Nat), (2 : Nat),
        [⟨0, 0, 0⟩, ⟨1, 0, 0⟩, ⟨2, 0, 0⟩, ⟨3, 0, 0⟩, ⟨4, 0, 0⟩, ⟨5, 0, 0⟩], zeroPalette, true⟩
        = .ok out ∧
      out.Width = (3 : Nat) ∧ out.Height = (2 : Nat) := by
  obtain ⟨out, h1, h2, h3, _⟩ := saveBMP_loadBMP_roundtrip
    ⟨(3 : Nat), (2 : Nat),
      [⟨0, 0, 0⟩, ⟨1, 0, 0⟩, ⟨2, 0, 0⟩, ⟨3, 0, 0⟩, ⟨4, 0, 0⟩, ⟨5, 0, 0⟩], zeroPalette, true⟩
    (by decide) (by decide) (by rw [saveRowSize_stride]; decide) (by decide)
    (List.length_replicate 256 black)
  exact ⟨out, h1, h2, h3⟩

/-- C1 fails as stated: on the 1x1 buffer whose only pixel is the index `(0,0,0)`
and whose palette is 256 times `(1,2,3)` (width and height positive,
`len(Pix) = Width*Height`, 256 palette entries), `LoadBMP` on the bytes `SaveBMP`
writes returns the pixel `(1,2,3)`, not the index `(0,0,0)`. -/
theorem roundtrip_index_counterexample :
    0 < indexedPixel.Width ∧ 0 < indexedPixel.Height ∧
    (indexedPixel.Pix.length : Int) = indexedPixel.Width * indexedPixel.Height ∧
    indexedPixel.Palette.length = 256 ∧
    saveThenLoad indexedPixel
      = .ok { Width := 1, Height := 1, Pix := [⟨1, 2, 3⟩], Palette := zeroPalette, HasPal := false } ∧
    indexedPixel.Pix = [⟨0, 0, 0⟩] := by
  refine ⟨by decide, by decide, by decide, List.length_replicate 256 _, ?_, rfl⟩
  obtain ⟨outPix, hrt, hlen2, hpix⟩ := saveThenLoad_spec 1 1 (by omega) (by omega) (by decide)
    [⟨0, 0, 0⟩] (List.replicate 256 ⟨1, 2, 3⟩) true rfl
  have h0 := hpix 0 (by omega)
  have hout : outPix = [⟨1, 2, 3⟩] := by
    match outPix, hlen2, h0 with
    | [c], _, h0 =>
      simp only [List.getElem?_cons_zero, Option.some.injEq] at h0
      rw [h0]
      rfl
  rw [hout] at hrt
  exact hrt

/-- When the width and height fields, read back as `int32`, give a negative
`rowSize * h`, `make([]byte, rowSize*h)` panics. -/
theorem LoadBMP_negative_size (s w h d : Int) (pal : List ColorRGB) (rows : List Byte)
    (hneg : loadRowSize (toInt32 (toUint32 w)) 8 * toInt32 (toUint32 h) < 0) :
    LoadBMP (bmpFileHeader s ++ bmpDibHeader w h d ++ bmpPaletteBytes pal ++ rows)
      = .error .panic := by
  obtain ⟨f4, f8, f14⟩ := dib_fields w h d
  have r1 := File.read_chunk
    (bmpFileHeader s ++ bmpDibHeader w h d ++ bmpPaletteBytes pal ++ rows) []
    (bmpFileHeader s) (bmpDibHeader w h d ++ bmpPaletteBytes pal ++ rows) 0 14
    (by simp only [List.nil_append, List.append_assoc]) rfl (length_bmpFileHeader s) (by omega)
    (by decide)
  have r2 := File.read_chunk
    (bmpFileHeader s ++ bmpDibHeader w h d ++ bmpPaletteBytes pal ++ rows) (bmpFileHeader s)
    (bmpDibHeader w h d) (bmpPaletteBytes pal ++ rows) (0 + 14) 40
    (by simp only [List.append_assoc]) (by rw [length_bmpFileHeader]) (length_bmpDibHeader _ _ _)
    (by omega) (by decide)
  obtain ⟨pal1, r3, _, _⟩ := readPalette_spec rows
    ((List.range 256).map (fun i => pal.getD i black))
    (bmpFileHeader s ++ bmpDibHeader w h d ++ bmpPaletteBytes pal ++ rows)
    (bmpFileHeader s ++ bmpDibHeader w h d) (0 + 14 + 40) 0 zeroPalette
    (by rw [bmpPaletteBytes_eq])
    (by rw [List.length_append, length_bmpFileHeader, length_bmpDibHeader])
  have hcs : ((List.range 256).map (fun i => pal.getD i black)).length = 256 := by
    rw [List.length_map, List.length_range]
  rw [hcs] at r3
  have hbc : ¬ ((8 : Nat) ≠ 8 ∧ (8 : Nat) ≠ 24) := by decide
  unfold LoadBMP
  simp only [r1]
  rw [if_neg (fileHeader_magic s)]
  simp only [r2]
  simp only [f4, f8, f14]
  rw [if_neg hbc]
  rw [if_pos True.intro]
  simp only [r3]
  rw [if_pos hneg]

theorem saveThenLoad_negative_size (w h : Nat) (pix pal : List ColorRGB) (hp : Bool)
    (hlen : pix.length = w * h)
    (hneg : loadRowSize (toInt32 (toUint32 (w : Int))) 8 * toInt32 (toUint32 (h : Int)) < 0) :
    saveThenLoad { Width := w, Height := h, Pix := pix, Palette := pal, HasPal := hp }
      = .error .panic := by
  have hsave := SaveBMP_eq w h pix pal hp hlen
  simp only [saveThenLoad, hsave]
  exact LoadBMP_negative_size _ _ _ _ _ _ hneg

theorem wide_row_negative :
    loadRowSize (toInt32 (toUint32 ((2147483648 : Nat) : Int))) 8
      * toInt32 (toUint32 ((1 : Nat) : Int)) < 0 := by
  rw [toUint32_nat _ (by omega), toUint32_nat _ (by omega)]
  decide

theorem wide_length : (List.replicate 2147483648 black).length = 2147483648 * 1 := by
  rw [List.length_replicate]

/-- A buffer of width `2^31` and height 1 is written with the width field
`0x80000000`, which `LoadBMP` reads back as the `int32` value `-2^31`; the
negative `rowSize * h` makes it panic. -/
theorem saveThenLoad_wide_panics :
    saveThenLoad { Width := ((2147483648 : Nat) : Int), Height := ((1 : Nat) : Int),
                   Pix := List.replicate 2147483648 black, Palette := zeroPalette, HasPal := true }
      = .error .panic :=
  saveThenLoad_negative_size 2147483648 1 (List.replicate 2147483648 black) zeroPalette true
    wide_length wide_row_negative

/-- Beyond `maxRW` bytes of pixel data: the 4 by `2^28 + 1` buffer `tallBuffer`
(positive width and height below `2^31`, `len(Pix) = Width*Height`) is written
with `2^30 + 4` bytes of pixel data, of which the one `Read` call of `LoadBMP`
delivers `2^30`; the top row of the image, stored last in the file, is decoded
from zero bytes, so pixel 0 comes back as palette entry 0, `(0,0,0)`, and not as
`Palette[Pix[0].R] = (1,2,3)`; pixel 4, in the second row, comes back as
`(1,2,3)`. -/
theorem saveThenLoad_tall :
    0 < tallBuffer.Width ∧ 0 < tallBuffer.Height ∧
    tallBuffer.Width < 2147483648 ∧ tallBuffer.Height < 2147483648 ∧
    (tallBuffer.Pix.length : Int) = tallBuffer.Width * tallBuffer.Height ∧
    tallBuffer.Palette.length = 256 ∧
    tallBuffer.Pix[0]? = some ⟨1, 0, 0⟩ ∧ tallBuffer.Palette[1]? = some ⟨1, 2, 3⟩ ∧
    ∃ out : ImageData, saveThenLoad tallBuffer = .ok out ∧
      out.Pix[0]? = some ⟨0, 0, 0⟩ ∧ out.Pix[4]? = some ⟨1, 2, 3⟩ := by
  have hlen : (List.replicate 1073741828 (⟨1, 0, 0⟩ : ColorRGB)).length = 4 * 268435457 := by
    rw [List.length_replicate]
  have hget : ∀ i, i < 1073741828 →
      (List.replicate 1073741828 (⟨1, 0, 0⟩ : ColorRGB)).getD i black = ⟨1, 0, 0⟩ := by
    intro i hi
    rw [List.getD_eq_getElem?_getD, List.getElem?_replicate, if_pos hi]
    rfl
  obtain ⟨outPix, h1, _, h3⟩ := saveThenLoad_capped 4 268435457 (by omega) (by omega) (by omega)
    (by omega) (List.replicate 1073741828 ⟨1, 0, 0⟩) (black :: List.replicate 255 ⟨1, 2, 3⟩) true
    hlen
  have e0 : (List.replicate 1073741828 (⟨1, 0, 0⟩ : ColorRGB))[0]? = some ⟨1, 0, 0⟩ := by
    rw [List.getElem?_replicate, if_pos (by omega)]
  have e1 : (black :: List.replicate 255 (⟨1, 2, 3⟩ : ColorRGB))[1]? = some ⟨1, 2, 3⟩ := by
    rw [List.getElem?_cons_succ, List.getElem?_replicate, if_pos (by omega)]
  have p0 : (black :: List.replicate 255 (⟨1, 2, 3⟩ : ColorRGB)).getD 0 black = ⟨0, 0, 0⟩ := by
    rw [List.getD_cons_zero]
    rfl
  have p1 : (black :: List.replicate 255 (⟨1, 2, 3⟩ : ColorRGB)).getD 1 black = ⟨1, 2, 3⟩ := by
    rw [List.getD_eq_getElem?_getD, e1]
    rfl
  have o0 : outPix[0]? = some ⟨0, 0, 0⟩ := by
    rw [h3 0 (by omega), if_neg (by decide), p0]
  have o4 : outPix[4]? = some ⟨1, 2, 3⟩ := by
    rw [h3 4 (by omega), if_pos (by decide), hget 4 (by omega)]
    exact congrArg some p1
  have hl : ((List.replicate 1073741828 (⟨1, 0, 0⟩ : ColorRGB)).length : Int)
      = ((4 : Nat) : Int) * ((268435457 : Nat) : Int) := by
    rw [List.length_replicate]
    decide
  have hpl : (black :: List.replicate 255 (⟨1, 2, 3⟩ : ColorRGB)).length = 256 := by
    rw [List.length_cons, List.length_replicate]
  exact ⟨by decide, by decide, by decide, by decide, hl, hpl, e0, e1, _, h1, o0, o4⟩

/-! ### The dimensions `LoadPCX` derives -/

theorem pcxWidth_eq (hdr : PCXHeader) (h1 : hdr.XMin ≤ hdr.XMax) (h2 : hdr.XMax < 65536) :
    pcxWidth hdr = if hdr.XMax - hdr.XMin = 65535 then 0 else hdr.XMax - hdr.XMin + 1 := by
  unfold pcxWidth toUint16
  split_ifs <;> omega

set_option maxRecDepth 1000000 in
/-- C10 at the header `xmin = 0`, `xmax = 65535`, `ymin = ymax = 0`: the file is
769 bytes long, `xmin ≤ xmax` and `ymin ≤ ymax`, the integer `xmax - xmin + 1` is
65536, and `LoadPCX` returns a buffer of width 0 with no pixel. -/
theorem loadPCX_full_width :
    fullWidthPCX.length = 769 ∧
    (decodePCXHeader (fullWidthPCX.take 128)).XMin = 0 ∧
    (decodePCXHeader (fullWidthPCX.take 128)).XMax = 65535 ∧
    (decodePCXHeader (fullWidthPCX.take 128)).YMin = 0 ∧
    (decodePCXHeader (fullWidthPCX.take 128)).YMax = 0 ∧
    LoadPCX fullWidthPCX
      = .ok { Width := 0, Height := 1, Pix := [], Palette := zeroPalette, HasPal := false } := by
  refine ⟨by rfl, by rfl, by rfl, by rfl, by rfl, by rfl⟩


/-! ### The decoding loop of `LoadPCX` in general -/

theorem decodeLoop_exit (w h bpl : Nat) (palette : List ColorRGB) (s : List Byte) (x y : Nat)
    (pix : List ColorRGB) (hy : ¬ y < h) : decodeLoop w h bpl palette s x y pix = pix := by
  match s with
  | [] => rfl
  | [b] => simp only [decodeLoop, if_neg hy]
  | b :: c :: rest => simp only [decodeLoop, if_neg hy]

theorem decodeLoop_literal (w h bpl : Nat) (palette : List ColorRGB) (b : Byte) (rest : List Byte)
    (x y : Nat) (pix : List ColorRGB) (hb : b.val < 192) (hy : y < h) :
    decodeLoop w h bpl palette (b :: rest) x y pix
      = decodeLoop w h bpl palette rest (wrapX bpl (x + 1)) (wrapY bpl (x + 1) y)
          (putPixel w x y (palette.getD b.val black) pix) := by
  have hnb : ¬ 192 ≤ b.val := by omega
  cases rest with
  | nil => simp only [decodeLoop, if_pos hy, if_neg hnb]
  | cons c rest2 => simp only [decodeLoop, if_pos hy, if_neg hnb]

theorem decodeLoop_run (w h bpl : Nat) (palette : List ColorRGB) (b v : Byte) (rest : List Byte)
    (x y : Nat) (pix : List ColorRGB) (hb : 192 ≤ b.val) (hy : y < h) :
    decodeLoop w h bpl palette (b :: v :: rest) x y pix
      = decodeLoop w h bpl palette rest
          (wrapX bpl (runLoop w bpl y (palette.getD v.val black) (b.val &&& 0x3F) x pix).1)
          (wrapY bpl (runLoop w bpl y (palette.getD v.val black) (b.val &&& 0x3F) x pix).1 y)
          (runLoop w bpl y (palette.getD v.val black) (b.val &&& 0x3F) x pix).2 := by
  simp only [decodeLoop, if_pos hy, if_pos hb]

theorem length_putPixel (w x y : Nat) (c : ColorRGB) (pix : List ColorRGB) :
    (putPixel w x y c pix).length = pix.length := by
  unfold putPixel
  split_ifs
  · exact List.length_set _ _ _
  · rfl

/-- The inner loop of a run in general: it stops at the stride, writes `c` at the
columns it passes that are below the width, and changes nothing else. -/
theorem runLoop_spec (w bpl y : Nat) (c : ColorRGB) :
    ∀ (count x : Nat) (pix : List ColorRGB),
      (runLoop w bpl y c count x pix).1 = (if x < bpl then min (x + count) bpl else x) ∧
      (runLoop w bpl y c count x pix).2.length = pix.length ∧
      (∀ px, x ≤ px → px < (runLoop w bpl y c count x pix).1 → px < w →
        y * w + px < pix.length →
        (runLoop w bpl y c count x pix).2[y * w + px]? = some c) ∧
      (∀ k, (∀ px, x ≤ px → px < (runLoop w bpl y c count x pix).1 → px < w → k ≠ y * w + px) →
        (runLoop w bpl y c count x pix).2[k]? = pix[k]?) := by
  intro count
  induction count with
  | zero =>
    intro x pix
    refine ⟨?_, rfl, ?_, ?_⟩
    · simp only [runLoop]
      split_ifs <;> omega
    · intro px h1 h2 _ _
      simp only [runLoop] at h2
      omega
    · intro k _
      rfl
  | succ n ih =>
    intro x pix
    by_cases hx : x < bpl
    · obtain ⟨h1, h2, h3, h4⟩ := ih (x + 1) (putPixel w x y c pix)
      have hstep : runLoop w bpl y c (n + 1) x pix
          = runLoop w bpl y c n (x + 1) (putPixel w x y c pix) := by
        simp only [runLoop, if_pos hx]
      rw [hstep]
      have hx1 : x + 1 ≤ (runLoop w bpl y c n (x + 1) (putPixel w x y c pix)).1 := by
        rw [h1]
        split_ifs <;> omega
      refine ⟨?_, ?_, ?_, ?_⟩
      · rw [h1, if_pos hx]
        split_ifs <;> omega
      · rw [h2, length_putPixel]
      · intro px hp1 hp2 hp3 hp4
        rcases Nat.eq_or_lt_of_le hp1 with heq | hlt
        · subst heq
          rw [h4 (y * w + x) (by intro px2 hq1 _ _; omega)]
          simp only [putPixel, if_pos hp3]
          rw [List.getElem?_set, if_pos rfl, if_pos hp4]
        · exact h3 px (by omega) hp2 hp3 (by rw [length_putPixel]; exact hp4)
      · intro k hk
        rw [h4 k (fun px hq1 hq2 hq3 => hk px (by omega) hq2 hq3)]
        unfold putPixel
        split_ifs with hxw
        · rw [List.getElem?_set, if_neg (by
            intro heq
            exact hk x (Nat.le_refl x) (by omega) hxw heq.symm)]
        · rfl
    · refine ⟨?_, ?_, ?_, ?_⟩
      · simp only [runLoop, if_neg hx]
      · simp only [runLoop, if_neg hx]
      · intro px h1 h2 _ _
        simp only [runLoop, if_neg hx] at h2
        omega
      · intro k _
        simp only [runLoop, if_neg hx]

theorem length_decodeLoop (w h bpl : Nat) (palette : List ColorRGB) :
    ∀ (n : Nat) (s : List Byte) (x y : Nat) (pix : List ColorRGB), s.length ≤ n →
      (decodeLoop w h bpl palette s x y pix).length = pix.length := by
  intro n
  induction n with
  | zero =>
    intro s x y pix hs
    have : s = [] := List.eq_nil_of_length_eq_zero (by omega)
    subst this
    rfl
  | succ n ih =>
    intro s x y pix hs
    by_cases hy : y < h
    · match s, hs with
      | [], _ => rfl
      | b :: rest, hs =>
        by_cases hb : 192 ≤ b.val
        · match rest, hs with
          | [], _ => simp only [decodeLoop, if_pos hy, if_pos hb]
          | v :: rest2, hs =>
            rw [decodeLoop_run w h bpl palette b v rest2 x y pix hb hy,
              ih rest2 _ _ _ (by simp only [List.length_cons] at hs; omega)]
            exact (runLoop_spec w bpl y _ _ x pix).2.1
        · rw [decodeLoop_literal w h bpl palette b rest x y pix (by omega) hy,
            ih rest _ _ _ (by simp only [List.length_cons] at hs; omega), length_putPixel]
    · rw [decodeLoop_exit w h bpl palette s x y pix hy]

theorem decodeFinal_pix (w h bpl : Nat) (palette : List ColorRGB) :
    ∀ (n : Nat) (s : List Byte) (x y : Nat) (pix : List ColorRGB), s.length ≤ n →
      (decodeFinal w h bpl palette s x y pix).2.2 = decodeLoop w h bpl palette s x y pix := by
  intro n
  induction n with
  | zero =>
    intro s x y pix hs
    have : s = [] := List.eq_nil_of_length_eq_zero (by omega)
    subst this
    rfl
  | succ n ih =>
    intro s x y pix hs
    match s, hs with
    | [], _ => rfl
    | [b], _ =>
      simp only [decodeFinal, decodeLoop]
      split_ifs <;> rfl
    | b :: c :: rest, hs =>
      simp only [List.length_cons] at hs
      simp only [decodeFinal, decodeLoop]
      split_ifs
      · exact ih rest _ _ _ (by omega)
      · exact ih (c :: rest) _ _ _ (by simp only [List.length_cons]; omega)
      · rfl


theorem File.readFull_ok (data : List Byte) (pos n : Nat) (h : pos + n ≤ data.length) :
    File.readFull { data := data, pos := pos } n
      = .ok ((data.drop pos).take n, { data := data, pos := pos + n }) := by
  simp only [File.readFull, if_pos h]

theorem File.read_ok (data : List Byte) (pos n : Nat) (h : pos + n ≤ data.length) (h0 : 0 < n)
    (hcap : n ≤ maxRW) :
    File.read { data := data, pos := pos } n
      = .ok ((data.drop pos).take n, { data := data, pos := pos + n }) := by
  have hne : ¬ n = 0 := by omega
  have hlt : ¬ data.length ≤ pos := by omega
  have hl : ((data.drop pos).take n).length = n := by
    rw [List.length_take, List.length_drop]
    omega
  simp only [File.read, if_neg hne, if_neg hlt, Nat.min_eq_left hcap, hl, Nat.sub_self,
    List.replicate_zero, List.append_nil]

theorem File.seek_ok (f : File) (off : Nat) :
    File.seek f (off : Int) = .ok { data := f.data, pos := off } := by
  have : ¬ ((off : Int) < 0) := by omega
  simp only [File.seek, if_neg this, Int.toNat_ofNat]

theorem LoadPCX_eq (file : List Byte) (hlen : 769 ≤ file.length) :
    LoadPCX file = .ok
      { Width := (pcxWidth (decodePCXHeader (file.take 128)) : Int),
        Height := (pcxHeight (decodePCXHeader (file.take 128)) : Int),
        Pix := decodeLoop (pcxWidth (decodePCXHeader (file.take 128)))
          (pcxHeight (decodePCXHeader (file.take 128)))
          (decodePCXHeader (file.take 128)).BytesPerLine (pcxActivePalette file) (file.drop 128) 0 0
          (List.replicate (pcxWidth (decodePCXHeader (file.take 128))
            * pcxHeight (decodePCXHeader (file.take 128))) black),
        Palette := zeroPalette, HasPal := false } := by
  have r1 := File.readFull_ok file 0 128 (by omega)
  have hoff : ((file.length : Int) - 769) = ((file.length - 769 : Nat) : Int) := by omega
  have r2 := File.seek_ok { data := file, pos := 0 + 128 } (file.length - 769)
  have r3 := File.read_ok file (file.length - 769) 1 (by omega) (by omega) (by decide)
  have r4 := File.read_ok file (file.length - 768) 768 (by omega) (by omega) (by decide)
  have hmark : (List.take 1 (List.drop (file.length - 769) file)).getD 0 0
      = file.getD (file.length - 769) 0 := by
    rw [List.getD_eq_getElem?_getD, List.getD_eq_getElem?_getD, List.getElem?_take,
      if_pos (by omega), List.getElem?_drop, Nat.add_zero]
  have h128 : ¬ ((128 : Int) < 0) := by decide
  have hp : file.length - 769 + 1 = file.length - 768 := by omega
  rw [hp] at r3
  have htn : (128 : Int).toNat = 128 := rfl
  unfold LoadPCX
  simp only [bind, Except.bind, r1, hoff, r2, r3]
  simp only [hmark, List.drop_zero, pure, Except.pure, r4, File.seek, if_neg h128, htn]
  unfold pcxActivePalette
  split_ifs <;> rfl

theorem getD_take_drop (l : List Byte) (a n j : Nat) (hj : j < n) :
    ((l.drop a).take n).getD j 0 = l.getD (a + j) 0 := by
  rw [List.getD_eq_getElem?_getD, List.getD_eq_getElem?_getD, List.getElem?_take, if_pos hj,
    List.getElem?_drop]

theorem getD_take (l : List Byte) (n j : Nat) (hj : j < n) :
    (l.take n).getD j 0 = l.getD j 0 := by
  rw [List.getD_eq_getElem?_getD, List.getD_eq_getElem?_getD, List.getElem?_take, if_pos hj]

theorem length_pcxActivePalette (file : List Byte) : (pcxActivePalette file).length = 256 := by
  unfold pcxActivePalette paletteOfTrailer paletteOfColormap
  split_ifs <;> simp

/-- C11: for a source file of `n ≥ 769` bytes, `LoadPCX` decodes the pixel stream
with a 256-entry active palette such that: if the byte at offset `n-769` is
`0x0C`, entry `i` is the RGB triple at file offsets `n-768+3i .. n-768+3i+2` for
every `i < 256`; otherwise entry `i` is the triple at file offsets
`16+3i .. 16+3i+2` (the header colormap) for `i < 16` and `(0,0,0)` for
`16 ≤ i < 256`. -/
theorem palette_source_selection (file : List Byte) (hlen : 769 ≤ file.length) :
    ∃ palette : List ColorRGB,
      LoadPCX file = .ok
        { Width := (pcxWidth (decodePCXHeader (file.take 128)) : Int),
          Height := (pcxHeight (decodePCXHeader (file.take 128)) : Int),
          Pix := decodeLoop (pcxWidth (decodePCXHeader (file.take 128)))
            (pcxHeight (decodePCXHeader (file.take 128)))
            (decodePCXHeader (file.take 128)).BytesPerLine palette (file.drop 128) 0 0
            (List.replicate (pcxWidth (decodePCXHeader (file.take 128))
              * pcxHeight (decodePCXHeader (file.take 128))) black),
          Palette := zeroPalette, HasPal := false } ∧
      palette.length = 256 ∧
      ((file.getD (file.length - 769) 0).val = 0x0C → ∀ i, i < 256 →
        palette[i]? = some ⟨file.getD (file.length - 768 + 3 * i) 0,
          file.getD (file.length - 768 + 3 * i + 1) 0,
          file.getD (file.length - 768 + 3 * i + 2) 0⟩) ∧
      ((file.getD (file.length - 769) 0).val ≠ 0x0C →
        (∀ i, i < 16 → palette[i]? = some ⟨file.getD (16 + 3 * i) 0,
          file.getD (16 + 3 * i + 1) 0, file.getD (16 + 3 * i + 2) 0⟩) ∧
        (∀ i, 16 ≤ i → i < 256 → palette[i]? = some black)) := by
  refine ⟨pcxActivePalette file, LoadPCX_eq file hlen, length_pcxActivePalette file, ?_, ?_⟩
  · intro hm i hi
    simp only [pcxActivePalette, if_pos hm, paletteOfTrailer, List.getElem?_map,
      List.getElem?_range hi, Option.map_some']
    rw [getD_take_drop _ _ _ _ (by omega), getD_take_drop _ _ _ _ (by omega),
      getD_take_drop _ _ _ _ (by omega)]
    rw [show file.length - 768 + (i * 3 + 0) = file.length - 768 + 3 * i by omega,
      show file.length - 768 + (i * 3 + 1) = file.length - 768 + 3 * i + 1 by omega,
      show file.length - 768 + (i * 3 + 2) = file.length - 768 + 3 * i + 2 by omega]
  · intro hm
    refine ⟨?_, ?_⟩
    · intro i hi
      simp only [pcxActivePalette, if_neg hm, paletteOfColormap, List.getElem?_map,
        List.getElem?_range (by omega : i < 256), Option.map_some', if_pos hi, decodePCXHeader]
      rw [getD_take_drop _ _ _ _ (by omega), getD_take_drop _ _ _ _ (by omega),
        getD_take_drop _ _ _ _ (by omega), getD_take _ _ _ (by omega), getD_take _ _ _ (by omega),
        getD_take _ _ _ (by omega)]
      rw [show 16 + (i * 3 + 0) = 16 + 3 * i by omega,
        show 16 + (i * 3 + 1) = 16 + 3 * i + 1 by omega,
        show 16 + (i * 3 + 2) = 16 + 3 * i + 2 by omega]
    · intro i h1 h2
      simp only [pcxActivePalette, if_neg hm, paletteOfColormap, List.getElem?_map,
        List.getElem?_range h2, Option.map_some', if_neg (by omega : ¬ i < 16)]


set_option maxRecDepth 1000000 in
/-- Witness for C11: the 769-byte file `fullWidthPCX`, whose marker byte is not `0x0C`. -/
theorem palette_source_selection_witness :
    ∃ (palette : List ColorRGB) (out : ImageData), LoadPCX fullWidthPCX = .ok out ∧
      palette.length = 256 ∧ (∀ i, 16 ≤ i → i < 256 → palette[i]? = some black) := by
  obtain ⟨p, h1, h2, _, h4⟩ := palette_source_selection fullWidthPCX (Nat.le_of_eq (by rfl))
  exact ⟨p, _, h1, h2, (h4 (by decide)).2⟩

theorem pixel_index_inj (w x1 y1 x2 y2 : Nat) (h1 : x1 < w) (h2 : x2 < w)
    (h : y1 * w + x1 = y2 * w + x2) : y1 = y2 ∧ x1 = x2 := by
  rcases Nat.lt_trichotomy y1 y2 with hlt | heq | hgt
  · have hb : (y1 + 1) * w ≤ y2 * w := Nat.mul_le_mul_right _ (by omega)
    rw [Nat.add_mul, Nat.one_mul] at hb
    omega
  · subst heq
    exact ⟨rfl, by omega⟩
  · have hb : (y2 + 1) * w ≤ y1 * w := Nat.mul_le_mul_right _ (by omega)
    rw [Nat.add_mul, Nat.one_mul] at hb
    omega

theorem atOrAfter_trans (a b c d e f : Nat) (h1 : AtOrAfter a b c d) (h2 : AtOrAfter c d e f) :
    AtOrAfter a b e f := by
  unfold AtOrAfter at *
  omega

theorem atOrAfter_wrap (bpl x x2 y : Nat) (h : x ≤ x2) :
    AtOrAfter x y (wrapX bpl x2) (wrapY bpl x2 y) := by
  unfold AtOrAfter wrapX wrapY
  split_ifs <;> omega

theorem le_runLoop (w bpl y : Nat) (c : ColorRGB) (count x : Nat) (pix : List ColorRGB) :
    x ≤ (runLoop w bpl y c count x pix).1 := by
  rw [(runLoop_spec w bpl y c count x pix).1]
  split_ifs <;> omega

/-- A literal step leaves the pixels at or after the new cursor as they were. -/
theorem putPixel_untouched (w bpl x y : Nat) (c : ColorRGB) (pix : List ColorRGB) (px py : Nat)
    (hpx : px < w) (h : AtOrAfter (wrapX bpl (x + 1)) (wrapY bpl (x + 1) y) px py) :
    (putPixel w x y c pix)[py * w + px]? = pix[py * w + px]? := by
  unfold putPixel
  split_ifs with hx
  · rw [List.getElem?_set, if_neg]
    intro heq
    obtain ⟨e1, e2⟩ := pixel_index_inj w x y px py hx hpx heq
    unfold AtOrAfter wrapX wrapY at h
    split_ifs at h <;> omega
  · rfl

/-- A run step leaves the pixels at or after the new cursor as they were. -/
theorem runLoop_untouched (w bpl y : Nat) (c : ColorRGB) (count x : Nat) (pix : List ColorRGB)
    (px py : Nat) (hpx : px < w)
    (h : AtOrAfter (wrapX bpl (runLoop w bpl y c count x pix).1)
      (wrapY bpl (runLoop w bpl y c count x pix).1 y) px py) :
    (runLoop w bpl y c count x pix).2[py * w + px]? = pix[py * w + px]? := by
  apply (runLoop_spec w bpl y c count x pix).2.2.2
  intro px2 h1 h2 h3 heq
  obtain ⟨e1, e2⟩ := pixel_index_inj w px py px2 y hpx h3 heq
  unfold AtOrAfter wrapX wrapY at h
  split_ifs at h <;> omega

/-- The decoding loop leaves with a cursor at or after the one it starts from, and
the pixels at or after the final cursor are as they were at the start. -/
theorem decodeFinal_untouched (w h bpl : Nat) (palette : List ColorRGB) :
    ∀ (n : Nat) (s : List Byte) (x y : Nat) (pix : List ColorRGB), s.length ≤ n →
      AtOrAfter x y (decodeFinal w h bpl palette s x y pix).1
        (decodeFinal w h bpl palette s x y pix).2.1 ∧
      ∀ px py, px < w →
        AtOrAfter (decodeFinal w h bpl palette s x y pix).1
          (decodeFinal w h bpl palette s x y pix).2.1 px py →
        (decodeFinal w h bpl palette s x y pix).2.2[py * w + px]? = pix[py * w + px]? := by
  have hrefl : ∀ x y, AtOrAfter x y x y := by
    intro x y
    unfold AtOrAfter
    omega
  intro n
  induction n with
  | zero =>
    intro s x y pix hs
    have : s = [] := List.eq_nil_of_length_eq_zero (by omega)
    subst this
    exact ⟨hrefl x y, fun _ _ _ _ => rfl⟩
  | succ n ih =>
    intro s x y pix hs
    match s, hs with
    | [], _ => exact ⟨hrefl x y, fun _ _ _ _ => rfl⟩
    | [b], _ =>
      simp only [decodeFinal]
      split_ifs
      · exact ⟨hrefl x y, fun _ _ _ _ => rfl⟩
      · exact ⟨atOrAfter_wrap bpl x (x + 1) y (by omega),
          fun px py hpx ha => putPixel_untouched w bpl x y _ pix px py hpx ha⟩
      · exact ⟨hrefl x y, fun _ _ _ _ => rfl⟩
    | b :: c :: rest, hs =>
      simp only [List.length_cons] at hs
      simp only [decodeFinal]
      split_ifs
      · obtain ⟨i1, i2⟩ := ih rest
          (wrapX bpl (runLoop w bpl y (palette.getD c.val black) (b.val &&& 0x3F) x pix).1)
          (wrapY bpl (runLoop w bpl y (palette.getD c.val black) (b.val &&& 0x3F) x pix).1 y)
          (runLoop w bpl y (palette.getD c.val black) (b.val &&& 0x3F) x pix).2 (by omega)
        have hstep := atOrAfter_wrap bpl x
          (runLoop w bpl y (palette.getD c.val black) (b.val &&& 0x3F) x pix).1 y
          (le_runLoop w bpl y _ _ x pix)
        refine ⟨atOrAfter_trans _ _ _ _ _ _ hstep i1, ?_⟩
        intro px py hpx ha
        rw [i2 px py hpx ha]
        exact runLoop_untouched w bpl y _ _ x pix px py hpx (atOrAfter_trans _ _ _ _ _ _ i1 ha)
      · obtain ⟨i1, i2⟩ := ih (c :: rest) (wrapX bpl (x + 1)) (wrapY bpl (x + 1) y)
          (putPixel w x y (palette.getD b.val black) pix) (by simp only [List.length_cons]; omega)
        have hstep := atOrAfter_wrap bpl x (x + 1) y (by omega)
        refine ⟨atOrAfter_trans _ _ _ _ _ _ hstep i1, ?_⟩
        intro px py hpx ha
        rw [i2 px py hpx ha]
        exact putPixel_untouched w bpl x y _ pix px py hpx (atOrAfter_trans _ _ _ _ _ _ i1 ha)
      · exact ⟨hrefl x y, fun _ _ _ _ => rfl⟩

/-- C12: for a source file of at least 769 bytes (header and palette probe
readable), `LoadPCX` returns a buffer without error; when the decoding loop is
left with the cursor `(x, y)` in a row `y < height` (the pixel stream ran out
before `height` rows were filled, possibly on a run marker without a value
byte), every pixel at or after `(x, y)` in row-major order is `(0,0,0)`. -/
theorem lenient_truncation (file : List Byte) (hlen : 769 ≤ file.length) :
    ∃ out : ImageData, LoadPCX file = .ok out ∧ out.Pix = (pcxExit file).2.2 ∧
      ((pcxExit file).2.1 < pcxHeight (decodePCXHeader (file.take 128)) →
        ∀ px py, px < pcxWidth (decodePCXHeader (file.take 128)) →
          py < pcxHeight (decodePCXHeader (file.take 128)) →
          AtOrAfter (pcxExit file).1 (pcxExit file).2.1 px py →
          out.Pix[py * pcxWidth (decodePCXHeader (file.take 128)) + px]? = some black) := by
  have hpix := decodeFinal_pix (pcxWidth (decodePCXHeader (file.take 128)))
    (pcxHeight (decodePCXHeader (file.take 128)))
    (decodePCXHeader (file.take 128)).BytesPerLine (pcxActivePalette file) _ (file.drop 128) 0 0
    (List.replicate (pcxWidth (decodePCXHeader (file.take 128))
      * pcxHeight (decodePCXHeader (file.take 128))) black) (Nat.le_refl _)
  refine ⟨_, LoadPCX_eq file hlen, hpix.symm, ?_⟩
  intro _ px py hpx hpy ha
  simp only
  rw [← hpix]
  have hun := (decodeFinal_untouched (pcxWidth (decodePCXHeader (file.take 128)))
    (pcxHeight (decodePCXHeader (file.take 128)))
    (decodePCXHeader (file.take 128)).BytesPerLine (pcxActivePalette file) _ (file.drop 128) 0 0
    (List.replicate (pcxWidth (decodePCXHeader (file.take 128))
      * pcxHeight (decodePCXHeader (file.take 128))) black) (Nat.le_refl _)).2 px py hpx ha
  rw [hun, List.getElem?_replicate, if_pos (cursor_in_bounds _ _ px py hpx hpy)]

set_option maxRecDepth 1000000 in
/-- Witness for C12: the 769-byte file `truncatedPCX` of a 4x2 image whose stream
runs out at the cursor `(0, 0)`. -/
theorem lenient_truncation_witness :
    ∃ out : ImageData, LoadPCX truncatedPCX = .ok out ∧ out.Pix = (pcxExit truncatedPCX).2.2 ∧
      (pcxExit truncatedPCX).2.1 < pcxHeight (decodePCXHeader (truncatedPCX.take 128)) ∧
      out.Pix[1 * pcxWidth (decodePCXHeader (truncatedPCX.take 128)) + 2]? = some black := by
  obtain ⟨out, h1, h2, h3⟩ := lenient_truncation truncatedPCX (Nat.le_of_eq (by rfl))
  have hy : (pcxExit truncatedPCX).2.1 < pcxHeight (decodePCXHeader (truncatedPCX.take 128)) := by
    decide
  have hafter : AtOrAfter (pcxExit truncatedPCX).1 (pcxExit truncatedPCX).2.1 2 1 :=
    Or.inl (by decide)
  exact ⟨out, h1, h2, hy, h3 hy 2 1 (by decide) (by decide) hafter⟩


/-- C16 fails as stated: in a 4x2 image with stride 4 and `palette[2] = (10,20,30)`,
the run `0xC5, 0x02` (count 5) read at cursor `(0, 0)` has `x + c > bytes_per_line`
and `y + 1 < height`; it fills the four pixels of row 0, leaves the loop with the
cursor `(0, 1)`, and the fifth repeat is not placed at the start of row 1, which
stays `(0,0,0)`. -/
theorem run_wrap_counterexample :
    0 + ((0xC5 : Byte).val &&& 0x3F) > 4 ∧ 0 + 1 < 2 ∧
    decodeFinal 4 2 4 [black, black, ⟨10, 20, 30⟩] [0xC5, 0x02] 0 0 (List.replicate 8 black)
      = (0, 1, [⟨10, 20, 30⟩, ⟨10, 20, 30⟩, ⟨10, 20, 30⟩, ⟨10, 20, 30⟩,
          black, black, black, black]) ∧
    decodeLoop 4 2 4 [black, black, ⟨10, 20, 30⟩] [0xC5, 0x02] 0 0 (List.replicate 8 black)
      = [⟨10, 20, 30⟩, ⟨10, 20, 30⟩, ⟨10, 20, 30⟩, ⟨10, 20, 30⟩, black, black, black, black] := by
  decide

/-! ### Single decoding steps -/

theorem decodeFinal_literal (w h bpl : Nat) (palette : List ColorRGB) (b : Byte) (rest : List Byte)
    (x y : Nat) (pix : List ColorRGB) (hb : b.val < 192) (hy : y < h) :
    decodeFinal w h bpl palette (b :: rest) x y pix
      = decodeFinal w h bpl palette rest (wrapX bpl (x + 1)) (wrapY bpl (x + 1) y)
          (putPixel w x y (palette.getD b.val black) pix) := by
  have hnb : ¬ 192 ≤ b.val := by omega
  cases rest with
  | nil => simp only [decodeFinal, if_pos hy, if_neg hnb]
  | cons c rest2 => simp only [decodeFinal, if_pos hy, if_neg hnb]

theorem decodeFinal_run (w h bpl : Nat) (palette : List ColorRGB) (b v : Byte) (rest : List Byte)
    (x y : Nat) (pix : List ColorRGB) (hb : 192 ≤ b.val) (hy : y < h) :
    decodeFinal w h bpl palette (b :: v :: rest) x y pix
      = decodeFinal w h bpl palette rest
          (wrapX bpl (runLoop w bpl y (palette.getD v.val black) (b.val &&& 0x3F) x pix).1)
          (wrapY bpl (runLoop w bpl y (palette.getD v.val black) (b.val &&& 0x3F) x pix).1 y)
          (runLoop w bpl y (palette.getD v.val black) (b.val &&& 0x3F) x pix).2 := by
  simp only [decodeFinal, if_pos hy, if_pos hb]

/-- The decoding loop never writes a pixel before its cursor: the pixels with an
index below that of the cursor `(x, y)` are as they were, whatever the stream. -/
theorem decodeLoop_before (w h bpl : Nat) (palette : List ColorRGB) :
    ∀ (n : Nat) (s : List Byte) (x y : Nat) (pix : List ColorRGB), s.length ≤ n →
      ∀ k, k < y * w + min x w → (decodeLoop w h bpl palette s x y pix)[k]? = pix[k]? := by
  intro n
  induction n with
  | zero =>
    intro s x y pix hs k _
    have : s = [] := List.eq_nil_of_length_eq_zero (by omega)
    subst this
    rfl
  | succ n ih =>
    intro s x y pix hs k hk
    by_cases hy : y < h
    · match s, hs with
      | [], _ => rfl
      | b :: rest, hs =>
        by_cases hb : 192 ≤ b.val
        · match rest, hs with
          | [], _ => simp only [decodeLoop, if_pos hy, if_pos hb]
          | v :: rest2, hs =>
            have hle := le_runLoop w bpl y (palette.getD v.val black) (b.val &&& 0x3F) x pix
            have hsucc : (y + 1) * w = y * w + w := by rw [Nat.add_mul, Nat.one_mul]
            rw [decodeLoop_run w h bpl palette b v rest2 x y pix hb hy,
              ih rest2 _ _ _ (by simp only [List.length_cons] at hs; omega) k (by
                unfold wrapX wrapY
                split_ifs
                · rw [hsucc]
                  omega
                · omega)]
            apply (runLoop_spec w bpl y _ _ x pix).2.2.2
            intro px h1 _ _
            omega
        · have hsucc : (y + 1) * w = y * w + w := by rw [Nat.add_mul, Nat.one_mul]
          rw [decodeLoop_literal w h bpl palette b rest x y pix (by omega) hy,
            ih rest _ _ _ (by simp only [List.length_cons] at hs; omega) k (by
              unfold wrapX wrapY
              split_ifs
              · rw [hsucc]
                omega
              · omega)]
          unfold putPixel
          split_ifs with hxw
          · rw [List.getElem?_set, if_neg (by omega)]
          · rfl
    · rw [decodeLoop_exit w h bpl palette s x y pix hy]

theorem wrap_bound (w bpl x y k : Nat) (hk : k < y * w + min x w) :
    k < wrapY bpl x y * w + min (wrapX bpl x) w := by
  have hsucc : (y + 1) * w = y * w + w := by rw [Nat.add_mul, Nat.one_mul]
  unfold wrapX wrapY
  split_ifs
  · rw [hsucc]
    omega
  · exact hk

/-- C5: at a cursor `(x, y)` with `y < height` and `width ≤ bytes_per_line`, in an
image buffer of `width*height` pixels: (1) if `palette[2] = (10,20,30)` and
`x + 5 ≤ width`, decoding the two bytes `0xC5, 0x02` leaves the loop state with
the cursor moved by 5 (wrapped to the next row when it reaches `bytes_per_line`)
and a buffer of the same length that holds `(10,20,30)` at the five pixels
`(x .. x+4, y)` and is unchanged at every other pixel; for every stream `rest`,
decoding `0xC5, 0x02, rest` is decoding `rest` from that state (decoding
continues at the byte after `0x02`), and its result has the same length, holds
`(10,20,30)` at the five pixels and is unchanged before the cursor; (2) for
every run byte `b ≥ 0xC0` followed by `v` with `x + (b & 0x3F) ≤ width`, the same
holds with `b & 0x3F` copies of `palette[v]`. -/
theorem rle_run_decode (w h bpl : Nat) (palette : List ColorRGB)
    (x y : Nat) (pix : List ColorRGB) (hy : y < h) (hw : w ≤ bpl) (hlen : pix.length = w * h) :
    (palette.getD 2 black = ⟨10, 20, 30⟩ → x + 5 ≤ w →
      decodeFinal w h bpl palette [0xC5, 0x02] x y pix
        = (wrapX bpl (x + 5), wrapY bpl (x + 5) y,
            decodeLoop w h bpl palette [0xC5, 0x02] x y pix) ∧
      (decodeLoop w h bpl palette [0xC5, 0x02] x y pix).length = pix.length ∧
      (∀ j, j < 5 →
        (decodeLoop w h bpl palette [0xC5, 0x02] x y pix)[y * w + x + j]?
          = some ⟨10, 20, 30⟩) ∧
      (∀ k, (k < y * w + x ∨ y * w + x + 5 ≤ k) →
        (decodeLoop w h bpl palette [0xC5, 0x02] x y pix)[k]? = pix[k]?) ∧
      (∀ rest : List Byte,
        decodeFinal w h bpl palette (0xC5 :: 0x02 :: rest) x y pix
          = decodeFinal w h bpl palette rest (wrapX bpl (x + 5)) (wrapY bpl (x + 5) y)
              (decodeLoop w h bpl palette [0xC5, 0x02] x y pix) ∧
        decodeLoop w h bpl palette (0xC5 :: 0x02 :: rest) x y pix
          = decodeLoop w h bpl palette rest (wrapX bpl (x + 5)) (wrapY bpl (x + 5) y)
              (decodeLoop w h bpl palette [0xC5, 0x02] x y pix) ∧
        (decodeLoop w h bpl palette (0xC5 :: 0x02 :: rest) x y pix).length = pix.length ∧
        (∀ j, j < 5 →
          (decodeLoop w h bpl palette (0xC5 :: 0x02 :: rest) x y pix)[y * w + x + j]?
            = some ⟨10, 20, 30⟩) ∧
        (∀ k, k < y * w + x →
          (decodeLoop w h bpl palette (0xC5 :: 0x02 :: rest) x y pix)[k]? = pix[k]?))) ∧
    (∀ b v : Byte, 192 ≤ b.val → x + (b.val &&& 0x3F) ≤ w →
      decodeFinal w h bpl palette [b, v] x y pix
        = (wrapX bpl (x + (b.val &&& 0x3F)), wrapY bpl (x + (b.val &&& 0x3F)) y,
            decodeLoop w h bpl palette [b, v] x y pix) ∧
      (decodeLoop w h bpl palette [b, v] x y pix).length = pix.length ∧
      (∀ j, j < (b.val &&& 0x3F) →
        (decodeLoop w h bpl palette [b, v] x y pix)[y * w + x + j]?
          = some (palette.getD v.val black)) ∧
      (∀ k, (k < y * w + x ∨ y * w + x + (b.val &&& 0x3F) ≤ k) →
        (decodeLoop w h bpl palette [b, v] x y pix)[k]? = pix[k]?) ∧
      (∀ rest : List Byte,
        decodeFinal w h bpl palette (b :: v :: rest) x y pix
          = decodeFinal w h bpl palette rest (wrapX bpl (x + (b.val &&& 0x3F)))
              (wrapY bpl (x + (b.val &&& 0x3F)) y) (decodeLoop w h bpl palette [b, v] x y pix) ∧
        decodeLoop w h bpl palette (b :: v :: rest) x y pix
          = decodeLoop w h bpl palette rest (wrapX bpl (x + (b.val &&& 0x3F)))
              (wrapY bpl (x + (b.val &&& 0x3F)) y) (decodeLoop w h bpl palette [b, v] x y pix) ∧
        (decodeLoop w h bpl palette (b :: v :: rest) x y pix).length = pix.length ∧
        (∀ j, j < (b.val &&& 0x3F) →
          (decodeLoop w h bpl palette (b :: v :: rest) x y pix)[y * w + x + j]?
            = some (palette.getD v.val black)) ∧
        (∀ k, k < y * w + x →
          (decodeLoop w h bpl palette (b :: v :: rest) x y pix)[k]? = pix[k]?))) := by
  have hgen : ∀ b v : Byte, 192 ≤ b.val → x + (b.val &&& 0x3F) ≤ w →
      decodeFinal w h bpl palette [b, v] x y pix
        = (wrapX bpl (x + (b.val &&& 0x3F)), wrapY bpl (x + (b.val &&& 0x3F)) y,
            decodeLoop w h bpl palette [b, v] x y pix) ∧
      (decodeLoop w h bpl palette [b, v] x y pix).length = pix.length ∧
      (∀ j, j < (b.val &&& 0x3F) →
        (decodeLoop w h bpl palette [b, v] x y pix)[y * w + x + j]?
          = some (palette.getD v.val black)) ∧
      (∀ k, (k < y * w + x ∨ y * w + x + (b.val &&& 0x3F) ≤ k) →
        (decodeLoop w h bpl palette [b, v] x y pix)[k]? = pix[k]?) ∧
      (∀ rest : List Byte,
        decodeFinal w h bpl palette (b :: v :: rest) x y pix
          = decodeFinal w h bpl palette rest (wrapX bpl (x + (b.val &&& 0x3F)))
              (wrapY bpl (x + (b.val &&& 0x3F)) y) (decodeLoop w h bpl palette [b, v] x y pix) ∧
        decodeLoop w h bpl palette (b :: v :: rest) x y pix
          = decodeLoop w h bpl palette rest (wrapX bpl (x + (b.val &&& 0x3F)))
              (wrapY bpl (x + (b.val &&& 0x3F)) y) (decodeLoop w h bpl palette [b, v] x y pix) ∧
        (decodeLoop w h bpl palette (b :: v :: rest) x y pix).length = pix.length ∧
        (∀ j, j < (b.val &&& 0x3F) →
          (decodeLoop w h bpl palette (b :: v :: rest) x y pix)[y * w + x + j]?
            = some (palette.getD v.val black)) ∧
        (∀ k, k < y * w + x →
          (decodeLoop w h bpl palette (b :: v :: rest) x y pix)[k]? = pix[k]?)) := by
    intro b v hb hfit
    obtain ⟨h1, h2, h3⟩ :=
      runLoop_fit w bpl y (palette.getD v.val black) hw (b.val &&& 0x3F) x pix hfit
    have hD : decodeLoop w h bpl palette [b, v] x y pix
        = (runLoop w bpl y (palette.getD v.val black) (b.val &&& 0x3F) x pix).2 := by
      rw [decodeLoop_run w h bpl palette b v [] x y pix hb hy]
      rfl
    have hF : decodeFinal w h bpl palette [b, v] x y pix
        = (wrapX bpl (x + (b.val &&& 0x3F)), wrapY bpl (x + (b.val &&& 0x3F)) y,
            (runLoop w bpl y (palette.getD v.val black) (b.val &&& 0x3F) x pix).2) := by
      rw [decodeFinal_run w h bpl palette b v [] x y pix hb hy, h1]
      rfl
    have hwritten : ∀ j, j < (b.val &&& 0x3F) →
        (runLoop w bpl y (palette.getD v.val black) (b.val &&& 0x3F) x pix).2[y * w + x + j]?
          = some (palette.getD v.val black) := by
      intro j hj
      have hin : y * w + (x + j) < w * h := cursor_in_bounds w h (x + j) y (by omega) hy
      rw [h3, if_pos (by omega)]
    have hkept : ∀ k, (k < y * w + x ∨ y * w + x + (b.val &&& 0x3F) ≤ k) →
        (runLoop w bpl y (palette.getD v.val black) (b.val &&& 0x3F) x pix).2[k]? = pix[k]? := by
      intro k hk
      rw [h3, if_neg (by omega)]
    rw [hD]
    refine ⟨hF, h2, hwritten, hkept, ?_⟩
    intro rest
    have hstep := decodeLoop_run w h bpl palette b v rest x y pix hb hy
    rw [h1] at hstep
    have hstepF := decodeFinal_run w h bpl palette b v rest x y pix hb hy
    rw [h1] at hstepF
    have hbefore : ∀ k, k < y * w + x + (b.val &&& 0x3F) →
        (decodeLoop w h bpl palette (b :: v :: rest) x y pix)[k]?
          = (runLoop w bpl y (palette.getD v.val black) (b.val &&& 0x3F) x pix).2[k]? := by
      intro k hk
      rw [hstep]
      exact decodeLoop_before w h bpl palette rest.length rest _ _ _ (Nat.le_refl _) k
        (wrap_bound w bpl _ y k (by omega))
    refine ⟨hstepF, hstep, ?_, ?_, ?_⟩
    · exact length_decodeLoop w h bpl palette _ _ x y pix (Nat.le_refl _)
    · intro j hj
      rw [hbefore _ (by omega)]
      exact hwritten j hj
    · intro k hk
      rw [hbefore k (by omega)]
      exact hkept k (Or.inl hk)
  refine ⟨?_, hgen⟩
  intro hp hfit
  have e : ((0xC5 : Byte).val &&& 0x3F) = 5 := by decide
  have e2 : (0x02 : Byte).val = 2 := rfl
  have h := hgen 0xC5 0x02 (by decide) (by rw [e]; exact hfit)
  rw [e, e2, hp] at h
  exact h

/-- Witness for C5: the bytes `0xC5, 0x02` at cursor `(1, 1)` of an 8x2 image whose
palette entry 2 is `(10,20,30)`, alone and followed by the byte `0x07`. -/
theorem rle_run_decode_witness :
    decodeFinal 8 2 8 [black, black, ⟨10, 20, 30⟩] [0xC5, 0x02] 1 1 (List.replicate 16 black)
      = (wrapX 8 (1 + 5), wrapY 8 (1 + 5) 1,
          decodeLoop 8 2 8 [black, black, ⟨10, 20, 30⟩] [0xC5, 0x02] 1 1
            (List.replicate 16 black)) ∧
    (decodeLoop 8 2 8 [black, black, ⟨10, 20, 30⟩] [0xC5, 0x02] 1 1
      (List.replicate 16 black)).length = (List.replicate 16 black).length ∧
    (∀ j, j < 5 →
      (decodeLoop 8 2 8 [black, black, ⟨10, 20, 30⟩] [0xC5, 0x02] 1 1
        (List.replicate 16 black))[1 * 8 + 1 + j]? = some ⟨10, 20, 30⟩) ∧
    (∀ j, j < 5 →
      (decodeLoop 8 2 8 [black, black, ⟨10, 20, 30⟩] (0xC5 :: 0x02 :: [0x07]) 1 1
        (List.replicate 16 black))[1 * 8 + 1 + j]? = some ⟨10, 20, 30⟩) := by
  obtain ⟨h1, h2, h3, _, h5⟩ :=
    (rle_run_decode 8 2 8 [black, black, ⟨10, 20, 30⟩] 1 1 (List.replicate 16 black)
      (by decide) (by decide) (by decide)).1 rfl (by decide)
  exact ⟨h1, h2, h3, (h5 [0x07]).2.2.2.1⟩

/-- C6: a byte `b < 0xC0` read at a cursor `(x, y)` with `x < width`, `y < height`
leaves the loop state with the cursor at `(x+1, y)`, or at `(0, y+1)` when `x+1`
has reached `bytes_per_line`, and a buffer of the same length that holds
`palette[b]` at `(x, y)` and is unchanged at every other pixel; for every stream
`rest`, decoding `b, rest` is decoding `rest` from that state (exactly the one
byte is consumed), and its result has the same length, holds `palette[b]` at
`(x, y)` and is unchanged before the cursor. -/
theorem literal_decode (w h bpl : Nat) (palette : List ColorRGB) (b : Byte)
    (x y : Nat) (pix : List ColorRGB) (hb : b.val < 192) (hx : x < w) (hy : y < h)
    (hlen : pix.length = w * h) :
    decodeFinal w h bpl palette [b] x y pix
      = (if bpl ≤ x + 1 then 0 else x + 1, if bpl ≤ x + 1 then y + 1 else y,
          decodeLoop w h bpl palette [b] x y pix) ∧
    (decodeLoop w h bpl palette [b] x y pix).length = pix.length ∧
    (decodeLoop w h bpl palette [b] x y pix)[y * w + x]? = some (palette.getD b.val black) ∧
    (∀ k, k ≠ y * w + x → (decodeLoop w h bpl palette [b] x y pix)[k]? = pix[k]?) ∧
    (∀ rest : List Byte,
      decodeFinal w h bpl palette (b :: rest) x y pix
        = decodeFinal w h bpl palette rest (if bpl ≤ x + 1 then 0 else x + 1)
            (if bpl ≤ x + 1 then y + 1 else y) (decodeLoop w h bpl palette [b] x y pix) ∧
      decodeLoop w h bpl palette (b :: rest) x y pix
        = decodeLoop w h bpl palette rest (if bpl ≤ x + 1 then 0 else x + 1)
            (if bpl ≤ x + 1 then y + 1 else y) (decodeLoop w h bpl palette [b] x y pix) ∧
      (decodeLoop w h bpl palette (b :: rest) x y pix).length = pix.length ∧
      (decodeLoop w h bpl palette (b :: rest) x y pix)[y * w + x]?
        = some (palette.getD b.val black) ∧
      (∀ k, k < y * w + x →
        (decodeLoop w h bpl palette (b :: rest) x y pix)[k]? = pix[k]?)) := by
  have hnb : ¬ 192 ≤ b.val := by omega
  have hin : y * w + x < pix.length := by
    rw [hlen]
    exact cursor_in_bounds w h x y hx hy
  have hput : putPixel w x y (palette.getD b.val black) pix
      = pix.set (y * w + x) (palette.getD b.val black) := by
    simp only [putPixel, if_pos hx]
  have hD : decodeLoop w h bpl palette [b] x y pix
      = pix.set (y * w + x) (palette.getD b.val black) := by
    simp only [decodeLoop, if_pos hy, if_neg hnb, hput]
  have hF : decodeFinal w h bpl palette [b] x y pix
      = (if bpl ≤ x + 1 then 0 else x + 1, if bpl ≤ x + 1 then y + 1 else y,
          pix.set (y * w + x) (palette.getD b.val black)) := by
    simp only [decodeFinal, if_pos hy, if_neg hnb, hput, wrapX, wrapY]
  have hwritten : (pix.set (y * w + x) (palette.getD b.val black))[y * w + x]?
      = some (palette.getD b.val black) := by
    rw [List.getElem?_set, if_pos rfl, if_pos hin]
  have hkept : ∀ k, k ≠ y * w + x →
      (pix.set (y * w + x) (palette.getD b.val black))[k]? = pix[k]? := by
    intro k hk
    rw [List.getElem?_set, if_neg (Ne.symm hk)]
  rw [hD]
  refine ⟨hF, List.length_set _ _ _, hwritten, hkept, ?_⟩
  intro rest
  have hstep := decodeLoop_literal w h bpl palette b rest x y pix hb hy
  rw [hput] at hstep
  have hstepF := decodeFinal_literal w h bpl palette b rest x y pix hb hy
  rw [hput] at hstepF
  have hbefore : ∀ k, k < y * w + x + 1 →
      (decodeLoop w h bpl palette (b :: rest) x y pix)[k]?
        = (pix.set (y * w + x) (palette.getD b.val black))[k]? := by
    intro k hk
    rw [hstep]
    exact decodeLoop_before w h bpl palette rest.length rest _ _ _ (Nat.le_refl _) k
      (wrap_bound w bpl _ y k (by omega))
  refine ⟨hstepF, hstep, ?_, ?_, ?_⟩
  · exact length_decodeLoop w h bpl palette _ _ x y pix (Nat.le_refl _)
  · rw [hbefore _ (by omega)]
    exact hwritten
  · intro k hk
    rw [hbefore k (by omega)]
    exact hkept k (by omega)

/-- Witness for C6: the byte `0x07` at cursor `(3, 0)` of a 4x2 image with stride 4
whose palette entry 7 is `(1,2,3)`, alone and followed by the byte `0x09`. -/
theorem literal_decode_witness :
    decodeFinal 4 2 4 (List.replicate 7 black ++ [⟨1, 2, 3⟩]) [0x07] 3 0 (List.replicate 8 black)
      = (if 4 ≤ 3 + 1 then 0 else 3 + 1, if 4 ≤ 3 + 1 then 0 + 1 else 0,
          decodeLoop 4 2 4 (List.replicate 7 black ++ [⟨1, 2, 3⟩]) [0x07] 3 0
            (List.replicate 8 black)) ∧
    (decodeLoop 4 2 4 (List.replicate 7 black ++ [⟨1, 2, 3⟩]) [0x07] 3 0
      (List.replicate 8 black))[0 * 4 + 3]? = some ⟨1, 2, 3⟩ ∧
    (∀ k, k ≠ 0 * 4 + 3 →
      (decodeLoop 4 2 4 (List.replicate 7 black ++ [⟨1, 2, 3⟩]) [0x07] 3 0
        (List.replicate 8 black))[k]? = (List.replicate 8 black)[k]?) ∧
    (decodeLoop 4 2 4 (List.replicate 7 black ++ [⟨1, 2, 3⟩]) (0x07 :: [0x09]) 3 0
      (List.replicate 8 black))[0 * 4 + 3]? = some ⟨1, 2, 3⟩ := by
  obtain ⟨h1, _, h3, h4, h5⟩ :=
    literal_decode 4 2 4 (List.replicate 7 black ++ [⟨1, 2, 3⟩]) 0x07 3 0
      (List.replicate 8 black) (by decide) (by decide) (by decide) (by decide)
  exact ⟨h1, h3, h4, (h5 [0x09]).2.2.2.1⟩

/-- C16 (amended): the wrap test runs once per stream byte, after the whole run.
A run `b ≥ 0xC0`, `v` read at a cursor `(x, y)` with `y < height`,
`x ≤ bytes_per_line` and `x + (b & 0x3F) > bytes_per_line` leaves the loop state
with the cursor `(0, y+1)` and a buffer of the same length that holds
`palette[v]` at the columns `x ≤ px < bytes_per_line` of row `y` that are below
the width and is unchanged at every other pixel (row `y+1` in particular): the
remaining repeats are dropped.  For every stream `rest`, decoding `b, v, rest`
is decoding `rest` from that state, and its result has the same length, holds
`palette[v]` at those columns of row `y` and is unchanged before the cursor. -/
theorem run_truncated_at_stride (w h bpl : Nat) (palette : List ColorRGB) (b v : Byte)
    (x y : Nat) (pix : List ColorRGB) (hb : 192 ≤ b.val) (hy : y < h)
    (hx : x ≤ bpl) (hover : x + (b.val &&& 0x3F) > bpl) (hlen : pix.length = w * h) :
    decodeFinal w h bpl palette [b, v] x y pix
      = (0, y + 1, decodeLoop w h bpl palette [b, v] x y pix) ∧
    (decodeLoop w h bpl palette [b, v] x y pix).length = pix.length ∧
    (∀ px, x ≤ px → px < bpl → px < w →
      (decodeLoop w h bpl palette [b, v] x y pix)[y * w + px]?
        = some (palette.getD v.val black)) ∧
    (∀ k, (∀ px, x ≤ px → px < bpl → px < w → k ≠ y * w + px) →
      (decodeLoop w h bpl palette [b, v] x y pix)[k]? = pix[k]?) ∧
    (∀ px, px < w →
      (decodeLoop w h bpl palette [b, v] x y pix)[(y + 1) * w + px]?
        = pix[(y + 1) * w + px]?) ∧
    (∀ rest : List Byte,
      decodeFinal w h bpl palette (b :: v :: rest) x y pix
        = decodeFinal w h bpl palette rest 0 (y + 1)
            (decodeLoop w h bpl palette [b, v] x y pix) ∧
      decodeLoop w h bpl palette (b :: v :: rest) x y pix
        = decodeLoop w h bpl palette rest 0 (y + 1)
            (decodeLoop w h bpl palette [b, v] x y pix) ∧
      (decodeLoop w h bpl palette (b :: v :: rest) x y pix).length = pix.length ∧
      (∀ px, x ≤ px → px < bpl → px < w →
        (decodeLoop w h bpl palette (b :: v :: rest) x y pix)[y * w + px]?
          = some (palette.getD v.val black)) ∧
      (∀ k, k < y * w + min x w →
        (decodeLoop w h bpl palette (b :: v :: rest) x y pix)[k]? = pix[k]?)) := by
  obtain ⟨h1, h2, h3, h4⟩ :=
    runLoop_spec w bpl y (palette.getD v.val black) (b.val &&& 0x3F) x pix
  have hend : (runLoop w bpl y (palette.getD v.val black) (b.val &&& 0x3F) x pix).1 = bpl := by
    rw [h1]
    split_ifs <;> omega
  rw [hend] at h3 h4
  have hwx : wrapX bpl bpl = 0 := by simp only [wrapX, Nat.le_refl, if_true]
  have hwy : wrapY bpl bpl y = y + 1 := by simp only [wrapY, Nat.le_refl, if_true]
  have hD : decodeLoop w h bpl palette [b, v] x y pix
      = (runLoop w bpl y (palette.getD v.val black) (b.val &&& 0x3F) x pix).2 := by
    rw [decodeLoop_run w h bpl palette b v [] x y pix hb hy]
    rfl
  have hF : decodeFinal w h bpl palette [b, v] x y pix
      = (0, y + 1, (runLoop w bpl y (palette.getD v.val black) (b.val &&& 0x3F) x pix).2) := by
    rw [decodeFinal_run w h bpl palette b v [] x y pix hb hy, hend, hwx, hwy]
    rfl
  have hwritten : ∀ px, x ≤ px → px < bpl → px < w →
      (runLoop w bpl y (palette.getD v.val black) (b.val &&& 0x3F) x pix).2[y * w + px]?
        = some (palette.getD v.val black) := by
    intro px hp1 hp2 hp3
    exact h3 px hp1 hp2 hp3 (by rw [hlen]; exact cursor_in_bounds w h px y hp3 hy)
  have hkeep : ∀ k, (∀ px, x ≤ px → px < bpl → px < w → k ≠ y * w + px) →
      (runLoop w bpl y (palette.getD v.val black) (b.val &&& 0x3F) x pix).2[k]? = pix[k]? := h4
  have hsucc : (y + 1) * w = y * w + w := by rw [Nat.add_mul, Nat.one_mul]
  rw [hD]
  refine ⟨hF, h2, hwritten, hkeep, ?_, ?_⟩
  · intro px hpx
    apply hkeep
    intro px2 _ _ hp3 heq
    have := (pixel_index_inj w px (y + 1) px2 y hpx hp3 heq).1
    omega
  · intro rest
    have hstep := decodeLoop_run w h bpl palette b v rest x y pix hb hy
    rw [hend, hwx, hwy] at hstep
    have hstepF := decodeFinal_run w h bpl palette b v rest x y pix hb hy
    rw [hend, hwx, hwy] at hstepF
    have hbefore : ∀ k, k < (y + 1) * w →
        (decodeLoop w h bpl palette (b :: v :: rest) x y pix)[k]?
          = (runLoop w bpl y (palette.getD v.val black) (b.val &&& 0x3F) x pix).2[k]? := by
      intro k hk
      rw [hstep]
      exact decodeLoop_before w h bpl palette rest.length rest _ _ _ (Nat.le_refl _) k (by omega)
    refine ⟨hstepF, hstep, ?_, ?_, ?_⟩
    · exact length_decodeLoop w h bpl palette _ _ x y pix (Nat.le_refl _)
    · intro px hp1 hp2 hp3
      rw [hbefore _ (by omega)]
      exact hwritten px hp1 hp2 hp3
    · intro k hk
      rw [hbefore k (by omega)]
      apply hkeep
      intro px hp1 _ _
      omega

/-- Witness for C16 (amended): the run `0xC5, 0x02` at cursor `(0, 0)` of a 4x2
image with stride 4, alone and followed by the byte `0x01`. -/
theorem run_truncated_at_stride_witness :
    decodeFinal 4 2 4 [black, black, ⟨10, 20, 30⟩] [0xC5, 0x02] 0 0 (List.replicate 8 black)
      = (0, 0 + 1, decodeLoop 4 2 4 [black, black, ⟨10, 20, 30⟩] [0xC5, 0x02] 0 0
          (List.replicate 8 black)) ∧
    (∀ px, 0 ≤ px → px < 4 → px < 4 →
      (decodeLoop 4 2 4 [black, black, ⟨10, 20, 30⟩] [0xC5, 0x02] 0 0
        (List.replicate 8 black))[0 * 4 + px]? = some ⟨10, 20, 30⟩) ∧
    (∀ px, px < 4 →
      (decodeLoop 4 2 4 [black, black, ⟨10, 20, 30⟩] [0xC5, 0x02] 0 0
        (List.replicate 8 black))[(0 + 1) * 4 + px]? = (List.replicate 8 black)[(0 + 1) * 4 + px]?) ∧
    decodeLoop 4 2 4 [black, black, ⟨10, 20, 30⟩] (0xC5 :: 0x02 :: [0x01]) 0 0
        (List.replicate 8 black)
      = decodeLoop 4 2 4 [black, black, ⟨10, 20, 30⟩] [0x01] 0 (0 + 1)
          (decodeLoop 4 2 4 [black, black, ⟨10, 20, 30⟩] [0xC5, 0x02] 0 0
            (List.replicate 8 black)) := by
  obtain ⟨h1, _, h3, _, h5, h6⟩ := run_truncated_at_stride 4 2 4 [black, black, ⟨10, 20, 30⟩]
    0xC5 0x02 0 0 (List.replicate 8 black) (by decide) (by decide) (by decide)
    (by decide) (by decide)
  exact ⟨h1, h3, h5, (h6 [0x01]).2.1⟩

theorem mul_add_div_mod (bpl y x : Nat) (hx : x < bpl) :
    (y * bpl + x) / bpl = y ∧ (y * bpl + x) % bpl = x := by
  have hpos : 0 < bpl := by omega
  constructor
  · rw [Nat.mul_comm, Nat.mul_add_div hpos, Nat.div_eq_of_lt hx, Nat.add_zero]
  · rw [Nat.mul_comm, Nat.mul_add_mod, Nat.mod_eq_of_lt hx]

theorem wrap_succ (bpl p : Nat) (hbpl : 0 < bpl) :
    wrapX bpl (p % bpl + 1) = (p + 1) % bpl ∧ wrapY bpl (p % bpl + 1) (p / bpl) = (p + 1) / bpl := by
  have hx : p % bpl < bpl := Nat.mod_lt p hbpl
  have hp : p / bpl * bpl + p % bpl = p := Nat.div_add_mod' p bpl
  by_cases h : p % bpl + 1 < bpl
  · have := mul_add_div_mod bpl (p / bpl) (p % bpl + 1) h
    rw [← Nat.add_assoc, hp] at this
    simp only [wrapX, wrapY, if_neg (by omega : ¬ bpl ≤ p % bpl + 1)]
    exact ⟨this.2.symm, this.1.symm⟩
  · have hq : p + 1 = (p / bpl + 1) * bpl + 0 := by
      rw [Nat.add_mul, Nat.one_mul]
      omega
    have := mul_add_div_mod bpl (p / bpl + 1) 0 hbpl
    rw [← hq] at this
    simp only [wrapX, wrapY, if_pos (by omega : bpl ≤ p % bpl + 1)]
    exact ⟨this.2.symm, this.1.symm⟩

/-- Decoding a stream of literal bytes from the linear position `p`: the byte at
position `q ≥ p` lands at the pixel `(q % bpl, q / bpl)` when that column is
below the width, and nothing else changes. -/
theorem decode_literals (w h bpl : Nat) (palette : List ColorRGB) (hbpl : 0 < bpl)
    (stream : List Byte) (hs : bpl * h ≤ stream.length)
    (hlit : ∀ k, k < bpl * h → (stream.getD k 0).val < 192) :
    ∀ (m p : Nat) (pix : List ColorRGB), p + m = bpl * h → pix.length = w * h →
      (∀ q, p ≤ q → q < bpl * h → q % bpl < w →
        (decodeLoop w h bpl palette (stream.drop p) (p % bpl) (p / bpl) pix)[
            q / bpl * w + q % bpl]?
          = some (palette.getD (stream.getD q 0).val black)) ∧
      (∀ k, (∀ q, p ≤ q → q < bpl * h → q % bpl < w → k ≠ q / bpl * w + q % bpl) →
        (decodeLoop w h bpl palette (stream.drop p) (p % bpl) (p / bpl) pix)[k]? = pix[k]?) := by
  intro m
  induction m with
  | zero =>
    intro p pix hp _
    have hy : ¬ p / bpl < h := by
      rw [Nat.div_lt_iff_lt_mul hbpl, Nat.mul_comm]
      omega
    rw [decodeLoop_exit w h bpl palette _ _ _ pix hy]
    exact ⟨fun q h1 h2 _ => by omega, fun _ _ => rfl⟩
  | succ m ih =>
    intro p pix hp hlen
    have hplt : p < bpl * h := by omega
    have hy : p / bpl < h := by
      rw [Nat.div_lt_iff_lt_mul hbpl, Nat.mul_comm]
      exact hplt
    have hpl : p < stream.length := by omega
    have hb := hlit p hplt
    rw [List.getD_eq_getElem _ _ hpl] at hb
    obtain ⟨hwx, hwy⟩ := wrap_succ bpl p hbpl
    have hstep := decodeLoop_literal w h bpl palette stream[p] (stream.drop (p + 1))
      (p % bpl) (p / bpl) pix hb hy
    rw [hwx, hwy] at hstep
    rw [List.drop_eq_getElem_cons hpl, hstep]
    obtain ⟨iA, iB⟩ := ih (p + 1) (putPixel w (p % bpl) (p / bpl) (palette.getD stream[p].val black) pix)
      (by omega) (by rw [length_putPixel]; exact hlen)
    have hdist : ∀ q, p + 1 ≤ q → q % bpl < w → p % bpl < w →
        p / bpl * w + p % bpl ≠ q / bpl * w + q % bpl := by
      intro q hq hqw hpw heq
      obtain ⟨e1, e2⟩ := pixel_index_inj w _ _ _ _ hpw hqw heq
      have h1 := Nat.div_add_mod' p bpl
      have h2 := Nat.div_add_mod' q bpl
      rw [e1, e2] at h1
      omega
    refine ⟨?_, ?_⟩
    · intro q hq1 hq2 hq3
      rcases Nat.eq_or_lt_of_le hq1 with heq | hlt
      · subst heq
        rw [iB _ (fun q2 h1 _ h3 => hdist q2 h1 h3 hq3)]
        simp only [putPixel, if_pos hq3]
        rw [List.getElem?_set, if_pos rfl,
          if_pos (by rw [hlen]; exact cursor_in_bounds w h _ _ hq3 hy),
          List.getD_eq_getElem _ _ hpl]
      · exact iA q (by omega) hq2 hq3
    · intro k hk
      rw [iB k (fun q h1 h2 h3 => hk q (by omega) h2 h3)]
      unfold putPixel
      split_ifs with hxw
      · rw [List.getElem?_set, if_neg (fun heq => hk p (Nat.le_refl p) hplt hxw heq.symm)]
      · rfl

/-- C18: for a source file of at least 769 bytes with `0 < width ≤ bytes_per_line`
whose first `bytes_per_line * height` stream bytes (file offsets 128 onwards)
exist and are literal (`< 0xC0`), `LoadPCX` returns a buffer of `width*height`
pixels whose pixel `(x, y)` is `palette[stream[y*bytes_per_line + x]]` for every
`x < width`, `y < height`: every pixel comes from a byte at a row position below
the width, and the bytes at row positions `width ≤ x < bytes_per_line` only move
the cursor. -/
theorem stride_padding_discarded (file : List Byte) (hlen : 769 ≤ file.length)
    (hw : 0 < pcxWidth (decodePCXHeader (file.take 128)))
    (hwb : pcxWidth (decodePCXHeader (file.take 128))
      ≤ (decodePCXHeader (file.take 128)).BytesPerLine)
    (hstream : 128 + (decodePCXHeader (file.take 128)).BytesPerLine
      * pcxHeight (decodePCXHeader (file.take 128)) ≤ file.length)
    (hlit : ∀ k, k < (decodePCXHeader (file.take 128)).BytesPerLine
      * pcxHeight (decodePCXHeader (file.take 128)) → (file.getD (128 + k) 0).val < 192) :
    ∃ out : ImageData, LoadPCX file = .ok out ∧
      out.Pix.length = pcxWidth (decodePCXHeader (file.take 128))
        * pcxHeight (decodePCXHeader (file.take 128)) ∧
      ∀ x y, x < pcxWidth (decodePCXHeader (file.take 128)) →
        y < pcxHeight (decodePCXHeader (file.take 128)) →
        out.Pix[y * pcxWidth (decodePCXHeader (file.take 128)) + x]?
          = some ((pcxActivePalette file).getD
              (file.getD (128 + (y * (decodePCXHeader (file.take 128)).BytesPerLine + x)) 0).val
              black) := by
  have hbpl : 0 < (decodePCXHeader (file.take 128)).BytesPerLine := by omega
  have hget : ∀ k, (file.drop 128).getD k 0 = file.getD (128 + k) 0 := by
    intro k
    rw [List.getD_eq_getElem?_getD, List.getD_eq_getElem?_getD, List.getElem?_drop]
  have hdec := decode_literals (pcxWidth (decodePCXHeader (file.take 128)))
    (pcxHeight (decodePCXHeader (file.take 128)))
    (decodePCXHeader (file.take 128)).BytesPerLine (pcxActivePalette file) hbpl (file.drop 128)
    (by rw [List.length_drop]; omega)
    (by intro k hk; rw [hget]; exact hlit k hk)
    _ 0 (List.replicate (pcxWidth (decodePCXHeader (file.take 128))
      * pcxHeight (decodePCXHeader (file.take 128))) black) (Nat.zero_add _)
    (List.length_replicate _ _)
  rw [List.drop_zero, Nat.zero_mod, Nat.zero_div] at hdec
  refine ⟨_, LoadPCX_eq file hlen, ?_, ?_⟩
  · simp only
    rw [length_decodeLoop _ _ _ _ _ _ _ _ _ (Nat.le_refl _), List.length_replicate]
  · intro x y hx hy
    obtain ⟨e1, e2⟩ := mul_add_div_mod (decodePCXHeader (file.take 128)).BytesPerLine y x
      (by omega)
    have hq : y * (decodePCXHeader (file.take 128)).BytesPerLine + x
        < (decodePCXHeader (file.take 128)).BytesPerLine
          * pcxHeight (decodePCXHeader (file.take 128)) := by
      rw [Nat.mul_comm _ (pcxHeight _)]
      have hb : (y + 1) * (decodePCXHeader (file.take 128)).BytesPerLine
          ≤ pcxHeight (decodePCXHeader (file.take 128))
            * (decodePCXHeader (file.take 128)).BytesPerLine :=
        Nat.mul_le_mul_right _ (by omega)
      rw [Nat.add_mul, Nat.one_mul] at hb
      omega
    have := hdec.1 (y * (decodePCXHeader (file.take 128)).BytesPerLine + x) (Nat.zero_le _) hq
      (by rw [e2]; exact hx)
    rw [e1, e2, hget] at this
    exact this

set_option maxRecDepth 1000000 in
/-- Witness for C18: the file `paddedPCX`, a 4x2 image with stride 6 and a stream
of literal bytes `0x07`. -/
theorem stride_padding_discarded_witness :
    ∃ out : ImageData, LoadPCX paddedPCX = .ok out ∧
      out.Pix.length = pcxWidth (decodePCXHeader (paddedPCX.take 128))
        * pcxHeight (decodePCXHeader (paddedPCX.take 128)) := by
  obtain ⟨out, h1, h2, _⟩ := stride_padding_discarded paddedPCX (Nat.le_of_eq (by rfl))
    (by decide) (by decide) (by decide) (by decide)
  exact ⟨out, h1, h2⟩


/-! ### `LoadBMP` on arbitrary files -/

theorem File.read_ok_of_lt (data : List Byte) (pos n : Nat) (h : pos < data.length) :
    ∃ (buf : List Byte) (f : File), File.read { data := data, pos := pos } n = .ok (buf, f) := by
  unfold File.read
  split_ifs with h0 h1
  · exact ⟨_, _, rfl⟩
  · simp only at h1
    omega
  · exact ⟨_, _, rfl⟩

theorem readPalette_ok :
    ∀ (n i : Nat) (data : List Byte) (pos : Nat) (p0 : List ColorRGB),
      pos + 4 * n ≤ data.length →
      ∃ p1 : List ColorRGB,
        readPalette n i { data := data, pos := pos } p0
          = .ok (p1, { data := data, pos := pos + 4 * n }) := by
  intro n
  induction n with
  | zero =>
    intro i data pos p0 _
    exact ⟨p0, rfl⟩
  | succ n ih =>
    intro i data pos p0 h
    have hr := File.readFull_ok data pos 4 (by omega)
    obtain ⟨p1, h1⟩ := ih (i + 1) data (pos + 4)
      (p0.set i ⟨((data.drop pos).take 4).getD 2 0, ((data.drop pos).take 4).getD 1 0,
        ((data.drop pos).take 4).getD 0 0⟩) (by omega)
    refine ⟨p1, ?_⟩
    simp only [readPalette, hr, h1]
    rw [show pos + 4 + 4 * n = pos + 4 * (n + 1) by omega]

theorem loadRowSize_24 (w : Nat) : loadRowSize (w : Int) 24 = (stride (3 * w) : Int) := by
  unfold loadRowSize stride
  rw [← bitClear_three]
  have : Int.tdiv ((w : Int) * ((24 : Nat) : Int)) 8 = ((3 * w : Nat) : Int) := by
    have h2 : (w : Int) * ((24 : Nat) : Int) = ((3 * w : Nat) : Int) * 8 := by
      push_cast
      ring
    rw [h2]
    exact Int.mul_tdiv_cancel _ (by decide)
  rw [this]
  rfl

theorem le16_take_drop (l : List Byte) (a n off : Nat) (h : off + 1 < n) :
    le16 ((l.drop a).take n) off = le16 l (a + off) := by
  unfold le16
  rw [getD_take_drop _ _ _ _ (by omega), getD_take_drop _ _ _ _ (by omega)]
  rfl

theorem le32_take_drop (l : List Byte) (a n off : Nat) (h : off + 3 < n) :
    le32 ((l.drop a).take n) off = le32 l (a + off) := by
  unfold le32
  rw [getD_take_drop _ _ _ _ (by omega), getD_take_drop _ _ _ _ (by omega),
    getD_take_drop _ _ _ _ (by omega), getD_take_drop _ _ _ _ (by omega)]
  rfl

/-- The two header reads and the two format tests of `LoadBMP` on a file of at
least 54 bytes. -/
theorem LoadBMP_headers (file : List Byte) (hlen : 54 ≤ file.length) :
    LoadBMP file =
      if file.getD 0 0 ≠ 0x42 ∨ file.getD 1 0 ≠ 0x4D then .error .format
      else if le16 file 28 ≠ 8 ∧ le16 file 28 ≠ 24 then .error .format
      else
        match readPalette (if le16 file 28 = 8 then 256 else 0) 0 { data := file, pos := 54 }
            zeroPalette with
        | .error e => .error e
        | .ok (palette, f3) =>
          if loadRowSize (toInt32 (le32 file 18)) (le16 file 28) * toInt32 (le32 file 22) < 0 then
            .error .panic
          else
            match f3.read (loadRowSize (toInt32 (le32 file 18)) (le16 file 28)
                * toInt32 (le32 file 22)).toNat with
            | .error e => .error e
            | .ok (data, _) =>
              if toInt32 (le32 file 18) * toInt32 (le32 file 22) < 0 then .error .panic
              else
                .ok { Width := toInt32 (le32 file 18), Height := toInt32 (le32 file 22),
                      Pix := fillPixFrom (le16 file 28) data palette (toInt32 (le32 file 18)).toNat
                        (toInt32 (le32 file 22)).toNat
                        (loadRowSize (toInt32 (le32 file 18)) (le16 file 28)).toNat
                        (List.replicate
                          (toInt32 (le32 file 18) * toInt32 (le32 file 22)).toNat black),
                      Palette := zeroPalette, HasPal := false } := by
  have r1 := File.read_ok file 0 14 (by omega) (by omega) (by decide)
  have r2 := File.read_ok file 14 40 (by omega) (by omega) (by decide)
  have g0 : ((file.drop 0).take 14).getD 0 0 = file.getD 0 0 := by
    rw [getD_take_drop _ _ _ _ (by omega)]
  have g1 : ((file.drop 0).take 14).getD 1 0 = file.getD 1 0 := by
    rw [getD_take_drop _ _ _ _ (by omega)]
  have f4 : le32 ((file.drop 14).take 40) 4 = le32 file 18 := le32_take_drop file 14 40 4 (by omega)
  have f8 : le32 ((file.drop 14).take 40) 8 = le32 file 22 := le32_take_drop file 14 40 8 (by omega)
  have f14 : le16 ((file.drop 14).take 40) 14 = le16 file 28 :=
    le16_take_drop file 14 40 14 (by omega)
  unfold LoadBMP
  simp only [r1, g0, g1, Nat.zero_add, r2, f4, f8, f14]

/-- With the signature `'B','M'`, a bit count of 8 or 24, positive width and
height and a file long enough for the palette and the pixel data, `LoadBMP`
returns a buffer. -/
theorem LoadBMP_complete (file : List Byte) (hlen : 54 ≤ file.length)
    (h0 : file.getD 0 0 = 0x42) (h1 : file.getD 1 0 = 0x4D)
    (hbc : le16 file 28 = 8 ∨ le16 file 28 = 24)
    (hw : 0 < toInt32 (le32 file 18)) (hh : 0 < toInt32 (le32 file 22))
    (hsize : ((54 + (if le16 file 28 = 8 then 1024 else 0) : Nat) : Int)
        + loadRowSize (toInt32 (le32 file 18)) (le16 file 28) * toInt32 (le32 file 22)
      ≤ (file.length : Int)) :
    ∃ out : ImageData, LoadBMP file = .ok out ∧ out.Width = toInt32 (le32 file 18) ∧
      out.Height = toInt32 (le32 file 22) := by
  have hhead := LoadBMP_headers file hlen
  have hm : ¬ (file.getD 0 0 ≠ 0x42 ∨ file.getD 1 0 ≠ 0x4D) := by
    rw [h0, h1]
    simp
  have hbc2 : ¬ (le16 file 28 ≠ 8 ∧ le16 file 28 ≠ 24) := by omega
  obtain ⟨w, hwe⟩ := Int.eq_ofNat_of_zero_le (le_of_lt hw)
  obtain ⟨h, hhe⟩ := Int.eq_ofNat_of_zero_le (le_of_lt hh)
  rw [hwe] at hw
  rw [hhe] at hh
  have hrow : ∃ r : Nat, loadRowSize (toInt32 (le32 file 18)) (le16 file 28) = (r : Int) ∧
      0 < r := by
    rw [hwe]
    rcases hbc with h8 | h24
    · rw [h8]
      exact ⟨stride w, loadRowSize_eight w, by have := (stride_bounds w).1; omega⟩
    · rw [h24]
      exact ⟨stride (3 * w), loadRowSize_24 w,
        by have := (stride_bounds (3 * w)).1; omega⟩
  obtain ⟨r, hr, hrpos⟩ := hrow
  rw [hr, hhe] at hsize
  have hrh : 0 < r * h := Nat.mul_pos hrpos (by omega)
  have hmul : (r : Int) * (h : Int) = ((r * h : Nat) : Int) := by
    push_cast
    ring
  rw [hmul] at hsize
  have hpal : 54 + 4 * (if le16 file 28 = 8 then 256 else 0) ≤ file.length := by
    split_ifs at hsize ⊢ <;> omega
  obtain ⟨p1, hp1⟩ := readPalette_ok (if le16 file 28 = 8 then 256 else 0) 0 file 54
    zeroPalette hpal
  obtain ⟨buf, f4, hread⟩ := File.read_ok_of_lt file
    (54 + 4 * (if le16 file 28 = 8 then 256 else 0)) (r * h)
    (by split_ifs at hsize ⊢ <;> omega)
  have hprod : loadRowSize (toInt32 (le32 file 18)) (le16 file 28) * toInt32 (le32 file 22)
      = ((r * h : Nat) : Int) := by
    rw [hr, hhe, hmul]
  have hneg : ¬ (((r * h : Nat) : Int) < 0) := by omega
  have hneg2 : ¬ (toInt32 (le32 file 18) * toInt32 (le32 file 22) < 0) := by
    rw [hwe, hhe]
    have : (0 : Int) ≤ (w : Int) * (h : Int) := by positivity
    omega
  have hfin : LoadBMP file = .ok
      { Width := toInt32 (le32 file 18), Height := toInt32 (le32 file 22),
        Pix := fillPixFrom (le16 file 28) buf p1 (toInt32 (le32 file 18)).toNat
          (toInt32 (le32 file 22)).toNat
          (loadRowSize (toInt32 (le32 file 18)) (le16 file 28)).toNat
          (List.replicate (toInt32 (le32 file 18) * toInt32 (le32 file 22)).toNat black),
        Palette := zeroPalette, HasPal := false } := by
    rw [hhead, if_neg hm, if_neg hbc2]
    simp only [hp1, hprod, if_neg hneg, Int.toNat_ofNat, hread, if_neg hneg2]
  exact ⟨_, hfin, rfl, rfl⟩

/-- C13: on an input of at least 54 bytes, `LoadBMP` returns the format error
(and no buffer) when the first two bytes are not `'B','M'` or when the 16-bit
field at info-header offset 14 (file offset 28) is neither 8 nor 24; and with the
signature `'B','M'`, a bit count of 8 or 24, positive width and height, and a
file that holds the palette (1024 bytes for 8 bits, none for 24) and
`rowSize * height` bytes of pixel data, it returns a buffer of that width and
height. -/
theorem loadBMP_rejection (file : List Byte) (hlen : 54 ≤ file.length) :
    ((file.getD 0 0 ≠ 0x42 ∨ file.getD 1 0 ≠ 0x4D ∨ (le16 file 28 ≠ 8 ∧ le16 file 28 ≠ 24)) →
      LoadBMP file = .error .format) ∧
    (file.getD 0 0 = 0x42 → file.getD 1 0 = 0x4D → (le16 file 28 = 8 ∨ le16 file 28 = 24) →
      0 < toInt32 (le32 file 18) → 0 < toInt32 (le32 file 22) →
      ((54 + (if le16 file 28 = 8 then 1024 else 0) : Nat) : Int)
          + loadRowSize (toInt32 (le32 file 18)) (le16 file 28) * toInt32 (le32 file 22)
        ≤ (file.length : Int) →
      ∃ out : ImageData, LoadBMP file = .ok out ∧ out.Width = toInt32 (le32 file 18) ∧
        out.Height = toInt32 (le32 file 22)) := by
  have hhead := LoadBMP_headers file hlen
  refine ⟨?_, ?_⟩
  · intro h
    rw [hhead]
    by_cases hm : file.getD 0 0 ≠ 0x42 ∨ file.getD 1 0 ≠ 0x4D
    · rw [if_pos hm]
    · rw [if_neg hm]
      have hbc : le16 file 28 ≠ 8 ∧ le16 file 28 ≠ 24 := by
        rcases h with h | h | h
        · exact absurd (Or.inl h) hm
        · exact absurd (Or.inr h) hm
        · exact h
      rw [if_pos hbc]
  · exact LoadBMP_complete file hlen

/-- Witness for C13: the 58-byte file `tinyBMP`, a 24-bit 1x1 image. -/
theorem loadBMP_rejection_witness :
    ∃ out : ImageData, LoadBMP tinyBMP = .ok out ∧ out.Width = toInt32 (le32 tinyBMP 18) ∧
      out.Height = toInt32 (le32 tinyBMP 22) := by
  have e1 : toInt32 (le32 tinyBMP 18) = ((1 : Nat) : Int) := by decide
  have e2 : le16 tinyBMP 28 = 24 := by decide
  exact (loadBMP_rejection tinyBMP (by decide)).2 (by decide) (by decide) (Or.inr e2)
    (by decide) (by decide) (by rw [e1, e2, loadRowSize_24]; decide)

/-! ### The buffer-size invariant -/

theorem length_foldl_preserving {α ι : Type} (step : List α → ι → List α)
    (hstep : ∀ p i, (step p i).length = p.length) :
    ∀ (l : List ι) (pix : List α), (l.foldl step pix).length = pix.length := by
  intro l
  induction l with
  | nil => intro pix; rfl
  | cons i t ih =>
    intro pix
    rw [List.foldl_cons, ih, hstep]

theorem length_fillPixFrom (bitCount : Nat) (data : List Byte) (palette : List ColorRGB)
    (w h rowSize : Nat) (pix : List ColorRGB) :
    (fillPixFrom bitCount data palette w h rowSize pix).length = pix.length := by
  unfold fillPixFrom
  apply length_foldl_preserving
  intro p y
  apply length_foldl_preserving
  intro p2 x
  exact List.length_set _ _ _

theorem length_remapChunk (pix palette : List ColorRGB) (s e : Nat) (out : List ColorRGB) :
    (remapChunk pix palette s e out).length = out.length := by
  unfold remapChunk
  apply length_foldl_preserving
  intro p j
  exact List.length_set _ _ _

theorem length_remap (rt : Runtime) (pix palette : List ColorRGB) :
    (remap rt pix palette).length = pix.length := by
  unfold remap
  rw [length_foldl_preserving _ (fun p i => length_remapChunk pix palette _ _ p)]
  exact List.length_replicate _ _

theorem LoadPCX_short (file : List Byte) (hlen : file.length < 769) :
    LoadPCX file = .error .io := by
  unfold LoadPCX
  by_cases h128 : 0 + 128 ≤ file.length
  · have hneg : (file.length : Int) - 769 < 0 := by omega
    simp only [bind, Except.bind, File.readFull, if_pos h128, File.seek, if_pos hneg]
  · simp only [bind, Except.bind, File.readFull, if_neg h128]

theorem LoadBMP_size (file : List Byte) (out : ImageData) (h : LoadBMP file = .ok out) :
    (out.Pix.length : Int) = out.Width * out.Height := by
  unfold LoadBMP at h
  split at h
  · cases h
  · split at h
    · cases h
    · split at h
      · cases h
      · simp only [] at h
        split at h
        · cases h
        · split at h
          · cases h
          · split at h
            · cases h
            · split at h
              · cases h
              · split at h
                · cases h
                · rename_i hnn
                  cases h
                  simp only [length_fillPixFrom, List.length_replicate]
                  exact Int.toNat_of_nonneg (by omega)

/-- C14: every buffer `LoadPCX` returns and every buffer `LoadBMP` returns has
`len(Pix) = Width*Height`; for every input buffer `Quantize` returns a buffer of
the same width and height with `len(output.Pix) = len(input.Pix)`, so an input
with `len(Pix) = Width*Height` gives an output with `len(Pix) = Width*Height`. -/
theorem buffer_size_invariant :
    (∀ (file : List Byte) (out : ImageData), LoadPCX file = .ok out →
      (out.Pix.length : Int) = out.Width * out.Height) ∧
    (∀ (file : List Byte) (out : ImageData), LoadBMP file = .ok out →
      (out.Pix.length : Int) = out.Width * out.Height) ∧
    (∀ (rt : Runtime) (img : ImageData), rt.Valid →
      ∃ out : ImageData, Quantize rt img = .ok out ∧ out.Width = img.Width ∧
        out.Height = img.Height ∧ out.Pix.length = img.Pix.length ∧
        ((img.Pix.length : Int) = img.Width * img.Height →
          (out.Pix.length : Int) = out.Width * out.Height)) := by
  refine ⟨?_, LoadBMP_size, ?_⟩
  · intro file out h
    by_cases hlen : 769 ≤ file.length
    · rw [LoadPCX_eq file hlen] at h
      cases h
      simp only
      rw [length_decodeLoop _ _ _ _ _ _ _ _ _ (Nat.le_refl _), List.length_replicate]
      push_cast
      rfl
    · rw [LoadPCX_short file (by omega)] at h
      cases h
  · intro rt img hv
    refine ⟨_, Quantize_eq rt hv img, rfl, rfl, length_remap rt img.Pix _, ?_⟩
    intro hsz
    simp only
    rw [length_remap]
    exact hsz

set_option maxRecDepth 1000000 in
/-- Witness for C14: `LoadPCX` on `truncatedPCX`, `LoadBMP` on `tinyBMP`, and
`Quantize` with three workers on the 2x2 sample buffer. -/
theorem buffer_size_invariant_witness :
    (∃ out : ImageData, LoadPCX truncatedPCX = .ok out ∧
      (out.Pix.length : Int) = out.Width * out.Height) ∧
    (∃ out : ImageData, LoadBMP tinyBMP = .ok out ∧
      (out.Pix.length : Int) = out.Width * out.Height) ∧
    (∃ out : ImageData, Quantize (simpleRuntime 3) sampleBuffer = .ok out ∧
      out.Pix.length = sampleBuffer.Pix.length) := by
  obtain ⟨hpcx, hbmp, hq⟩ := buffer_size_invariant
  have h1 := LoadPCX_eq truncatedPCX (Nat.le_of_eq (by rfl))
  have e1 : toInt32 (le32 tinyBMP 18) = ((1 : Nat) : Int) := by decide
  have e2 : le16 tinyBMP 28 = 24 := by decide
  obtain ⟨o2, h2, _⟩ := LoadBMP_complete tinyBMP (by decide) (by decide) (by decide) (Or.inr e2)
    (by decide) (by decide) (by rw [e1, e2, loadRowSize_24]; decide)
  obtain ⟨o3, h3, _, _, h4, _⟩ := hq (simpleRuntime 3) sampleBuffer
    (simpleRuntime_valid 3 (by decide))
  exact ⟨⟨_, h1, hpcx _ _ h1⟩, ⟨o2, h2, hbmp _ _ h2⟩, ⟨o3, h3, h4⟩⟩


/-! ### The palette `Quantize` builds -/

theorem sortedColors_keys_perm (rt : Runtime) (hv : rt.Valid) (pix : List ColorRGB) :
    ((sortedColors rt pix).map Prod.fst).Perm pix.dedup := by
  rw [List.perm_ext_iff_of_nodup (sortedColors_nodup rt hv pix) (List.nodup_dedup pix)]
  intro c
  rw [List.mem_dedup, List.mem_map]
  constructor
  · rintro ⟨⟨c2, n⟩, hmem, rfl⟩
    exact ((mem_sortedColors_iff rt hv pix c2 n).mp hmem).1
  · intro hc
    exact ⟨(c, pix.count c), (mem_sortedColors_iff rt hv pix c _).mpr ⟨hc, rfl⟩, rfl⟩

theorem take_buildPalette (arr : FreqMap) (hd : arr.length ≤ 256) :
    (buildPalette arr).take arr.length = arr.map Prod.fst := by
  apply List.ext_getElem?
  intro i
  rw [List.getElem?_take, List.getElem?_map]
  by_cases hi : i < arr.length
  · rw [if_pos hi, buildPalette_getElem? arr i (by omega), if_pos hi,
      List.getD_eq_getElem _ _ hi, List.getElem?_eq_getElem hi]
    rfl
  · rw [if_neg hi, List.getElem?_eq_none (by omega)]
    rfl

/-- C15: for a pixel sequence with `d < 256` distinct colours, `Quantize` returns
a palette whose first `d` entries are exactly the `d` distinct colours, each
once, and whose entries `d..255` are `(0,0,0)`; for the empty pixel sequence it
returns, without error, the all-black 256-entry palette and an empty pixel
buffer. -/
theorem palette_zero_fill (rt : Runtime) (hv : rt.Valid) (img : ImageData)
    (hd : img.Pix.dedup.length < 256) :
    ∃ out : ImageData, Quantize rt img = .ok out ∧
      (out.Palette.take img.Pix.dedup.length).Perm img.Pix.dedup ∧
      (∀ i, img.Pix.dedup.length ≤ i → i < 256 → out.Palette[i]? = some black) ∧
      (img.Pix = [] → out.Palette = zeroPalette ∧ out.Pix = []) := by
  have hlen := sortedColors_length rt hv img.Pix
  have hzero : ∀ i, img.Pix.dedup.length ≤ i → i < 256 →
      (buildPalette (sortedColors rt img.Pix))[i]? = some black := by
    intro i h1 h2
    rw [buildPalette_getElem? _ i h2, if_neg (by omega)]
  refine ⟨_, Quantize_eq rt hv img, ?_, hzero, ?_⟩
  · simp only
    rw [← hlen, take_buildPalette _ (by omega)]
    exact sortedColors_keys_perm rt hv img.Pix
  · intro hempty
    simp only
    constructor
    · unfold zeroPalette
      rw [List.eq_replicate_iff]
      refine ⟨buildPalette_length _, ?_⟩
      intro b hb
      obtain ⟨i, hi, hget⟩ := List.getElem_of_mem hb
      have hi2 : i < 256 := by rw [buildPalette_length] at hi; exact hi
      have := hzero i (by rw [hempty]; exact Nat.zero_le _) hi2
      rw [List.getElem?_eq_getElem hi, hget] at this
      exact Option.some.inj this
    · apply List.eq_nil_of_length_eq_zero
      rw [length_remap, hempty]
      rfl

/-- Witness for C15: three workers on the 2x2 sample buffer, which has three
distinct colours. -/
theorem palette_zero_fill_witness :
    ∃ out : ImageData, Quantize (simpleRuntime 3) sampleBuffer = .ok out ∧
      (out.Palette.take sampleBuffer.Pix.dedup.length).Perm sampleBuffer.Pix.dedup ∧
      (∀ i, sampleBuffer.Pix.dedup.length ≤ i → i < 256 → out.Palette[i]? = some black) := by
  obtain ⟨out, h1, h2, h3, _⟩ := palette_zero_fill (simpleRuntime 3)
    (simpleRuntime_valid 3 (by decide)) sampleBuffer (by decide)
  exact ⟨out, h1, h2, h3⟩


/-! ### The remapping phase -/

theorem remapChunk_spec (pix palette : List ColorRGB) (s e : Nat) (out : List ColorRGB) :
    ∀ k, (remapChunk pix palette s e out)[k]? =
      if s ≤ k ∧ k < e ∧ k < out.length then
        some ⟨byteOfNat (findNearestIndex (pix.getD k black) palette), 0, 0⟩
      else out[k]? := by
  intro k
  unfold remapChunk
  rw [List.range'_eq_map_range, List.foldl_map]
  have h := (foldl_set_offset
    (fun x => (⟨byteOfNat (findNearestIndex (pix.getD (s + x) black) palette), 0, 0⟩ : ColorRGB))
    s (e - s) out).2 k
  rw [h]
  by_cases hc : s ≤ k ∧ k < e ∧ k < out.length
  · rw [if_pos (by omega), if_pos hc, show s + (k - s) = k by omega]
  · rw [if_neg (by omega), if_neg hc]

theorem remap_fold (rt : Runtime) (pix palette : List ColorRGB) :
    ∀ (order : List Nat) (out : List ColorRGB),
      (∀ k, (∃ i, i ∈ order ∧ chunkStart pix.length rt.numCPU i ≤ k ∧
          k < chunkEnd pix.length rt.numCPU i) → k < out.length →
        (order.foldl (fun o i => remapChunk pix palette (chunkStart pix.length rt.numCPU i)
            (chunkEnd pix.length rt.numCPU i) o) out)[k]?
          = some ⟨byteOfNat (findNearestIndex (pix.getD k black) palette), 0, 0⟩) ∧
      (∀ k, (¬ ∃ i, i ∈ order ∧ chunkStart pix.length rt.numCPU i ≤ k ∧
          k < chunkEnd pix.length rt.numCPU i) →
        (order.foldl (fun o i => remapChunk pix palette (chunkStart pix.length rt.numCPU i)
            (chunkEnd pix.length rt.numCPU i) o) out)[k]? = out[k]?) := by
  intro order
  induction order with
  | nil =>
    intro out
    refine ⟨?_, fun _ _ => rfl⟩
    rintro k ⟨i, hi, _⟩ _
    cases hi
  | cons i t ih =>
    intro out
    obtain ⟨ih1, ih2⟩ := ih (remapChunk pix palette (chunkStart pix.length rt.numCPU i)
      (chunkEnd pix.length rt.numCPU i) out)
    simp only [List.foldl_cons]
    refine ⟨?_, ?_⟩
    · rintro k ⟨i2, hi2, hs, he⟩ hk
      by_cases hex : ∃ i3, i3 ∈ t ∧ chunkStart pix.length rt.numCPU i3 ≤ k ∧
          k < chunkEnd pix.length rt.numCPU i3
      · exact ih1 k hex (by rw [length_remapChunk]; exact hk)
      · rw [ih2 k hex, remapChunk_spec]
        rcases List.mem_cons.mp hi2 with heq | hmem
        · subst heq
          rw [if_pos ⟨hs, he, hk⟩]
        · exact absurd ⟨i2, hmem, hs, he⟩ hex
    · intro k hno
      have hno2 : ¬ ∃ i3, i3 ∈ t ∧ chunkStart pix.length rt.numCPU i3 ≤ k ∧
          k < chunkEnd pix.length rt.numCPU i3 := by
        rintro ⟨i3, h3, hs, he⟩
        exact hno ⟨i3, List.mem_cons_of_mem _ h3, hs, he⟩
      rw [ih2 k hno2, remapChunk_spec, if_neg]
      rintro ⟨hs, he, _⟩
      exact hno ⟨i, List.mem_cons_self _ _, hs, he⟩

/-- Every pixel of the output of the remapping phase is the index
`findNearestIndex` returns for the input pixel, whatever the schedule. -/
theorem remap_spec (rt : Runtime) (hv : rt.Valid) (pix palette : List ColorRGB) (k : Nat)
    (hk : k < pix.length) :
    (remap rt pix palette)[k]?
      = some ⟨byteOfNat (findNearestIndex (pix.getD k black) palette), 0, 0⟩ := by
  obtain ⟨i, hi, hs, he⟩ := chunk_cover pix.length rt.numCPU k hv.cpu_pos hk
  have hmem : i ∈ rt.remapOrder := hv.remap_perm.mem_iff.mpr (List.mem_range.mpr hi)
  exact (remap_fold rt pix palette rt.remapOrder (List.replicate pix.length black)).1 k
    ⟨i, hmem, hs, he⟩ (by rw [List.length_replicate]; exact hk)

theorem distSq_eq_zero (a b : ColorRGB) (h : distSq a b = 0) : a = b := by
  unfold distSq at h
  simp only at h
  have h1 := mul_self_nonneg ((a.R.val : Int) - (b.R.val : Int))
  have h2 := mul_self_nonneg ((a.G.val : Int) - (b.G.val : Int))
  have h3 := mul_self_nonneg ((a.B.val : Int) - (b.B.val : Int))
  have e1 : ((a.R.val : Int) - (b.R.val : Int)) * ((a.R.val : Int) - (b.R.val : Int)) = 0 := by
    omega
  have e2 : ((a.G.val : Int) - (b.G.val : Int)) * ((a.G.val : Int) - (b.G.val : Int)) = 0 := by
    omega
  have e3 : ((a.B.val : Int) - (b.B.val : Int)) * ((a.B.val : Int) - (b.B.val : Int)) = 0 := by
    omega
  have r1 := mul_self_eq_zero.mp e1
  have r2 := mul_self_eq_zero.mp e2
  have r3 := mul_self_eq_zero.mp e3
  cases a
  cases b
  simp only at r1 r2 r3
  simp only [ColorRGB.mk.injEq]
  exact ⟨Fin.ext (by omega), Fin.ext (by omega), Fin.ext (by omega)⟩

theorem distSq_self (a : ColorRGB) : distSq a a = 0 := by
  unfold distSq
  simp

/-- A colour that is in the palette is found exactly. -/
theorem findNearestIndex_exact (c : ColorRGB) (p : List ColorRGB) (i0 : Nat) (hi0 : i0 < 256)
    (hc : p.getD i0 black = c) :
    findNearestIndex c p < 256 ∧ p.getD (findNearestIndex c p) black = c := by
  have h := nearestLoop_spec c p 256 0 0 maxFloat64 (by omega)
    (by intro j hj; omega) (by intro j hj; omega)
    (by intro _ j; exact distSq_lt_maxFloat64 _ _) (by intro h; omega)
  obtain ⟨hk, hmin, _⟩ := h
  simp only [Nat.zero_add] at hk hmin
  refine ⟨hk, ?_⟩
  have h0 := hmin i0 hi0
  rw [hc, distSq_self] at h0
  have hz : distSq c (p.getD (nearestLoop c p 256 0 0 maxFloat64) black) = 0 :=
    le_antisymm h0 (distSq_nonneg _ _)
  exact (distSq_eq_zero _ _ hz).symm

/-- C19: for a pixel sequence with at most 256 distinct colours, for every worker
count, schedule and map iteration order, `Quantize` returns a buffer with as many
pixels whose pixel `i` is `(k, 0, 0)` with `Palette[k] = input.Pix[i]`. -/
theorem quantize_lossless (rt : Runtime) (hv : rt.Valid) (img : ImageData)
    (hd : img.Pix.dedup.length ≤ 256) :
    ∃ out : ImageData, Quantize rt img = .ok out ∧ out.Pix.length = img.Pix.length ∧
      ∀ (i : Nat) (c : ColorRGB), img.Pix[i]? = some c →
        ∃ p : ColorRGB, out.Pix[i]? = some p ∧ p.G = 0 ∧ p.B = 0 ∧
          out.Palette[p.R.val]? = some c := by
  refine ⟨_, Quantize_eq rt hv img, length_remap rt img.Pix _, ?_⟩
  intro i c hc
  have hi : i < img.Pix.length := by
    by_contra hge
    rw [List.getElem?_eq_none (by omega)] at hc
    cases hc
  have hget : img.Pix.getD i black = c := by
    rw [List.getD_eq_getElem?_getD, hc]
    rfl
  have hmem : c ∈ img.Pix := by
    rw [List.getElem?_eq_getElem hi] at hc
    rw [← Option.some.inj hc]
    exact List.getElem_mem hi
  obtain ⟨k, hk, hkget⟩ := exists_index_sortedColors rt hv img.Pix c hmem
  have hk256 : k < 256 := by
    have := sortedColors_length rt hv img.Pix
    omega
  have hpal : (buildPalette (sortedColors rt img.Pix)).getD k black = c := by
    rw [List.getD_eq_getElem?_getD, buildPalette_getElem? _ k hk256, if_pos hk, hkget]
    rfl
  obtain ⟨hlt, hexact⟩ := findNearestIndex_exact c _ k hk256 hpal
  refine ⟨⟨byteOfNat (findNearestIndex c (buildPalette (sortedColors rt img.Pix))), 0, 0⟩,
    ?_, rfl, rfl, ?_⟩
  · simp only
    rw [remap_spec rt hv img.Pix _ i hi, hget]
  · simp only [byteOfNat, Nat.mod_eq_of_lt hlt]
    rw [List.getD_eq_getElem?_getD] at hexact
    have hlen : findNearestIndex c (buildPalette (sortedColors rt img.Pix))
        < (buildPalette (sortedColors rt img.Pix)).length := by
      rw [buildPalette_length]
      exact hlt
    rw [List.getElem?_eq_getElem hlen] at hexact ⊢
    exact congrArg some hexact

/-- Witness for C19: five workers on the 2x2 sample buffer. -/
theorem quantize_lossless_witness :
    ∃ out : ImageData, Quantize (simpleRuntime 5) sampleBuffer = .ok out ∧
      out.Pix.length = sampleBuffer.Pix.length := by
  obtain ⟨out, h1, h2, _⟩ := quantize_lossless (simpleRuntime 5)
    (simpleRuntime_valid 5 (by decide)) sampleBuffer (by decide)
  exact ⟨out, h1, h2⟩


/-! ### Ties in the palette order -/

theorem reversingRuntime_valid (n : Nat) (hn : 1 ≤ n) : (reversingRuntime n).Valid := by
  haveI : IsTotal (ColorRGB × Nat) (fun a b => kvLess b a = false) :=
    ⟨fun a b => by
      simp only [kvLess, decide_eq_false_iff_not, not_lt, gt_iff_lt]
      omega⟩
  haveI : IsTrans (ColorRGB × Nat) (fun a b => kvLess b a = false) :=
    ⟨fun a b c h1 h2 => by
      simp only [kvLess, decide_eq_false_iff_not, not_lt, gt_iff_lt] at *
      omega⟩
  exact
    { cpu_pos := hn
      merge_perm := List.Perm.refl _
      range_perm := fun i m => by
        show (if i = n then m.reverse else m).Perm m
        split_ifs
        · exact List.reverse_perm m
        · exact List.Perm.refl m
      sort_perm := fun l => List.perm_insertionSort _ l
      sort_sorted := fun l => List.sorted_insertionSort (fun a b => kvLess b a = false) l
      remap_perm := List.Perm.refl _ }

/-- C17 fails as stated: on the buffer `(1,1,1), (2,2,2)`, whose two colours both
occur once, two runtimes that Go allows (a `range` over `freqMap` in insertion
order, or in the reverse order) give different palettes: one starts with
`(1,1,1)`, the other with `(2,2,2)`, which is not the order of first occurrence. -/
theorem tie_break_counterexample :
    (simpleRuntime 1).Valid ∧ (reversingRuntime 1).Valid ∧
    tieBuffer.Pix.count ⟨1, 1, 1⟩ = tieBuffer.Pix.count ⟨2, 2, 2⟩ ∧
    (∃ out1 out2 : ImageData,
      Quantize (simpleRuntime 1) tieBuffer = .ok out1 ∧
      Quantize (reversingRuntime 1) tieBuffer = .ok out2 ∧
      out1.Palette[0]? = some ⟨1, 1, 1⟩ ∧ out1.Palette[1]? = some ⟨2, 2, 2⟩ ∧
      out2.Palette[0]? = some ⟨2, 2, 2⟩ ∧ out2.Palette[1]? = some ⟨1, 1, 1⟩ ∧
      out1.Palette ≠ out2.Palette) := by
  have hv1 := simpleRuntime_valid 1 (by decide)
  have hv2 := reversingRuntime_valid 1 (by decide)
  have a0 : (buildPalette (sortedColors (simpleRuntime 1) tieBuffer.Pix))[0]?
      = some ⟨1, 1, 1⟩ := by
    rw [buildPalette_getElem? _ 0 (by omega)]
    decide
  have a1 : (buildPalette (sortedColors (simpleRuntime 1) tieBuffer.Pix))[1]?
      = some ⟨2, 2, 2⟩ := by
    rw [buildPalette_getElem? _ 1 (by omega)]
    decide
  have b0 : (buildPalette (sortedColors (reversingRuntime 1) tieBuffer.Pix))[0]?
      = some ⟨2, 2, 2⟩ := by
    rw [buildPalette_getElem? _ 0 (by omega)]
    decide
  have b1 : (buildPalette (sortedColors (reversingRuntime 1) tieBuffer.Pix))[1]?
      = some ⟨1, 1, 1⟩ := by
    rw [buildPalette_getElem? _ 1 (by omega)]
    decide
  refine ⟨hv1, hv2, by decide, _, _, Quantize_eq _ hv1 tieBuffer, Quantize_eq _ hv2 tieBuffer,
    a0, a1, b0, b1, ?_⟩
  intro heq
  simp only at heq
  rw [heq, b0] at a0
  exact absurd (Option.some.inj a0) (by decide)


theorem histogram_perm_runs (rt1 rt2 : Runtime) (hv1 : rt1.Valid) (hv2 : rt2.Valid)
    (pix : List ColorRGB) : (histogram rt1 pix).Perm (histogram rt2 pix) := by
  rw [List.perm_ext_iff_of_nodup (List.Nodup.of_map Prod.fst (histogram_wf rt1 hv1 pix).1)
    (List.Nodup.of_map Prod.fst (histogram_wf rt2 hv2 pix).1)]
  rintro ⟨c, n⟩
  rw [mem_histogram_iff rt1 hv1, mem_histogram_iff rt2 hv2]

theorem sortedColors_perm_runs (rt1 rt2 : Runtime) (hv1 : rt1.Valid) (hv2 : rt2.Valid)
    (pix : List ColorRGB) : (sortedColors rt1 pix).Perm (sortedColors rt2 pix) :=
  ((sortedColors_perm rt1 hv1 pix).trans (histogram_perm_runs rt1 rt2 hv1 hv2 pix)).trans
    (sortedColors_perm rt2 hv2 pix).symm

theorem sortedColors_counts_sorted (rt : Runtime) (hv : rt.Valid) (pix : List ColorRGB) :
    ((sortedColors rt pix).map Prod.snd).Sorted (fun a b => a ≥ b) := by
  unfold List.Sorted
  rw [List.pairwise_map]
  refine (hv.sort_sorted (rt.rangeOrder rt.numCPU (histogram rt pix))).imp ?_
  intro a b h
  simp only [kvLess, decide_eq_false_iff_not, not_lt, gt_iff_lt] at h
  exact h

/-- The frequencies along the sorted slice do not depend on the runtime. -/
theorem sortedColors_counts_eq (rt1 rt2 : Runtime) (hv1 : rt1.Valid) (hv2 : rt2.Valid)
    (pix : List ColorRGB) :
    (sortedColors rt1 pix).map Prod.snd = (sortedColors rt2 pix).map Prod.snd :=
  List.eq_of_perm_of_sorted ((sortedColors_perm_runs rt1 rt2 hv1 hv2 pix).map Prod.snd)
    (sortedColors_counts_sorted rt1 hv1 pix) (sortedColors_counts_sorted rt2 hv2 pix)

theorem palette_entry (rt : Runtime) (hv : rt.Valid) (pix : List ColorRGB) (i : Nat) (c : ColorRGB)
    (hi : i < min 256 pix.dedup.length)
    (hc : (buildPalette (sortedColors rt pix))[i]? = some c) :
    c ∈ pix ∧ (sortedColors rt pix)[i]? = some (c, pix.count c) := by
  have hlen := sortedColors_length rt hv pix
  have hi2 : i < (sortedColors rt pix).length := by omega
  rw [buildPalette_getElem? _ i (by omega), if_pos hi2] at hc
  obtain ⟨h1, h2⟩ := getD_sortedColors rt hv pix i hi2
  have hc2 := Option.some.inj hc
  rw [hc2] at h1 h2
  refine ⟨h1, ?_⟩
  rw [List.getElem?_eq_getElem hi2, ← List.getD_eq_getElem _ (black, 0) hi2]
  exact congrArg some (Prod.ext hc2 h2)

/-- C17 (amended): in the palettes `Quantize` builds in two runs on the same
input, the `min(256, d)` first entries are in order of descending frequency, the
entries at the same index have the same frequency in both runs (the order among
colours of equal frequency follows the map iteration order and `sort.Slice` of
the run), and the two palettes are equal when no two distinct colours of the
input have the same frequency. -/
theorem palette_order (rt1 rt2 : Runtime) (hv1 : rt1.Valid) (hv2 : rt2.Valid) (img : ImageData) :
    ∃ out1 out2 : ImageData, Quantize rt1 img = .ok out1 ∧ Quantize rt2 img = .ok out2 ∧
      (∀ (i j : Nat) (c1 c2 : ColorRGB), i < j → j < min 256 img.Pix.dedup.length →
        out1.Palette[i]? = some c1 → out1.Palette[j]? = some c2 →
        img.Pix.count c2 ≤ img.Pix.count c1) ∧
      (∀ (i : Nat) (c1 c2 : ColorRGB), i < min 256 img.Pix.dedup.length →
        out1.Palette[i]? = some c1 → out2.Palette[i]? = some c2 →
        img.Pix.count c1 = img.Pix.count c2) ∧
      ((∀ a b : ColorRGB, a ∈ img.Pix → b ∈ img.Pix → img.Pix.count a = img.Pix.count b → a = b) →
        out1.Palette = out2.Palette) := by
  have hl1 := sortedColors_length rt1 hv1 img.Pix
  have hl2 := sortedColors_length rt2 hv2 img.Pix
  have hsame : ∀ (i : Nat) (c1 c2 : ColorRGB), i < min 256 img.Pix.dedup.length →
      (buildPalette (sortedColors rt1 img.Pix))[i]? = some c1 →
      (buildPalette (sortedColors rt2 img.Pix))[i]? = some c2 →
      img.Pix.count c1 = img.Pix.count c2 := by
    intro i c1 c2 hi h1 h2
    have e1 := (palette_entry rt1 hv1 img.Pix i c1 hi h1).2
    have e2 := (palette_entry rt2 hv2 img.Pix i c2 hi h2).2
    have h := congrArg (fun l => l[i]?) (sortedColors_counts_eq rt1 rt2 hv1 hv2 img.Pix)
    simp only [List.getElem?_map, e1, e2, Option.map_some', Option.some.injEq] at h
    exact h
  refine ⟨_, _, Quantize_eq rt1 hv1 img, Quantize_eq rt2 hv2 img, ?_, hsame, ?_⟩
  · intro i j c1 c2 hij hj h1 h2
    have hj2 : j < (sortedColors rt1 img.Pix).length := by omega
    have e1 := (palette_entry rt1 hv1 img.Pix i c1 (by omega) h1).2
    have e2 := (palette_entry rt1 hv1 img.Pix j c2 hj h2).2
    have hs := sortedColors_sorted rt1 hv1 img.Pix i j hij hj2
    rw [List.getD_eq_getElem?_getD, List.getD_eq_getElem?_getD, e1, e2] at hs
    exact hs
  · intro hinj
    simp only
    apply List.ext_getElem?
    intro i
    by_cases hi : i < 256
    · by_cases hi2 : i < img.Pix.dedup.length
      · have hA : i < (sortedColors rt1 img.Pix).length := by omega
        have hB : i < (sortedColors rt2 img.Pix).length := by omega
        have p1 := buildPalette_getElem? (sortedColors rt1 img.Pix) i hi
        have p2 := buildPalette_getElem? (sortedColors rt2 img.Pix) i hi
        rw [if_pos hA] at p1
        rw [if_pos hB] at p2
        have m1 := (palette_entry rt1 hv1 img.Pix i _ (by omega) p1).1
        have m2 := (palette_entry rt2 hv2 img.Pix i _ (by omega) p2).1
        have hcnt := hsame i _ _ (by omega) p1 p2
        rw [p1, p2, hinj _ _ m1 m2 hcnt]
      · rw [buildPalette_getElem? _ i hi, buildPalette_getElem? _ i hi, if_neg (by omega),
          if_neg (by omega)]
    · rw [List.getElem?_eq_none (by rw [buildPalette_length]; omega),
        List.getElem?_eq_none (by rw [buildPalette_length]; omega)]

/-- Witness for C17 (amended): the two runtimes of the counterexample on the
2x2 sample buffer. -/
theorem palette_order_witness :
    ∃ out1 out2 : ImageData, Quantize (simpleRuntime 1) sampleBuffer = .ok out1 ∧
      Quantize (reversingRuntime 1) sampleBuffer = .ok out2 ∧
      (∀ (i : Nat) (c1 c2 : ColorRGB), i < min 256 sampleBuffer.Pix.dedup.length →
        out1.Palette[i]? = some c1 → out2.Palette[i]? = some c2 →
        sampleBuffer.Pix.count c1 = sampleBuffer.Pix.count c2) := by
  obtain ⟨o1, o2, h1, h2, _, h4, _⟩ := palette_order (simpleRuntime 1) (reversingRuntime 1)
    (simpleRuntime_valid 1 (by decide)) (reversingRuntime_valid 1 (by decide)) sampleBuffer
  exact ⟨o1, o2, h1, h2, h4⟩


/-! ### The colour-resolving round trip -/

/-- C20 fails as stated: the buffer of width `2^31` and height 1 has positive
width and height and `len(Pix) = Width*Height`, but `SaveBMP` writes its width as
the 32-bit field `0x80000000`, `LoadBMP` reads it back as `-2^31`, and
`make([]byte, rowSize*h)` panics: no buffer is returned. -/
theorem roundtrip_wide_counterexample :
    0 < wideBuffer.Width ∧ 0 < wideBuffer.Height ∧
    (wideBuffer.Pix.length : Int) = wideBuffer.Width * wideBuffer.Height ∧
    wideBuffer.Palette.length = 256 ∧
    saveThenLoad wideBuffer = .error .panic := by
  refine ⟨?_, ?_, ?_, List.length_replicate 256 black, ?_⟩
  · show (0 : Int) < ((2147483648 : Nat) : Int)
    decide
  · show (0 : Int) < ((1 : Nat) : Int)
    decide
  · show ((List.replicate 2147483648 black).length : Int)
      = ((2147483648 : Nat) : Int) * ((1 : Nat) : Int)
    rw [List.length_replicate]
    decide
  · exact saveThenLoad_negative_size 2147483648 1 (List.replicate 2147483648 black) zeroPalette
      true wide_length wide_row_negative

theorem getElem?_bmpPaletteBytes (pal : List ColorRGB) (k j : Nat) (hk : k < 256) (hj : j < 4) :
    (bmpPaletteBytes pal)[k * 4 + j]? = (bgr0 (pal.getD k black))[j]? := by
  rw [bmpPaletteBytes_eq, List.flatMap_def]
  apply getElem?_flatten_uniform 4 _ k j _ _ _ hj
  · intro l hl
    obtain ⟨c, _, rfl⟩ := List.mem_map.mp hl
    rfl
  · rw [List.getElem?_map, List.getElem?_map, List.getElem?_range hk]
    rfl

/-- C20 (amended): for an indexed buffer with `Width > 0`, `Height > 0`,
`len(Pix) = Width*Height`, a 256-entry palette and pixel data of at most `2^30`
bytes (`rowSize*Height ≤ maxRW` with `rowSize = (Width+3) &^ 3`, what one `Read`
call delivers), `SaveBMP` writes palette entry `k` as the four bytes `B, G, R, 0`
at offset `54 + 4k`, and `LoadBMP` on the bytes written returns a buffer of the
same width and height, with `Width*Height` pixels, whose pixel `i` is the
palette colour `Palette[Pix[i].R]`. -/
theorem colour_resolving_roundtrip (img : ImageData) (hw : 0 < img.Width) (hh : 0 < img.Height)
    (hcap : saveRowSize img.Width * img.Height ≤ (maxRW : Int))
    (hlen : (img.Pix.length : Int) = img.Width * img.Height) (hpal : img.Palette.length = 256) :
    ∃ (bytes : List Byte) (out : ImageData), SaveBMP img = .ok bytes ∧ LoadBMP bytes = .ok out ∧
      out.Width = img.Width ∧ out.Height = img.Height ∧
      (out.Pix.length : Int) = img.Width * img.Height ∧
      (∀ (k : Nat) (c : ColorRGB), img.Palette[k]? = some c →
        bytes[54 + k * 4]? = some c.B ∧ bytes[54 + k * 4 + 1]? = some c.G ∧
        bytes[54 + k * 4 + 2]? = some c.R ∧ bytes[54 + k * 4 + 3]? = some 0) ∧
      (∀ (i : Nat) (p : ColorRGB), img.Pix[i]? = some p →
        ∃ c : ColorRGB, img.Palette[p.R.val]? = some c ∧ out.Pix[i]? = some c) := by
  obtain ⟨w, h, hw0, hh0, hwe, hhe, hl, himg⟩ := exists_nat_dims img hw hh hlen
  have hsave := SaveBMP_eq w h img.Pix img.Palette img.HasPal hl
  rw [hwe, hhe, saveRowSize_stride] at hcap
  obtain ⟨outPix, hrt, hlen2, hpix⟩ := saveThenLoad_spec w h hw0 hh0 (by exact_mod_cast hcap)
    img.Pix img.Palette img.HasPal hl
  simp only [saveThenLoad, hsave] at hrt
  rw [← himg] at hsave
  refine ⟨_, _, hsave, hrt, hwe.symm, hhe.symm, ?_, ?_, ?_⟩
  · simp only
    rw [hlen2, hwe, hhe]
    push_cast
    rfl
  · intro k c hc
    have hk : k < 256 := by
      by_contra hge
      rw [List.getElem?_eq_none (by omega)] at hc
      cases hc
    have hget : img.Palette.getD k black = c := by
      rw [List.getD_eq_getElem?_getD, hc]
      rfl
    have hb : ∀ j, j < 4 →
        (bmpFileHeader (54 + 256 * 4 + (stride w : Int) * (h : Int))
          ++ bmpDibHeader w h ((stride w : Int) * (h : Int)) ++ bmpPaletteBytes img.Palette
          ++ ((List.range h).reverse.map (bmpRow img.Pix w (stride w))).flatten)[54 + k * 4 + j]?
        = (bgr0 c)[j]? := by
      intro j hj
      rw [List.getElem?_append_left (by rw [length_bmpPrefix]; omega),
        List.getElem?_append_right (by
          rw [List.length_append, length_bmpFileHeader, length_bmpDibHeader]; omega),
        List.length_append, length_bmpFileHeader, length_bmpDibHeader,
        show 54 + k * 4 + j - (14 + 40) = k * 4 + j by omega,
        getElem?_bmpPaletteBytes _ k j hk hj, hget]
    exact ⟨hb 0 (by omega), hb 1 (by omega), hb 2 (by omega), hb 3 (by omega)⟩
  · intro i p hp
    have hi : i < img.Pix.length := by
      by_contra hge
      rw [List.getElem?_eq_none (by omega)] at hp
      cases hp
    have hget : img.Pix.getD i black = p := by
      rw [List.getD_eq_getElem?_getD, hp]
      rfl
    have hidx : p.R.val < img.Palette.length := by
      rw [hpal]
      exact p.R.isLt
    refine ⟨img.Palette.getD p.R.val black, ?_, ?_⟩
    · rw [List.getD_eq_getElem _ _ hidx, List.getElem?_eq_getElem hidx]
    · simp only
      rw [hpix i (by omega), hget]

/-- Witness for C20 (amended): the 1x1 indexed buffer with palette `(1,2,3)`. -/
theorem colour_resolving_roundtrip_witness :
    ∃ (bytes : List Byte) (out : ImageData), SaveBMP indexedPixel = .ok bytes ∧
      LoadBMP bytes = .ok out ∧ out.Width = indexedPixel.Width ∧ out.Pix[0]? = some ⟨1, 2, 3⟩ := by
  obtain ⟨bytes, out, h1, h2, h3, _, _, _, h7⟩ := colour_resolving_roundtrip indexedPixel
    (by decide) (by decide) (by
      show saveRowSize ((1 : Nat) : Int) * ((1 : Nat) : Int) ≤ (maxRW : Int)
      rw [saveRowSize_stride]
      decide) (by decide) (List.length_replicate 256 _)
  obtain ⟨c, hc, hout⟩ := h7 0 ⟨0, 0, 0⟩ rfl
  have hc2 : c = ⟨1, 2, 3⟩ := by
    have h0 : indexedPixel.Palette[(0 : Nat)]? = some ⟨1, 2, 3⟩ := by
      show (List.replicate 256 (⟨1, 2, 3⟩ : ColorRGB))[(0 : Nat)]? = some ⟨1, 2, 3⟩
      rw [List.getElem?_replicate]
      rfl
    have h0b : indexedPixel.Palette[((⟨0, 0, 0⟩ : ColorRGB).R).val]? = some ⟨1, 2, 3⟩ := h0
    rw [h0b] at hc
    exact (Option.some.inj hc).symm
  rw [hc2] at hout
  exact ⟨bytes, out, h1, h2, h3, hout⟩


end Pcx2Bmp
